import Mathlib

/-!
# Kubernetes scanner (`pkg/k8s/scanner/scanner.go`): a shallow embedding

Go strings are modelled by Lean `String`s, read as sequences of Unicode code
points (valid UTF-8 text); on such text the byte-level search of the Go
`strings` package and the code-point-level search below find the same
occurrences.  Go errors are modelled by their message (`err.Error()`), so
`xerrors.Errorf("ctx: %w", err)` is a concatenation.
-/

namespace Strings

/-- The Go function `strings.HasPrefix(s, prefix)`. -/
def HasPrefix (s pre : String) : Bool :=
  pre.data.isPrefixOf s.data

/-- The Go function `strings.TrimPrefix(s, prefix)`: `s[len(prefix):]` when `s` starts with
`prefix`, otherwise `s` itself. -/
def TrimPrefix (s pre : String) : String :=
  if HasPrefix s pre then ⟨s.data.drop pre.data.length⟩ else s

/-- Position of the first occurrence of `sub` in `s`, if there is one. -/
def indexOf (sub : List Char) : List Char → Option Nat
  | [] => if sub.isPrefixOf [] then some 0 else none
  | c :: t => if sub.isPrefixOf (c :: t) then some 0 else (indexOf sub t).map (· + 1)

/-- The Go function `strings.Index(s, substr)`: the index of the first occurrence, or `-1`. -/
def Index (s sub : String) : Int :=
  match indexOf sub.data s.data with
  | some i => (i : Int)
  | none => -1

/-- The loop of Go's `genSplit` for a non-empty separator: at most `n` times, cut the text at
the first occurrence of the separator; what remains is the last part. -/
def genSplit (sep : List Char) : Nat → List Char → List (List Char)
  | 0, s => [s]
  | n + 1, s =>
    match indexOf sep s with
    | none => [s]
    | some m => s.take m :: genSplit sep n (s.drop (m + sep.length))

/-- The Go function `strings.Split(s, sep)` for a non-empty `sep`.  Go runs the loop
`Count(s, sep)` times; the length of `s` bounds that count, and further rounds change
nothing (see `genSplit_fuel`). -/
def Split (s sep : String) : List String :=
  (genSplit sep.data s.data.length s.data).map String.mk

/-- The Go function `unicode.IsSpace`: the code points with the Unicode White_Space property. -/
def IsSpace (c : Char) : Bool :=
  let n := c.toNat
  (9 ≤ n && n ≤ 13) || n == 32 || n == 0x85 || n == 0xA0 || n == 0x1680 ||
    (0x2000 ≤ n && n ≤ 0x200A) || n == 0x2028 || n == 0x2029 || n == 0x202F ||
    n == 0x205F || n == 0x3000

/-- The Go function `strings.TrimSpace(s)`: all leading and trailing white space removed. -/
def TrimSpace (s : String) : String :=
  ⟨((s.data.dropWhile IsSpace).reverse.dropWhile IsSpace).reverse⟩

/-- The Go function `unicode.ToLower` on one code point: ASCII capitals are shifted by
`'a' - 'A'`, other ASCII is unchanged, and anything else goes through the Unicode case table
`tbl` (data of the Go runtime, a parameter here). -/
def toLowerRune (tbl : Char → Char) (c : Char) : Char :=
  if c.toNat ≤ 127 then
    if 65 ≤ c.toNat ∧ c.toNat ≤ 90 then Char.ofNat (c.toNat + 32) else c
  else tbl c

/-- The Go function `strings.ToLower(s)`: `unicode.ToLower` mapped over the code points. -/
def ToLower (tbl : Char → Char) (s : String) : String :=
  ⟨s.data.map (toLowerRune tbl)⟩

end Strings

/-! ## Data model -/

/-- A Go `error`, by its message. -/
abbrev Error := String

/-- A Go `map[string]string`, as an association list; a map literal is listed in the order
in which the source writes it. -/
abbrev StringMap := List (String × String)

/-- The CycloneDX component types used by the scanner (`cdx.ComponentType*`). -/
inductive ComponentType where
  | Container
  | Application
  | OS
  | Library
  deriving DecidableEq, Repr

/-- The struct `packageurl.PackageURL`, as filled in by `packageurl.NewPackageURL`. -/
structure PackageURL where
  Type_ : String
  Namespace : String
  Name : String
  Version : String
  Qualifiers : StringMap
  Subpath : String
  deriving DecidableEq, Repr

/-- The struct `core.Component`, with the fields the scanner sets; `PackageURL` is a pointer
in Go (`none` is `nil`), `Components` are the children. -/
inductive Component where
  | mk (Type_ : ComponentType) (Name Version : String) (PackageURL : Option PackageURL)
      (Properties : StringMap) (Components : List Component)
  deriving Repr

/-- Field `Type` of a component. -/
def Component.Type_ : Component → ComponentType
  | .mk t _ _ _ _ _ => t

/-- Field `Name` of a component. -/
def Component.Name : Component → String
  | .mk _ n _ _ _ _ => n

/-- Field `Version` of a component. -/
def Component.Version : Component → String
  | .mk _ _ v _ _ _ => v

/-- Field `PackageURL` of a component. -/
def Component.PackageURL : Component → Option PackageURL
  | .mk _ _ _ p _ _ => p

/-- Field `Properties` of a component. -/
def Component.Properties : Component → StringMap
  | .mk _ _ _ _ ps _ => ps

/-- Field `Components` of a component: its children. -/
def Component.Components : Component → List Component
  | .mk _ _ _ _ _ cs => cs

/-- The struct `bom.Container` of trivy-kubernetes. -/
structure Container where
  ID : String
  Version : String
  Repository : String
  Registry : String
  Digest : String
  deriving DecidableEq, Repr

/-- The struct `bom.Component` of trivy-kubernetes: a decoded pod. -/
structure PodInfo where
  Namespace : String
  Name : String
  Containers : List Container
  Properties : StringMap
  deriving DecidableEq, Repr

/-- The struct `bom.NodeInfo` of trivy-kubernetes: a decoded node. -/
structure NodeInfo where
  NodeName : String
  KubeletVersion : String
  ContainerRuntimeVersion : String
  OsImage : String
  Properties : StringMap
  deriving DecidableEq, Repr

/-- The struct `artifacts.Artifact` of trivy-kubernetes; `Raw` is the type of the undecoded
payload (`map[string]interface{}` in Go). -/
structure Artifact (Raw : Type) where
  Namespace : String
  Kind : String
  Name : String
  Images : List String
  RawResource : Raw

/-- The scanners of `types.Scanner`. -/
inductive ScannerKind where
  | Vulnerability
  | Misconfig
  | Secret
  | RBAC
  | License
  deriving DecidableEq, Repr

/-- The fields of `flag.Options` that `scanner.go` reads or writes. -/
structure Options where
  Target : String
  Format : String
  Scanners : List ScannerKind
  Debug : Bool
  Quiet : Bool
  Parallel : Nat
  deriving DecidableEq, Repr

/-- Modelled from the spec: the method `Scanners.AnyEnabled` of `pkg/types`, which is not
under `src/`: some scanner of `ss` is among the enabled ones. -/
def AnyEnabled (scanners : List ScannerKind) (ss : List ScannerKind) : Bool :=
  ss.any (fun k => decide (k ∈ scanners))

/-- Modelled from the spec: the function `local.ShouldScanMisconfigOrRbac` of
`pkg/scanner/local`, which is not under `src/`: misconfiguration or RBAC scanning is on. -/
def ShouldScanMisconfigOrRbac (scanners : List ScannerKind) : Bool :=
  AnyEnabled scanners [ScannerKind.Misconfig, ScannerKind.RBAC]

/-- Modelled from the spec: the struct `report.Resource` of `pkg/k8s/report`, which is not
under `src/`: the identity of the artifact, the report payload and the scan error, if any. -/
structure Resource (Report : Type) where
  Namespace : String
  Kind : String
  Name : String
  Report : Report
  Error : Option Error
  deriving DecidableEq, Repr

/-- The zero value `report.Resource{}`. -/
def Resource.zero {Report : Type} [Inhabited Report] : Resource Report :=
  { Namespace := "", Kind := "", Name := "", Report := default, Error := none }

/-- Modelled from the spec: the function `report.CreateResource` of `pkg/k8s/report`, which
is not under `src/`: a Resource for the artifact that carries the report and, when the scan
failed, the error. -/
def CreateResource {Raw Report : Type} (artifact : Artifact Raw) (r : Report)
    (err : Option Error) : Resource Report :=
  { Namespace := artifact.Namespace, Kind := artifact.Kind, Name := artifact.Name,
    Report := r, Error := err }

/-- The interface `cmd.Runner`, as far as the scanner calls it.  A collaborator reads and
changes the outside world, of type `σ`; it returns Go's pair of a report and an error. -/
structure Runner (Report σ : Type) where
  ScanImage : Options → σ → (Report × Option Error) × σ
  ScanFilesystem : Options → σ → (Report × Option Error) × σ
  Filter : Options → Report → σ → (Report × Option Error) × σ

/-- The functions `createTempFile` and `removeFile` of the package (file `io.go`, not under
`src/`), taken as given. -/
structure Files (Raw σ : Type) where
  createTempFile : Artifact Raw → σ → (String × Option Error) × σ
  removeFile : String → σ → σ

/-- The struct `Scanner`. -/
structure Scanner (Report σ : Type) where
  cluster : String
  runner : Runner Report σ
  opts : Options

/-- The local struct `scanResult` of `Scan`. -/
structure ScanResult (Report : Type) where
  vulns : List (Resource Report)
  misconfig : Resource Report
  deriving DecidableEq, Repr

/-- The zero value `scanResult{}`. -/
def ScanResult.zero {Report : Type} [Inhabited Report] : ScanResult Report :=
  { vulns := [], misconfig := Resource.zero }

/-- What the adapter takes from libraries: `version.Parse` of go-version (`true` when it
returns no error) and the Unicode case table behind `strings.ToLower`. -/
structure Lib where
  versionParses : String → Bool
  lowerTable : Char → Char

/-- What the adapter takes from outside `scanner.go` to read an artifact: the two uses of
`mapstructure.Decode`, and `purl.NewPackageURL` applied to a type and to the `RepoDigests`
of the metadata. -/
structure Decoders (Raw : Type) where
  decodePod : Raw → PodInfo × Option Error
  decodeNode : Raw → NodeInfo × Option Error
  NewPackageURL : String → List String → PackageURL × Option Error

/-! ## The scan orchestrator

Every operation takes the scanner and the world and returns Go's pair of a value and an
error, the scanner as the call leaves it (the receiver is a pointer), and the world.
Logging is left out. -/

namespace scanner

section Orchestrator

variable {Raw Report σ : Type} [Inhabited Report]

/-- The method `Scanner.filter`. -/
def filter (s : Scanner Report σ) (r : Report) (artifact : Artifact Raw) (w : σ) :
    (Resource Report × Option Error) × σ :=
  match s.runner.Filter s.opts r w with
  | ((_, some err), w) => ((Resource.zero, some ("filter error: " ++ err)), w)
  | ((r, none), w) => ((CreateResource artifact r none, none), w)

/-- The loop of `Scanner.scanVulns` over the images still to scan; `resources` is the slice
built so far. -/
def scanVulnsLoop (artifact : Artifact Raw) :
    List String → List (Resource Report) → Scanner Report σ → σ →
      (List (Resource Report) × Option Error) × Scanner Report σ × σ
  | [], resources, s, w => ((resources, none), s, w)
  | image :: rest, resources, s, w =>
    let s := { s with opts := { s.opts with Target := image } }
    match s.runner.ScanImage s.opts w with
    | ((imageReport, some err), w) =>
      scanVulnsLoop artifact rest
        (resources ++ [CreateResource artifact imageReport (some err)]) s w
    | ((imageReport, none), w) =>
      match filter s imageReport artifact w with
      | ((_, some err), w) => (([], some ("filter error: " ++ err)), s, w)
      | ((resource, none), w) => scanVulnsLoop artifact rest (resources ++ [resource]) s w

/-- The method `Scanner.scanVulns`. -/
def scanVulns (s : Scanner Report σ) (artifact : Artifact Raw) (w : σ) :
    (List (Resource Report) × Option Error) × Scanner Report σ × σ :=
  scanVulnsLoop artifact artifact.Images [] s w

/-- The method `Scanner.scanMisconfigs`. -/
def scanMisconfigs (files : Files Raw σ) (s : Scanner Report σ) (artifact : Artifact Raw)
    (w : σ) : (Resource Report × Option Error) × Scanner Report σ × σ :=
  match files.createTempFile artifact w with
  | ((_, some err), w) => ((Resource.zero, some ("scan error: " ++ err)), s, w)
  | ((configFile, none), w) =>
    let s := { s with opts := { s.opts with Target := configFile } }
    match s.runner.ScanFilesystem s.opts w with
    | ((configReport, err), w) =>
      let w := files.removeFile configFile w
      match err with
      | some e => ((CreateResource artifact configReport (some e), some e), s, w)
      | none =>
        match filter s configReport artifact w with
        | (out, w) => (out, s, w)

/-- The second half of the closure `onItem` of `Scan`: the misconfiguration scan, when it is
enabled, and the return. -/
def onItemMisconfig (files : Files Raw σ) (s : Scanner Report σ) (artifact : Artifact Raw)
    (scanResults : ScanResult Report) (w : σ) :
    (ScanResult Report × Option Error) × Scanner Report σ × σ :=
  if ShouldScanMisconfigOrRbac s.opts.Scanners then
    match scanMisconfigs files s artifact w with
    | ((_, some err), s, w) =>
      ((ScanResult.zero, some ("scanning misconfigurations error: " ++ err)), s, w)
    | ((misconfig, none), s, w) => (({ scanResults with misconfig := misconfig }, none), s, w)
  else ((scanResults, none), s, w)

/-- The closure `onItem` of `Scan`. -/
def onItem (files : Files Raw σ) (s : Scanner Report σ) (artifact : Artifact Raw) (w : σ) :
    (ScanResult Report × Option Error) × Scanner Report σ × σ :=
  if AnyEnabled s.opts.Scanners [ScannerKind.Vulnerability, ScannerKind.Secret] then
    match scanVulns s artifact w with
    | ((_, some err), s, w) =>
      ((ScanResult.zero, some ("scanning vulnerabilities error: " ++ err)), s, w)
    | ((vulns, none), s, w) =>
      onItemMisconfig files s artifact { (ScanResult.zero) with vulns := vulns } w
  else onItemMisconfig files s artifact ScanResult.zero w

/-- The closure `onResult` of `Scan`, on the aggregate list `resources`. -/
def onResult (resources : List (Resource Report)) (result : ScanResult Report) :
    List (Resource Report) :=
  (resources ++ result.vulns) ++ [result.misconfig]

end Orchestrator

/-! ## The artifact adapter -/

/-- The constant `golang`. -/
def golang : String := "golang"

/-- The constant `oci`. -/
def oci : String := "oci"

/-- The constant `kubelet`. -/
def kubelet : String := "k8s.io/kubelet"

/-- The constant `pod`. -/
def pod : String := "PodInfo"

/-- The constant `nodeInfo`. -/
def nodeInfo : String := "NodeInfo"

/-- The constant `nodeCoreComponents`. -/
def nodeCoreComponents : String := "node-core-components"

/-- Modelled from the spec: the constant `digest.SHA256` of `pkg/digest`, which is not under
`src/`: the default digest algorithm identifier. -/
def SHA256 : String := "sha256"

/-- Modelled from the spec: the constant `cyc.PropertyPkgID` of `pkg/sbom/cyclonedx`, which
is not under `src/`; the value is the key of the encoder test. -/
def PropertyPkgID : String := "PkgID"

/-- Modelled from the spec: the constant `cyc.PropertyPkgType` of `pkg/sbom/cyclonedx`,
which is not under `src/`; the value is the key of the encoder test. -/
def PropertyPkgType : String := "PkgType"

/-- Modelled from the spec: the constant `types.ClassOSPkg` of `pkg/types`, which is not
under `src/`; the value is that of the encoder test. -/
def ClassOSPkg : String := "os-pkgs"

/-- Modelled from the spec: the constant `types.ClassLangPkg` of `pkg/types`, which is not
under `src/`; the value is that of the encoder test. -/
def ClassLangPkg : String := "lang-pkgs"

/-- Modelled from the spec: the constant `purl.TypeOCI` of `pkg/purl`, which is not under
`src/`: the package type of an OCI image. -/
def TypeOCI : String := "oci"

/-- The constructor `packageurl.NewPackageURL`: it stores its arguments. -/
def NewPackageURL (typ ns name version : String) (qualifiers : StringMap)
    (subpath : String) : PackageURL :=
  { Type_ := typ, Namespace := ns, Name := name, Version := version,
    Qualifiers := qualifiers, Subpath := subpath }

/-- The function `sanitizedVersion`. -/
def sanitizedVersion (version : String) : String :=
  Strings.TrimPrefix version "v"

/-- The loop of `osNameVersion` over the parts still to read; it returns the buffer and
`v`. -/
def osNameVersionLoop (lib : Lib) : List String → String → String × String
  | [], buffer => (buffer, "")
  | p :: rest, buffer =>
    if lib.versionParses p then (buffer, p)
    else osNameVersionLoop lib rest (buffer ++ (p ++ " "))

/-- The function `osNameVersion`. -/
def osNameVersion (lib : Lib) (name : String) : String × String :=
  let parts := Strings.Split name " "
  match osNameVersionLoop lib parts "" with
  | (buffer, v) => (Strings.ToLower lib.lowerTable (Strings.TrimSpace buffer), v)

/-- The function `runtimeNameVersion`. -/
def runtimeNameVersion (name : String) : String × String :=
  match Strings.Split name "://" with
  | [p0, p1] =>
    let name :=
      if p0 = "cri-o" then "github.com/cri-o/cri-o"
      else if p0 = "containerd" then "github.com/containerd/containerd"
      else if p0 = "cri-dockerd" then "github.com/Mirantis/cri-dockerd"
      else p0
    (name, p1)
  | _ => ("", "")

/-- The function `nodeComponent`. -/
def nodeComponent (lib : Lib) (nf : NodeInfo) : Component :=
  match osNameVersion lib nf.OsImage, runtimeNameVersion nf.ContainerRuntimeVersion with
  | (osName, osVersion), (runtimeName, runtimeVersion) =>
    let kubeletVersion := sanitizedVersion nf.KubeletVersion
    Component.mk ComponentType.Container nf.NodeName "" none nf.Properties [
      Component.mk ComponentType.OS osName osVersion none
        [("Class", ClassOSPkg), ("Type", osName)] [],
      Component.mk ComponentType.Application nodeCoreComponents "" none
        [("Class", ClassLangPkg), ("Type", golang)] [
          Component.mk ComponentType.Library kubelet kubeletVersion
            (some (NewPackageURL golang "" kubelet kubeletVersion [] ""))
            [(PropertyPkgType, golang)] [],
          Component.mk ComponentType.Library runtimeName runtimeVersion
            (some (NewPackageURL golang "" runtimeName runtimeVersion [] ""))
            [(PropertyPkgType, golang)] []]]

/-- The local `cDigest` of `clusterInfoToReportResources`: the digest of a container,
qualified with the algorithm when `strings.Index` does not find the algorithm in it. -/
def cDigest (digest : String) : String :=
  if Strings.Index digest SHA256 = -1 then SHA256 ++ ":" ++ digest else digest

/-- The body of the loop of `clusterInfoToReportResources` over the containers of a pod:
the component of one container, or the error with which the function returns. -/
def imageComponent {Raw : Type} (dec : Decoders Raw) (c : Container) :
    Except Error Component :=
  let name := c.Registry ++ "/" ++ c.Repository
  let version := sanitizedVersion c.Version
  match dec.NewPackageURL TypeOCI [name ++ "@" ++ cDigest c.Digest] with
  | (_, some err) => .error ("failed to create PURL: " ++ err)
  | (imagePURL, none) =>
    .ok (Component.mk ComponentType.Container name (cDigest c.Digest) (some imagePURL)
      [(PropertyPkgID, name ++ ":" ++ version), (PropertyPkgType, oci)] [])

/-- The loop of `clusterInfoToReportResources` over the containers of a pod;
`imageComponents` is the slice built so far. -/
def imageComponentsLoop {Raw : Type} (dec : Decoders Raw) :
    List Container → List Component → Except Error (List Component)
  | [], imageComponents => .ok imageComponents
  | c :: rest, imageComponents =>
    match imageComponent dec c with
    | .error err => .error err
    | .ok comp => imageComponentsLoop dec rest (imageComponents ++ [comp])

/-- One round of the loop of `clusterInfoToReportResources` over the artifacts: the
component of one artifact, or the error with which the function returns. -/
def artifactComponent {Raw : Type} (lib : Lib) (dec : Decoders Raw) (artifact : Artifact Raw) :
    Except Error Component :=
  if artifact.Kind = pod then
    match dec.decodePod artifact.RawResource with
    | (_, some err) => .error err
    | (comp, none) =>
      match imageComponentsLoop dec comp.Containers [] with
      | .error err => .error err
      | .ok imageComponents =>
        .ok (Component.mk ComponentType.Application comp.Name "" none comp.Properties
          imageComponents)
  else if artifact.Kind = nodeInfo then
    match dec.decodeNode artifact.RawResource with
    | (_, some err) => .error err
    | (nf, none) => .ok (nodeComponent lib nf)
  else .error ("resource kind " ++ artifact.Kind ++ " is not supported")

/-- The loop of `clusterInfoToReportResources` over the artifacts; `coreComponents` is the
slice built so far. -/
def coreComponentsLoop {Raw : Type} (lib : Lib) (dec : Decoders Raw) :
    List (Artifact Raw) → List Component → Except Error (List Component)
  | [], coreComponents => .ok coreComponents
  | artifact :: rest, coreComponents =>
    match artifactComponent lib dec artifact with
    | .error err => .error err
    | .ok comp => coreComponentsLoop lib dec rest (coreComponents ++ [comp])

/-- The function `clusterInfoToReportResources`: Go's pair of the root (a pointer, `none`
is `nil`) and the error. -/
def clusterInfoToReportResources {Raw : Type} (lib : Lib) (dec : Decoders Raw)
    (allArtifact : List (Artifact Raw)) (clusterName : String) :
    Option Component × Option Error :=
  match coreComponentsLoop lib dec allArtifact [] with
  | .error err => (none, some err)
  | .ok coreComponents =>
    (some (Component.mk ComponentType.Container clusterName "" none [] coreComponents), none)

end scanner

/-- A stand-in for `version.Parse`: digits in groups separated by single dots.  go-version
accepts every such text; it rejects the empty text and a text that starts with a letter
other than `v`. -/
def dottedNumber (s : String) : Bool :=
  (s.data.splitOn (Char.ofNat 46)).all (fun g => !g.isEmpty && g.all Char.isDigit)

/-- The library instance used in examples. -/
def exampleLib : Lib :=
  { versionParses := dottedNumber, lowerTable := id }

/-! ## The encoder (`pkg/sbom/cyclonedx/core`)

The package is not under `src/`; its test is.  The definitions of this section follow the
specification of the encoder, and the order of the output follows the expected document of
the test. -/

namespace Strings

/-- Go's order `a <= b` on strings, on the code points: the first difference decides, and a
prefix comes first. -/
def lessEqChars : List Char → List Char → Bool
  | [], _ => true
  | _ :: _, [] => false
  | a :: as, b :: bs =>
    if a.toNat < b.toNat then true
    else if b.toNat < a.toNat then false
    else lessEqChars as bs

/-- Go's order `a <= b` on strings. -/
def lessEq (a b : String) : Bool :=
  lessEqChars a.data b.data

/-- The Go function `sort.Strings`, as an insertion sort. -/
def SortStrings (l : List String) : List String :=
  l.insertionSort (fun a b => lessEq a b = true)

end Strings

namespace cdx

/-- The struct `cdx.Property`. -/
structure Property where
  Name : String
  Value : String
  deriving DecidableEq, Repr

/-- The struct `cdx.Component`, with the fields that the components of the scanner fill. -/
structure Component where
  BOMRef : String
  Type_ : ComponentType
  Name : String
  Version : String
  PackageURL : String
  Properties : List Property
  deriving DecidableEq, Repr

/-- The struct `cdx.Dependency`: a reference and the references it depends on. -/
structure Dependency where
  Ref : String
  Dependencies : List String
  deriving DecidableEq, Repr

/-- The struct `cdx.Tool`. -/
structure Tool where
  Name : String
  Vendor : String
  Version : String
  deriving DecidableEq, Repr

/-- The struct `cdx.Metadata`. -/
structure Metadata where
  Timestamp : String
  Tools : List Tool
  Component : Component
  deriving DecidableEq, Repr

/-- The struct `cdx.BOM`, as far as the encoder fills it. -/
structure BOM where
  BOMFormat : String
  SpecVersion : String
  Version : Nat
  SerialNumber : String
  Metadata : Metadata
  Components : List Component
  Dependencies : List Dependency
  deriving DecidableEq, Repr

end cdx

namespace core

/-- Modelled from the spec: the encoder `core.CycloneDX` of `pkg/sbom/cyclonedx/core`, which
is not under `src/`, with what is injected into it: the version of the tool, the reading of
the clock, the ID generator (`newUUID n` is the value of its call number `n`, counted from
0) and the rendering of a package URL as the identity string. -/
structure CycloneDX where
  version : String
  clock : String
  newUUID : Nat → String
  purl : PackageURL → String

/-- Modelled from the spec: the fixed vendor and tool namespace of rendered property keys. -/
def Namespace : String := "aquasecurity:trivy:"

/-- Modelled from the spec: the rendering of the properties of a component: every key gets
the namespace in front, and the pairs are put in the order of their keys. -/
def Properties (props : StringMap) : List cdx.Property :=
  (props.map (fun kv => ({ Name := Namespace ++ kv.1, Value := kv.2 } : cdx.Property))).insertionSort
    (fun a b => Strings.lessEq a.Name b.Name = true)

/-- Modelled from the spec: the reference identifier of a component, and the number of the
next call of the generator: the identity string when the component carries an identity, and
otherwise a fresh value of the generator. -/
def BOMRef (c : CycloneDX) (component : Component) (next : Nat) : String × Nat :=
  match component.PackageURL with
  | some p => (c.purl p, next)
  | none => (c.newUUID next, next + 1)

/-- Modelled from the spec: the rendered form of a component under a reference: type, name,
version, properties, and the identity string as package locator when there is one. -/
def render (c : CycloneDX) (component : Component) (ref : String) : cdx.Component :=
  { BOMRef := ref, Type_ := component.Type_, Name := component.Name,
    Version := component.Version,
    PackageURL := match component.PackageURL with
      | some p => c.purl p
      | none => "",
    Properties := Properties component.Properties }

/-- Modelled from the spec: the state of the traversal of the encoder: the number of the next
call of the generator, the components emitted so far in the order of emission (the flat
list with its lookup by reference), and the dependency entries recorded so far. -/
structure MarshalState where
  next : Nat
  components : List cdx.Component
  dependencies : List cdx.Dependency
  deriving DecidableEq, Repr

/-- Modelled from the spec: the lookup of the encoder by reference: whether a component
with this reference has been emitted. -/
def emitted (st : MarshalState) (ref : String) : Bool :=
  st.components.any (fun e => e.BOMRef == ref)

/-- Modelled from the spec: the recording of the dependency entry of `ref`: the entry of
`ref` becomes `refs`; it is replaced when there is one and added otherwise. -/
def setDependencies (deps : List cdx.Dependency) (ref : String) (refs : List String) :
    List cdx.Dependency :=
  if deps.any (fun d => d.Ref == ref) then
    deps.map (fun d => if d.Ref == ref then { Ref := ref, Dependencies := refs } else d)
  else deps ++ [{ Ref := ref, Dependencies := refs }]

/-- Modelled from the spec: the emission of a component: the state in which its children
are visited, where the component is in the flat list under the reference `r.1` and `r.2` is
the number of the next call of the generator. -/
def enter (c : CycloneDX) (component : Component) (st : MarshalState) (r : String × Nat) :
    MarshalState :=
  { st with next := r.2, components := st.components ++ [render c component r.1] }

mutual

/-- Modelled from the spec: the visit of a component below the root.  Its reference is
computed; when a component with this reference has been emitted, that entry is reused and
the subtree adds nothing; otherwise the rendered form is emitted, the children are visited
in source order, and the entry of the reference is recorded with the references of the
children, sorted (empty when there are no children).  The reference is returned to the
parent. -/
def MarshalComponent (c : CycloneDX) : Component → MarshalState → String × MarshalState
  | .mk t name version purl props children, st =>
    let r := BOMRef c (.mk t name version purl props children) st.next
    if emitted st r.1 then (r.1, { st with next := r.2 })
    else
      let out := MarshalComponents c children
        (enter c (.mk t name version purl props children) st r)
      (r.1, { out.2 with
        dependencies := setDependencies out.2.dependencies r.1 (Strings.SortStrings out.1) })

/-- Modelled from the spec: the visit of the children of a component, in source order; the
references of the children are returned. -/
def MarshalComponents (c : CycloneDX) : List Component → MarshalState → List String × MarshalState
  | [], st => ([], st)
  | child :: rest, st =>
    let first := MarshalComponent c child st
    let others := MarshalComponents c rest first.2
    (first.1 :: others.1, others.2)

end

/-- Modelled from the spec: the method `Marshal` of the encoder.  The serial number takes the
first value of the generator; the reference of the root is computed next, as that of every
component: its identity string when it carries an identity, and otherwise the second value
of the generator; the root is the component of the metadata and is not in the flat list;
the children are visited; the flat list and the dependency entries are put in the order of
their references. -/
def Marshal (c : CycloneDX) (root : Component) : cdx.BOM :=
  let rootRef := (BOMRef c root 1).1
  let out := MarshalComponents c root.Components
    { next := (BOMRef c root 1).2, components := [], dependencies := [] }
  { BOMFormat := "CycloneDX",
    SpecVersion := "1.4",
    Version := 1,
    SerialNumber := "urn:uuid:" ++ c.newUUID 0,
    Metadata :=
      { Timestamp := c.clock,
        Tools := [{ Name := "trivy", Vendor := "aquasecurity", Version := c.version }],
        Component := render c root rootRef },
    Components := out.2.components.insertionSort
      (fun a b => Strings.lessEq a.BOMRef b.BOMRef = true),
    Dependencies := (setDependencies out.2.dependencies rootRef (Strings.SortStrings out.1)).insertionSort
      (fun a b => Strings.lessEq a.Ref b.Ref = true) }

end core

/-- The ID generator of the encoder test: call number `n` gives the UUID that ends in
`n + 1`, written with twelve digits. -/
def testUUID (n : Nat) : String :=
  "3ff14136-e09f-4df9-80ea-" ++
    String.mk (List.replicate (12 - (Nat.repr (n + 1)).length) (Char.ofNat 48)) ++ Nat.repr (n + 1)

/-- An example rendering of a package URL: type, name and version, then the qualifiers, in
which a slash of a value is escaped. -/
def examplePurl (p : PackageURL) : String :=
  "pkg:" ++ p.Type_ ++ "/" ++ p.Name ++ "@" ++ p.Version ++
    (if p.Qualifiers = [] then ""
     else "?" ++ "&".intercalate (p.Qualifiers.map (fun kv =>
       kv.1 ++ "=" ++ String.mk (kv.2.data.flatMap
         (fun ch => if ch = Char.ofNat 47 then "%2F".data else [ch])))))

/-- The encoder of the encoder test. -/
def testEncoder : core.CycloneDX :=
  { version := "dev", clock := "2021-08-25T12:20:30+00:00", newUUID := testUUID,
    purl := examplePurl }

/-- The digest of the container of the encoder test. -/
def testDigest : String :=
  "sha256:18e61c783b41758dd391ab901366ec3546b26fae00eef7e223d1f94da808e02f"

/-- The tree of the encoder test (without the content hashes of the container). -/
def testRoot : Component :=
  Component.mk ComponentType.Container "test-cluster" "" none [] [
    Component.mk ComponentType.Application "kube-apiserver-kind-control-plane" "" none
      [("control_plane_components", "kube-apiserver")] [
        Component.mk ComponentType.Container "k8s.gcr.io/kube-apiserver" testDigest
          (some { Type_ := "oci", Namespace := "", Name := "kube-apiserver",
                  Version := testDigest,
                  Qualifiers := [("repository_url", "k8s.gcr.io/kube-apiserver"), ("arch", "")],
                  Subpath := "" })
          [("PkgID", "k8s.gcr.io/kube-apiserver:1.21.1"), ("PkgType", "oci")] []],
    Component.mk ComponentType.Container "kind-control-plane" "" none
      [("architecture", "arm64"), ("host_name", "kind-control-plane"),
       ("kernel_version", "6.2.13-300.fc38.aarch64"), ("node_role", "master"),
       ("operating_system", "linux")] [
        Component.mk ComponentType.OS "ubuntu" "21.04" none
          [("Class", "os-pkgs"), ("Type", "ubuntu")] [],
        Component.mk ComponentType.Application "node-core-components" "" none
          [("Class", "lang-pkgs"), ("Type", "golang")] [
            Component.mk ComponentType.Library "kubelet" "1.21.1"
              (some { Type_ := "golang", Namespace := "", Name := "kubelet", Version := "1.21.1",
                      Qualifiers := [], Subpath := "" })
              [("PkgType", "golang")] [],
            Component.mk ComponentType.Library "containerd" "1.5.2"
              (some { Type_ := "golang", Namespace := "", Name := "containerd",
                      Version := "1.5.2", Qualifiers := [], Subpath := "" })
              [("PkgType", "golang")] []]]]

/-! ## Vocabulary of the statements -/

/-- The number of positions of the text `s` at which `sub` occurs. -/
def Strings.occ (sub s : List Char) : Nat :=
  (s.tails.filter (fun t => sub.isPrefixOf t)).length

/-- The number of positions of `s` at which `sub` occurs. -/
def Strings.occurrences (s sub : String) : Nat :=
  Strings.occ sub.data s.data

/-- The Go function `strings.Join(elems, sep)`. -/
def Strings.Join : List String → String → String
  | [], _ => ""
  | [a], _ => a
  | a :: b :: rest, sep => a ++ sep ++ Strings.Join (b :: rest) sep

/-- An example runner on a world that lists the calls made: `ScanImage` fails on the images
of `badImages`, `ScanFilesystem` fails when `fsFails`, `Filter` fails on the reports of
`badReports`. -/
def exampleRunner (badImages : List String) (fsFails : Bool) (badReports : List String) :
    Runner String (List String) :=
  { ScanImage := fun o w =>
      if o.Target ∈ badImages then
        (("", some ("cannot pull " ++ o.Target)), w ++ ["ScanImage " ++ o.Target])
      else (("report of " ++ o.Target, none), w ++ ["ScanImage " ++ o.Target]),
    ScanFilesystem := fun o w =>
      if fsFails then
        (("", some ("cannot read " ++ o.Target)), w ++ ["ScanFilesystem " ++ o.Target])
      else (("report of " ++ o.Target, none), w ++ ["ScanFilesystem " ++ o.Target]),
    Filter := fun _ r w =>
      if r ∈ badReports then (("", some ("cannot filter " ++ r)), w ++ ["Filter " ++ r])
      else ((r ++ ", filtered", none), w ++ ["Filter " ++ r]) }

/-- Example file helpers on the same world. -/
def exampleFiles : Files Unit (List String) :=
  { createTempFile := fun a w => (("/tmp/" ++ a.Name, none), w ++ ["createTempFile " ++ a.Name]),
    removeFile := fun f w => w ++ ["removeFile " ++ f] }

/-- Example options: vulnerability and misconfiguration scanning are on. -/
def exampleOptions : Options :=
  { Target := "", Format := "table",
    Scanners := [ScannerKind.Vulnerability, ScannerKind.Misconfig],
    Debug := false, Quiet := false, Parallel := 1 }

/-- An example scanner around `exampleRunner`. -/
def exampleScanner (badImages : List String) (fsFails : Bool) (badReports : List String) :
    Scanner String (List String) :=
  { cluster := "kind", runner := exampleRunner badImages fsFails badReports,
    opts := exampleOptions }

/-- An example artifact with three images. -/
def exampleArtifact : Artifact Unit :=
  { Namespace := "default", Kind := "Pod", Name := "web",
    Images := ["nginx:1.21", "broken:0", "redis:7"], RawResource := () }

/-- The call of `ScanImage` that `scanVulns` makes for the image at position `i`: on the
options of the scanner with that image as target, in the world in which the loop over the
first `i` images of the artifact ends. -/
def scanner.imageScan {Raw Report σ : Type} [Inhabited Report] (s : Scanner Report σ)
    (a : Artifact Raw) (w : σ) (i : Nat) (image : String) : (Report × Option Error) × σ :=
  s.runner.ScanImage { s.opts with Target := image }
    (scanner.scanVulnsLoop a (a.Images.take i) [] s w).2.2

/-- The first half of the closure `onItem`: the vulnerability scan when it is enabled, and
otherwise nothing. -/
def scanner.vulnStage {Raw Report σ : Type} [Inhabited Report] (s : Scanner Report σ)
    (a : Artifact Raw) (w : σ) :
    (List (Resource Report) × Option Error) × Scanner Report σ × σ :=
  if AnyEnabled s.opts.Scanners [ScannerKind.Vulnerability, ScannerKind.Secret] then
    scanner.scanVulns s a w
  else (([], none), s, w)

/-- The call of `ScanFilesystem` that `scanMisconfigs` makes from the world `w`, after the
file `f` has been written: on the options of the scanner with `f` as target. -/
def scanner.configScan {Raw Report σ : Type} (files : Files Raw σ) (s : Scanner Report σ)
    (a : Artifact Raw) (w : σ) (f : String) : (Report × Option Error) × σ :=
  s.runner.ScanFilesystem { s.opts with Target := f } (files.createTempFile a w).2

/-- The call of `Filter` that `scanMisconfigs` makes after `configScan`, once the file is
removed. -/
def scanner.configFilter {Raw Report σ : Type} (files : Files Raw σ) (s : Scanner Report σ)
    (a : Artifact Raw) (w : σ) (f : String) : (Report × Option Error) × σ :=
  s.runner.Filter { s.opts with Target := f } (scanner.configScan files s a w f).1.1
    (files.removeFile f (scanner.configScan files s a w f).2)

/-- The name and version of every child of a component. -/
def scanner.childSummary (c : Component) : List (String × String) :=
  c.Components.map (fun x => (x.Name, x.Version))

/-- The children of the children of a component: name, version and the type, name and
version of the package URL. -/
def scanner.grandchildSummary (c : Component) :
    List (String × String × Option (String × String × String)) :=
  (c.Components.flatMap Component.Components).map
    (fun x => (x.Name, x.Version, x.PackageURL.map (fun p => (p.Type_, p.Name, p.Version))))

/-- The node of the end-to-end scenario, with properties `props`. -/
def scanner.scenarioNode (props : StringMap) : NodeInfo :=
  { NodeName := "node-1", KubeletVersion := "v1.21.1",
    ContainerRuntimeVersion := "containerd://1.5.2", OsImage := "Ubuntu 21.04",
    Properties := props }

/-- Example decoders: every pod payload decodes to the pod of the encoder test, every node
payload to the node of the end-to-end scenario, and the package URL of an image keeps the
reference it is given as its name. -/
def exampleDecoders : Decoders Unit :=
  { decodePod := fun _ =>
      ({ Namespace := "kube-system", Name := "kube-apiserver-kind-control-plane",
         Containers := [{ ID := "kube-apiserver:v1.21.1", Version := "v1.21.1",
                          Repository := "kube-apiserver", Registry := "k8s.gcr.io",
                          Digest := "18e61c78" }],
         Properties := [("control_plane_components", "kube-apiserver")] }, none),
    decodeNode := fun _ => (scanner.scenarioNode [], none),
    NewPackageURL := fun t ds =>
      ({ Type_ := t, Namespace := "", Name := String.join ds, Version := "",
         Qualifiers := [], Subpath := "" }, none) }

/-- The container of the encoder test. -/
def exampleContainer : Container :=
  { ID := "kube-apiserver:v1.21.1", Version := "v1.21.1", Repository := "kube-apiserver",
    Registry := "k8s.gcr.io", Digest := "18e61c78" }

/-- An example pod artifact; `exampleDecoders` reads it as the pod of the encoder test. -/
def examplePod : Artifact Unit :=
  { Namespace := "kube-system", Kind := "PodInfo", Name := "kube-apiserver-kind-control-plane",
    Images := ["k8s.gcr.io/kube-apiserver:v1.21.1"], RawResource := () }

/-- An example node artifact; `exampleDecoders` reads it as the node of the scenario. -/
def exampleNode : Artifact Unit :=
  { Namespace := "", Kind := "NodeInfo", Name := "node-1", Images := [], RawResource := () }

/-- An example artifact of a kind that the adapter does not support. -/
def exampleDeployment : Artifact Unit :=
  { Namespace := "default", Kind := "Deployment", Name := "web", Images := ["nginx:1.21"],
    RawResource := () }

/-- A call of a collaborator, as it is written down by the traced collaborators below:
`ScanImage` and `ScanFilesystem` with the target of the options, `removeFile` with the
path. -/
inductive Call where
  | createTempFile
  | ScanImage (target : String)
  | ScanFilesystem (target : String)
  | Filter
  | removeFile (path : String)
  deriving DecidableEq, Repr

/-- A runner that does what `r` does and writes every call down next to the world. -/
def tracedRunner {Report σ : Type} (r : Runner Report σ) : Runner Report (σ × List Call) :=
  { ScanImage := fun o w =>
      ((r.ScanImage o w.1).1, ((r.ScanImage o w.1).2, w.2 ++ [Call.ScanImage o.Target])),
    ScanFilesystem := fun o w =>
      ((r.ScanFilesystem o w.1).1,
        ((r.ScanFilesystem o w.1).2, w.2 ++ [Call.ScanFilesystem o.Target])),
    Filter := fun o rep w =>
      ((r.Filter o rep w.1).1, ((r.Filter o rep w.1).2, w.2 ++ [Call.Filter])) }

/-- File helpers that do what `files` does and write every call down next to the world. -/
def tracedFiles {Raw σ : Type} (files : Files Raw σ) : Files Raw (σ × List Call) :=
  { createTempFile := fun a w =>
      ((files.createTempFile a w.1).1,
        ((files.createTempFile a w.1).2, w.2 ++ [Call.createTempFile])),
    removeFile := fun f w => (files.removeFile f w.1, w.2 ++ [Call.removeFile f]) }

/-- The scanner `s` around the traced runner. -/
def tracedScanner {Report σ : Type} (s : Scanner Report σ) : Scanner Report (σ × List Call) :=
  { cluster := s.cluster, runner := tracedRunner s.runner, opts := s.opts }

/-- The statement `s.opts.Target = image` of `scanVulns` (and `s.opts.Target = configFile` of
`scanMisconfigs`): a write to the Scanner behind the pointer receiver. -/
def scanner.setTarget {Report σ : Type} (s : Scanner Report σ) (target : String) :
    Scanner Report σ :=
  { s with opts := { s.opts with Target := target } }

/-- The statement `s.runner.ScanImage(ctx, s.opts)` of `scanVulns`: the call reads the options
of the Scanner behind the pointer receiver at the time of the call. -/
def scanner.scanImageCall {Report σ : Type} (s : Scanner Report σ) (w : σ) :
    (Report × Option Error) × σ :=
  s.runner.ScanImage s.opts w

/-- Example file helpers that cannot write the file. -/
def brokenFiles : Files Unit (List String) :=
  { createTempFile := fun a w => (("", some "disk full"), w ++ ["createTempFile " ++ a.Name]),
    removeFile := fun f w => w ++ ["removeFile " ++ f] }

/-- Modelled from the spec: the pipeline of `pkg/parallel`, which is not under `src/`, with a
single worker: the artifacts are taken one after the other, `onItem` runs on each and
`onResult` takes its result into the aggregate list; the first error of `onItem` ends the
run, and `Scan` then returns no Resource. -/
def scanner.runSequential {Raw Report σ : Type} [Inhabited Report] (files : Files Raw σ) :
    List (Artifact Raw) → List (Resource Report) → Scanner Report σ → σ →
      (List (Resource Report) × Option Error) × Scanner Report σ × σ
  | [], resources, s, w => ((resources, none), s, w)
  | a :: rest, resources, s, w =>
    match scanner.onItem files s a w with
    | ((_, some err), s, w) => (([], some err), s, w)
    | ((result, none), s, w) =>
      scanner.runSequential files rest (scanner.onResult resources result) s w

/-- The results that `onItem` returns in the course of `runSequential`, in order, up to the
first error. -/
def scanner.itemResults {Raw Report σ : Type} [Inhabited Report] (files : Files Raw σ) :
    List (Artifact Raw) → Scanner Report σ → σ → List (ScanResult Report)
  | [], _, _ => []
  | a :: rest, s, w =>
    match scanner.onItem files s a w with
    | ((_, some _), _, _) => []
    | ((result, none), s, w) => result :: scanner.itemResults files rest s w

/-- One step of the traversal of the encoder: the component that is reached, the reference
of its parent, the reference that it gets, and whether it is emitted (`false`: a component
with this reference had been emitted, and the entry is reused). -/
structure core.Visit where
  parent : String
  component : Component
  ref : String
  emitted : Bool

mutual

/-- The steps of the traversal in the visit of a component from the state `st`, in order. -/
def core.visitsOf (c : core.CycloneDX) (parent : String) :
    Component → core.MarshalState → List core.Visit
  | .mk t name version purl props children, st =>
    let r := core.BOMRef c (.mk t name version purl props children) st.next
    if core.emitted st r.1 then
      [{ parent := parent, component := .mk t name version purl props children, ref := r.1,
         emitted := false }]
    else
      { parent := parent, component := .mk t name version purl props children, ref := r.1,
        emitted := true } ::
        core.visitsOfList c r.1 children
          (core.enter c (.mk t name version purl props children) st r)

/-- The steps of the traversal in the visit of a list of children from the state `st`. -/
def core.visitsOfList (c : core.CycloneDX) (parent : String) :
    List Component → core.MarshalState → List core.Visit
  | [], _ => []
  | child :: rest, st =>
    core.visitsOf c parent child st ++
      core.visitsOfList c parent rest (core.MarshalComponent c child st).2

end

/-- The steps of the traversal that `Marshal` makes below the root. -/
def core.visits (c : core.CycloneDX) (root : Component) : List core.Visit :=
  core.visitsOfList c (core.BOMRef c root 1).1 root.Components
    { next := (core.BOMRef c root 1).2, components := [], dependencies := [] }

/-- The state of the traversal is in order: no two emitted components share a reference, no
two dependency entries share a reference, and every dependency entry is the entry of an
emitted component. -/
def core.Inv (st : core.MarshalState) : Prop :=
  (st.components.map (fun e => e.BOMRef)).Nodup ∧
  (st.dependencies.map (fun d => d.Ref)).Nodup ∧
  ∀ d ∈ st.dependencies, d.Ref ∈ st.components.map (fun e => e.BOMRef)

/-- The state `st1` continues the state `st`: components and dependency entries have been
added at the end, none has been changed, and the added dependency entries are the entries of
the added components. -/
def core.Extends (st st1 : core.MarshalState) : Prop :=
  ∃ (newC : List cdx.Component) (newD : List cdx.Dependency),
    st1.components = st.components ++ newC ∧
    st1.dependencies = st.dependencies ++ newD ∧
    ∀ r : String, r ∈ newD.map (fun d => d.Ref) ↔ r ∈ newC.map (fun e => e.BOMRef)

mutual

/-- The identity strings of a component and of the components below it. -/
def core.identities (c : core.CycloneDX) : Component → List String
  | .mk _ _ _ purl _ children =>
    (match purl with
      | some p => [c.purl p]
      | none => []) ++ core.identitiesOfList c children

/-- The identity strings of the components of a list and of the components below them. -/
def core.identitiesOfList (c : core.CycloneDX) : List Component → List String
  | [] => []
  | child :: rest => core.identities c child ++ core.identitiesOfList c rest

end

/-- The number of calls of the generator that `Marshal` makes. -/
def core.drawn (c : core.CycloneDX) (root : Component) : Nat :=
  (core.MarshalComponents c root.Components
    { next := (core.BOMRef c root 1).2, components := [], dependencies := [] }).2.next

/-- The contract of the ID generator, as far as the root needs it: the reference of the root
is not an identity string of a component below the root, and no later call that `Marshal`
makes returns it. -/
def core.RootUnique (c : core.CycloneDX) (root : Component) : Prop :=
  (core.BOMRef c root 1).1 ∉ core.identitiesOfList c root.Components ∧
  ∀ k : Nat, k < core.drawn c root → (core.BOMRef c root 1).2 ≤ k →
    c.newUUID k ≠ (core.BOMRef c root 1).1

/-- A tree with a repeated identity: the components `a` and `b` carry the identity of
`kubelet`, `x` below `a` and `y` below `z` below `b` carry the identity of `containerd`. -/
def dupTree : Component :=
  Component.mk ComponentType.Container "root" "" none [] [
    Component.mk ComponentType.Library "a" "1.21.1"
      (some { Type_ := "golang", Namespace := "", Name := "kubelet", Version := "1.21.1",
              Qualifiers := [], Subpath := "" }) [] [
        Component.mk ComponentType.Library "x" "1.5.2"
          (some { Type_ := "golang", Namespace := "", Name := "containerd", Version := "1.5.2",
                  Qualifiers := [], Subpath := "" }) [] []],
    Component.mk ComponentType.Library "b" "1.21.1"
      (some { Type_ := "golang", Namespace := "", Name := "kubelet", Version := "1.21.1",
              Qualifiers := [], Subpath := "" }) [] [
        Component.mk ComponentType.Application "z" "" none [] [
          Component.mk ComponentType.Library "y" "1.5.2"
            (some { Type_ := "golang", Namespace := "", Name := "containerd",
                    Version := "1.5.2", Qualifiers := [], Subpath := "" }) [] []]]]

/-- A tree in which two applications have the same library: `lib` carries the identity of
`containerd` below `app1` and below `app2`. -/
def sharedTree : Component :=
  Component.mk ComponentType.Container "root" "" none [] [
    Component.mk ComponentType.Application "app1" "" none [] [
      Component.mk ComponentType.Library "lib" "1.5.2"
        (some { Type_ := "golang", Namespace := "", Name := "containerd", Version := "1.5.2",
                Qualifiers := [], Subpath := "" }) [] []],
    Component.mk ComponentType.Application "app2" "" none [] [
      Component.mk ComponentType.Library "lib" "1.5.2"
        (some { Type_ := "golang", Namespace := "", Name := "containerd", Version := "1.5.2",
                Qualifiers := [], Subpath := "" }) [] []]]

/-- The document that the encoder test expects for `testRoot` (without the content hashes
of the container). -/
def testWant : cdx.BOM :=
  { BOMFormat := "CycloneDX",
    SpecVersion := "1.4",
    Version := 1,
    SerialNumber := "urn:uuid:3ff14136-e09f-4df9-80ea-000000000001",
    Metadata :=
      { Timestamp := "2021-08-25T12:20:30+00:00",
        Tools := [{ Name := "trivy", Vendor := "aquasecurity", Version := "dev" }],
        Component :=
          { BOMRef := "3ff14136-e09f-4df9-80ea-000000000002",
            Type_ := ComponentType.Container, Name := "test-cluster", Version := "",
            PackageURL := "", Properties := [] } },
    Components := [
      { BOMRef := "3ff14136-e09f-4df9-80ea-000000000003",
        Type_ := ComponentType.Application, Name := "kube-apiserver-kind-control-plane",
        Version := "", PackageURL := "",
        Properties := [
          { Name := "aquasecurity:trivy:control_plane_components", Value := "kube-apiserver" }] },
      { BOMRef := "3ff14136-e09f-4df9-80ea-000000000004",
        Type_ := ComponentType.Container, Name := "kind-control-plane", Version := "",
        PackageURL := "",
        Properties := [
          { Name := "aquasecurity:trivy:architecture", Value := "arm64" },
          { Name := "aquasecurity:trivy:host_name", Value := "kind-control-plane" },
          { Name := "aquasecurity:trivy:kernel_version", Value := "6.2.13-300.fc38.aarch64" },
          { Name := "aquasecurity:trivy:node_role", Value := "master" },
          { Name := "aquasecurity:trivy:operating_system", Value := "linux" }] },
      { BOMRef := "3ff14136-e09f-4df9-80ea-000000000005",
        Type_ := ComponentType.OS, Name := "ubuntu", Version := "21.04", PackageURL := "",
        Properties := [
          { Name := "aquasecurity:trivy:Class", Value := "os-pkgs" },
          { Name := "aquasecurity:trivy:Type", Value := "ubuntu" }] },
      { BOMRef := "3ff14136-e09f-4df9-80ea-000000000006",
        Type_ := ComponentType.Application, Name := "node-core-components", Version := "",
        PackageURL := "",
        Properties := [
          { Name := "aquasecurity:trivy:Class", Value := "lang-pkgs" },
          { Name := "aquasecurity:trivy:Type", Value := "golang" }] },
      { BOMRef := "pkg:golang/containerd@1.5.2",
        Type_ := ComponentType.Library, Name := "containerd", Version := "1.5.2",
        PackageURL := "pkg:golang/containerd@1.5.2",
        Properties := [{ Name := "aquasecurity:trivy:PkgType", Value := "golang" }] },
      { BOMRef := "pkg:golang/kubelet@1.21.1",
        Type_ := ComponentType.Library, Name := "kubelet", Version := "1.21.1",
        PackageURL := "pkg:golang/kubelet@1.21.1",
        Properties := [{ Name := "aquasecurity:trivy:PkgType", Value := "golang" }] },
      { BOMRef := "pkg:oci/kube-apiserver@" ++ testDigest ++
          "?repository_url=k8s.gcr.io%2Fkube-apiserver&arch=",
        Type_ := ComponentType.Container, Name := "k8s.gcr.io/kube-apiserver",
        Version := testDigest,
        PackageURL := "pkg:oci/kube-apiserver@" ++ testDigest ++
          "?repository_url=k8s.gcr.io%2Fkube-apiserver&arch=",
        Properties := [
          { Name := "aquasecurity:trivy:PkgID", Value := "k8s.gcr.io/kube-apiserver:1.21.1" },
          { Name := "aquasecurity:trivy:PkgType", Value := "oci" }] }],
    Dependencies := [
      { Ref := "3ff14136-e09f-4df9-80ea-000000000002",
        Dependencies := ["3ff14136-e09f-4df9-80ea-000000000003",
          "3ff14136-e09f-4df9-80ea-000000000004"] },
      { Ref := "3ff14136-e09f-4df9-80ea-000000000003",
        Dependencies := ["pkg:oci/kube-apiserver@" ++ testDigest ++
          "?repository_url=k8s.gcr.io%2Fkube-apiserver&arch="] },
      { Ref := "3ff14136-e09f-4df9-80ea-000000000004",
        Dependencies := ["3ff14136-e09f-4df9-80ea-000000000005",
          "3ff14136-e09f-4df9-80ea-000000000006"] },
      { Ref := "3ff14136-e09f-4df9-80ea-000000000005", Dependencies := [] },
      { Ref := "3ff14136-e09f-4df9-80ea-000000000006",
        Dependencies := ["pkg:golang/containerd@1.5.2", "pkg:golang/kubelet@1.21.1"] },
      { Ref := "pkg:golang/containerd@1.5.2", Dependencies := [] },
      { Ref := "pkg:golang/kubelet@1.21.1", Dependencies := [] },
      { Ref := "pkg:oci/kube-apiserver@" ++ testDigest ++
          "?repository_url=k8s.gcr.io%2Fkube-apiserver&arch=",
        Dependencies := [] }] }

/-- A tree whose root carries an identity. -/
def identityRoot : Component :=
  Component.mk ComponentType.Container "image" "" 
    (some { Type_ := "oci", Namespace := "", Name := "image", Version := "sha256:0",
            Qualifiers := [], Subpath := "" }) [] [
      Component.mk ComponentType.OS "ubuntu" "21.04" none [] []]

/-- The tree of the encoder test with the two libraries in the other order. -/
def testRootSwapped : Component :=
  Component.mk ComponentType.Container "test-cluster" "" none [] [
    Component.mk ComponentType.Application "kube-apiserver-kind-control-plane" "" none
      [("control_plane_components", "kube-apiserver")] [
        Component.mk ComponentType.Container "k8s.gcr.io/kube-apiserver" testDigest
          (some { Type_ := "oci", Namespace := "", Name := "kube-apiserver",
                  Version := testDigest,
                  Qualifiers := [("repository_url", "k8s.gcr.io/kube-apiserver"), ("arch", "")],
                  Subpath := "" })
          [("PkgID", "k8s.gcr.io/kube-apiserver:1.21.1"), ("PkgType", "oci")] []],
    Component.mk ComponentType.Container "kind-control-plane" "" none
      [("architecture", "arm64"), ("host_name", "kind-control-plane"),
       ("kernel_version", "6.2.13-300.fc38.aarch64"), ("node_role", "master"),
       ("operating_system", "linux")] [
        Component.mk ComponentType.OS "ubuntu" "21.04" none
          [("Class", "os-pkgs"), ("Type", "ubuntu")] [],
        Component.mk ComponentType.Application "node-core-components" "" none
          [("Class", "lang-pkgs"), ("Type", "golang")] [
            Component.mk ComponentType.Library "containerd" "1.5.2"
              (some { Type_ := "golang", Namespace := "", Name := "containerd",
                      Version := "1.5.2", Qualifiers := [], Subpath := "" })
              [("PkgType", "golang")] [],
            Component.mk ComponentType.Library "kubelet" "1.21.1"
              (some { Type_ := "golang", Namespace := "", Name := "kubelet", Version := "1.21.1",
                      Qualifiers := [], Subpath := "" })
              [("PkgType", "golang")] []]]]

/-- Two states of the traversal that differ in the order of their lists only. -/
def core.SameUpToOrder (st st1 : core.MarshalState) : Prop :=
  st.next = st1.next ∧ st.components.Perm st1.components ∧
    st.dependencies.Perm st1.dependencies

/-- The second tree is the first with two children exchanged that stand next to each other
below one component, both without children and with identities whose strings differ. -/
inductive core.SwapLeaves (c : core.CycloneDX) : Component → Component → Prop where
  | swap (t : ComponentType) (name version : String) (purl : Option PackageURL)
      (props : StringMap) (pre post : List Component) (x y : Component) (px py : PackageURL) :
      x.Components = [] → y.Components = [] → x.PackageURL = some px → y.PackageURL = some py →
      c.purl px ≠ c.purl py →
      core.SwapLeaves c (.mk t name version purl props (pre ++ x :: y :: post))
        (.mk t name version purl props (pre ++ y :: x :: post))
  | inChild (t : ComponentType) (name version : String) (purl : Option PackageURL)
      (props : StringMap) (pre post : List Component) (a b : Component) :
      core.SwapLeaves c a b →
      core.SwapLeaves c (.mk t name version purl props (pre ++ a :: post))
        (.mk t name version purl props (pre ++ b :: post))

/-- The component with its first two children exchanged. -/
def swapTop : Component → Component
  | .mk t name version purl props (x :: y :: rest) => .mk t name version purl props (y :: x :: rest)
  | .mk t name version purl props children => .mk t name version purl props children

/-- A tree with two children without identity. -/
def plainPair : Component :=
  Component.mk ComponentType.Container "root" "" none [] [
    Component.mk ComponentType.OS "one" "1" none [] [],
    Component.mk ComponentType.OS "two" "2" none [] []]

/-- The lookup of the runtime name as the specification words it: three known runtimes map
to their canonical project identifier, every other value passes through unchanged. -/
def runtimeNameLookup (l : String) : String :=
  if l = "cri-o" then "github.com/cri-o/cri-o"
  else if l = "containerd" then "github.com/containerd/containerd"
  else if l = "cri-dockerd" then "github.com/Mirantis/cri-dockerd"
  else l

/-! ## The `strings` functions -/

namespace Strings

theorem hasPrefix_append (p s : String) : HasPrefix (p ++ s) p = true := by
  simp [HasPrefix, String.data_append]

theorem trimPrefix_append (p s : String) : TrimPrefix (p ++ s) p = s := by
  simp [TrimPrefix, hasPrefix_append, String.data_append]

theorem trimPrefix_of_not (s p : String) (h : HasPrefix s p = false) : TrimPrefix s p = s := by
  simp [TrimPrefix, h]

theorem indexOf_of_isPrefixOf (sub s : List Char) (h : sub.isPrefixOf s = true) :
    indexOf sub s = some 0 := by
  cases s <;> simp [indexOf, h]

theorem indexOf_cons_of_not (sub : List Char) (c : Char) (t : List Char)
    (h : sub.isPrefixOf (c :: t) = false) :
    indexOf sub (c :: t) = (indexOf sub t).map (· + 1) := by
  simp [indexOf, h]

/-- Where `indexOf` finds the text, the text is there. -/
theorem indexOf_some (sub : List Char) :
    ∀ (s : List Char) (m : Nat), indexOf sub s = some m →
      s = s.take m ++ sub ++ s.drop (m + sub.length) := by
  intro s
  induction s with
  | nil =>
    intro m h
    by_cases hp : sub.isPrefixOf [] = true
    · have : sub = [] := by simpa using hp
      subst this
      simp
    · simp [indexOf, hp] at h
  | cons c t ih =>
    intro m h
    by_cases hp : sub.isPrefixOf (c :: t) = true
    · rw [indexOf_of_isPrefixOf _ _ hp] at h
      have hm : m = 0 := by simpa using h.symm
      subst hm
      obtain ⟨r, hr⟩ := List.isPrefixOf_iff_prefix.mp hp
      simp [← hr]
    · have hp2 : sub.isPrefixOf (c :: t) = false := Bool.eq_false_iff.mpr hp
      rw [indexOf_cons_of_not _ _ _ hp2] at h
      cases hi : indexOf sub t with
      | none => simp [hi] at h
      | some k =>
        simp [hi] at h
        subst h
        have := ih k hi
        simp only [List.take_succ_cons, List.cons_append]
        rw [show k + 1 + sub.length = (k + sub.length) + 1 by omega, List.drop_succ_cons]
        simpa using this

theorem indexOf_eq_none_of_nil (sub : List Char) (h : sub ≠ []) : indexOf sub [] = none := by
  cases sub with
  | nil => exact absurd rfl h
  | cons a as => simp [indexOf]

theorem occ_cons (sub : List Char) (c : Char) (t : List Char) :
    occ sub (c :: t) = (if sub.isPrefixOf (c :: t) = true then 1 else 0) + occ sub t := by
  unfold occ
  rw [List.tails, List.filter_cons]
  split <;> simp [Nat.add_comm]

theorem occ_le_append (sub t : List Char) : ∀ l : List Char, occ sub t ≤ occ sub (l ++ t) := by
  intro l
  induction l with
  | nil => simp
  | cons c l ih =>
    rw [List.cons_append, occ_cons]
    omega

theorem occ_prefix_append (sub r : List Char) (h : sub ≠ []) :
    1 + occ sub r ≤ occ sub (sub ++ r) := by
  cases sub with
  | nil => exact absurd rfl h
  | cons a as =>
    have h1 : (a :: as).isPrefixOf (a :: as ++ r) = true :=
      List.isPrefixOf_iff_prefix.mpr (List.prefix_append _ _)
    have h2 : occ (a :: as) (a :: as ++ r) = 1 + occ (a :: as) (as ++ r) := by
      rw [List.cons_append] at h1 ⊢
      rw [occ_cons, if_pos h1]
    have h3 := occ_le_append (a :: as) r as
    omega

theorem indexOf_eq_none_of_occ (sub : List Char) :
    ∀ s : List Char, occ sub s = 0 → indexOf sub s = none := by
  intro s
  induction s with
  | nil =>
    intro h
    by_cases hp : sub.isPrefixOf [] = true
    · simp [occ, hp] at h
    · simp [indexOf, hp]
  | cons c t ih =>
    intro h
    rw [occ_cons] at h
    by_cases hp : sub.isPrefixOf (c :: t) = true
    · rw [if_pos hp] at h
      omega
    · rw [if_neg hp] at h
      rw [indexOf_cons_of_not _ _ _ (Bool.eq_false_iff.mpr hp), ih (by omega)]
      rfl

/-- A text with exactly one occurrence of the separator, written around an occurrence:
the search finds that occurrence, and what follows it has none. -/
theorem indexOf_of_occ_one (sub r : List Char) (h : sub ≠ []) :
    ∀ l : List Char, occ sub (l ++ sub ++ r) = 1 →
      indexOf sub (l ++ sub ++ r) = some l.length ∧ occ sub r = 0 := by
  intro l
  induction l with
  | nil =>
    intro h1
    have h2 := occ_prefix_append sub r h
    simp only [List.nil_append] at h1 ⊢
    refine ⟨indexOf_of_isPrefixOf _ _ (List.isPrefixOf_iff_prefix.mpr (List.prefix_append _ _)), ?_⟩
    omega
  | cons c l ih =>
    intro h1
    have h2 : 1 ≤ occ sub (l ++ sub ++ r) := by
      have := occ_le_append sub (sub ++ r) l
      have := occ_prefix_append sub r h
      rw [List.append_assoc]
      omega
    simp only [List.cons_append] at h1 ⊢
    rw [occ_cons] at h1
    by_cases hp : sub.isPrefixOf (c :: (l ++ sub ++ r)) = true
    · rw [if_pos hp] at h1
      omega
    · rw [if_neg hp] at h1
      obtain ⟨h3, h4⟩ := ih (by omega)
      refine ⟨?_, h4⟩
      rw [indexOf_cons_of_not _ _ _ (Bool.eq_false_iff.mpr hp), h3]
      rfl

theorem genSplit_of_none (sep s : List Char) (n : Nat) (h : indexOf sep s = none) :
    genSplit sep n s = [s] := by
  cases n <;> simp [genSplit, h]

/-- Splitting a text with exactly one occurrence of the separator gives the two sides. -/
theorem genSplit_of_occ_one (sep l r : List Char) (n : Nat) (h : sep ≠ [])
    (h1 : occ sep (l ++ sep ++ r) = 1) :
    genSplit sep (n + 1) (l ++ sep ++ r) = [l, r] := by
  obtain ⟨h2, h3⟩ := indexOf_of_occ_one sep r h l h1
  simp only [genSplit, h2]
  rw [genSplit_of_none _ _ _ (by simpa using indexOf_eq_none_of_occ sep r h3)]
  simp [List.append_assoc]

/-- More rounds than the text has characters change nothing: the bound in `Split` is enough
for the loop to reach the last separator. -/
theorem genSplit_fuel (sep : List Char) (h : sep ≠ []) :
    ∀ (n : Nat) (s : List Char), s.length ≤ n → genSplit sep (n + 1) s = genSplit sep n s := by
  intro n
  induction n with
  | zero =>
    intro s hs
    have : s = [] := List.eq_nil_of_length_eq_zero (by omega)
    subst this
    simp [genSplit, indexOf_eq_none_of_nil sep h]
  | succ n ih =>
    intro s hs
    rw [genSplit]
    conv => rhs; rw [genSplit]
    cases hi : indexOf sep s with
    | none => rfl
    | some m =>
      simp only
      rw [ih]
      have : 0 < sep.length := List.length_pos.mpr h
      simp only [List.length_drop]
      omega

/-- Joined with the separator after every part, the parts of a split give the text back. -/
theorem genSplit_concat (sep : List Char) :
    ∀ (n : Nat) (s : List Char),
      ((genSplit sep n s).map (fun p => p ++ sep)).flatten = s ++ sep := by
  intro n
  induction n with
  | zero => intro s; simp [genSplit]
  | succ n ih =>
    intro s
    rw [genSplit]
    cases hi : indexOf sep s with
    | none => simp
    | some m =>
      simp only [List.map_cons, List.flatten_cons, ih]
      conv => rhs; rw [indexOf_some sep s m hi]
      simp [List.append_assoc]

theorem split_of_index_neg (s sep : String) (h : Index s sep = -1) : Split s sep = [s] := by
  unfold Index at h
  cases hi : indexOf sep.data s.data with
  | some i => rw [hi] at h; simp at h
  | none => simp [Split, genSplit_of_none _ _ _ hi]

theorem split_of_occurrences_one (l sep r : String) (hsep : sep.data ≠ [])
    (h : occurrences (l ++ sep ++ r) sep = 1) : Split (l ++ sep ++ r) sep = [l, r] := by
  unfold occurrences at h
  simp only [String.data_append] at h
  unfold Split
  simp only [String.data_append]
  obtain ⟨n, hn⟩ : ∃ n, (l.data ++ sep.data ++ r.data).length = n + 1 := by
    have : 0 < sep.data.length := List.length_pos.mpr hsep
    exact ⟨l.data.length + sep.data.length + r.data.length - 1, by
      simp only [List.length_append]; omega⟩
  rw [hn, genSplit_of_occ_one _ _ _ _ hsep h]
  rfl

/-- White space at the end of the buffer does not survive `TrimSpace`. -/
theorem trimSpace_append_space (l : List Char) (c : Char) (hc : IsSpace c = true) :
    TrimSpace ⟨l ++ [c]⟩ = TrimSpace ⟨l⟩ := by
  unfold TrimSpace
  congr 2
  simp only
  rw [List.dropWhile_append]
  split
  · rename_i h
    have h2 : List.dropWhile IsSpace l = [] := by simpa using h
    simp [h2, hc]
  · simp [hc]

/-- The parts, each followed by the separator, against `Join`. -/
theorem flatten_eq_join (sep : String) :
    ∀ (a : String) (ps : List String),
      (((a :: ps).map (fun p => p.data ++ sep.data)).flatten : List Char) =
        (Join (a :: ps) sep).data ++ sep.data := by
  intro a ps
  induction ps generalizing a with
  | nil => simp [Join]
  | cons b ps ih =>
    have := ih b
    simp only [List.map_cons, List.flatten_cons] at this ⊢
    rw [this]
    simp [Join, String.data_append, List.append_assoc]

theorem split_flatten (s sep : String) :
    ((Split s sep).map (fun p => p.data ++ sep.data)).flatten = s.data ++ sep.data := by
  unfold Split
  rw [List.map_map]
  exact genSplit_concat sep.data _ _

end Strings

/-! ## The artifact adapter: versions and names -/

namespace scanner

/-- The buffer and the version of `osNameVersion` when a part parses: the parts before the
first such part are in the buffer, each followed by a space, and the loop stops there. -/
theorem osNameVersionLoop_first (lib : Lib) (v : String) (post : List String)
    (hv : lib.versionParses v = true) :
    ∀ (pre : List String) (buffer : String), (∀ p ∈ pre, lib.versionParses p = false) →
      osNameVersionLoop lib (pre ++ v :: post) buffer =
        (⟨buffer.data ++ (pre.map (fun p => p.data ++ " ".data)).flatten⟩, v) := by
  intro pre
  induction pre with
  | nil => intro buffer _; simp [osNameVersionLoop, hv]
  | cons p pre ih =>
    intro buffer h
    have hp : lib.versionParses p = false := h p (List.mem_cons_self _ _)
    rw [List.cons_append, osNameVersionLoop, hp, if_neg (by simp),
      ih _ (fun q hq => h q (List.mem_cons_of_mem _ hq))]
    simp [String.data_append, List.append_assoc]

/-- The buffer of `osNameVersion` when no part parses: every part, followed by a space. -/
theorem osNameVersionLoop_none (lib : Lib) :
    ∀ (parts : List String) (buffer : String), (∀ p ∈ parts, lib.versionParses p = false) →
      osNameVersionLoop lib parts buffer =
        (⟨buffer.data ++ (parts.map (fun p => p.data ++ " ".data)).flatten⟩, "") := by
  intro parts
  induction parts with
  | nil => intro buffer _; simp [osNameVersionLoop]
  | cons p parts ih =>
    intro buffer h
    have hp : lib.versionParses p = false := h p (List.mem_cons_self _ _)
    rw [osNameVersionLoop, hp, if_neg (by simp),
      ih _ (fun q hq => h q (List.mem_cons_of_mem _ hq))]
    simp [String.data_append, List.append_assoc]

/-- C4, as the code has it: a digest in which `strings.Index` finds the algorithm name
"sha256" anywhere, and so every digest that starts with "sha256:", is kept unchanged;
every other digest gets "sha256:" in front.  The result is the Version of the container's
component and the digest of the reference its package URL is built from. -/
theorem cDigest_qualifies (d : String) :
    (Strings.HasPrefix d "sha256:" = true → cDigest d = d) ∧
    (Strings.Index d "sha256" ≠ -1 → cDigest d = d) ∧
    (Strings.Index d "sha256" = -1 → cDigest d = "sha256:" ++ d) ∧
    (∀ (Raw : Type) (dec : Decoders Raw) (c : Container) (comp : Component),
      c.Digest = d → imageComponent dec c = .ok comp →
        comp.Version = cDigest d ∧
        comp.PackageURL = some
          (dec.NewPackageURL "oci" [c.Registry ++ "/" ++ c.Repository ++ "@" ++ cDigest d]).1) := by
  refine ⟨?_, ?_, ?_, ?_⟩
  · intro h
    have hp : ("sha256".data).isPrefixOf d.data = true := by
      have h1 : ("sha256:".data).isPrefixOf d.data = true := h
      obtain ⟨r, hr⟩ := List.isPrefixOf_iff_prefix.mp h1
      refine List.isPrefixOf_iff_prefix.mpr ⟨[(Char.ofNat 58)] ++ r, ?_⟩
      rw [← hr]
      rfl
    have hi : Strings.Index d "sha256" = 0 := by
      simp [Strings.Index, Strings.indexOf_of_isPrefixOf _ _ hp]
    simp [cDigest, SHA256, hi]
  · intro h
    simp [cDigest, SHA256, h]
  · intro h
    simp [cDigest, SHA256, h]
  · intro Raw dec c comp hd h
    subst hd
    unfold imageComponent at h
    simp only [TypeOCI] at h
    split at h
    · cases h
    · rename_i imagePURL heq
      cases h
      simp [Component.Version, Component.PackageURL, heq]

/-- The amended C4 at the digest of the encoder test, at a digest that is already
qualified, and at the component of the container of the encoder test. -/
theorem cDigest_qualifies_witness :
    cDigest "18e61c78" = "sha256:18e61c78" ∧ cDigest "sha256:18e61c78" = "sha256:18e61c78" ∧
    ∃ comp : Component, imageComponent exampleDecoders exampleContainer = .ok comp ∧
      comp.Version = cDigest "18e61c78" :=
  ⟨(cDigest_qualifies "18e61c78").2.2.1 (by decide),
   (cDigest_qualifies "sha256:18e61c78").1 (by decide),
   _, rfl,
   ((cDigest_qualifies "18e61c78").2.2.2 Unit exampleDecoders exampleContainer _ rfl rfl).1⟩

/-- C4 as stated fails: the digest "nginx@sha256:18e61c78" does not start with "sha256:",
and the code leaves it as it is instead of putting "sha256:" in front. -/
theorem cDigest_not_by_prefix :
    Strings.HasPrefix "nginx@sha256:18e61c78" "sha256:" = false ∧
    cDigest "nginx@sha256:18e61c78" = "nginx@sha256:18e61c78" ∧
    cDigest "nginx@sha256:18e61c78" ≠ "sha256:" ++ "nginx@sha256:18e61c78" := by
  decide

/-- The result of `osNameVersion` when the parts of the OS image are `pre`, then a part `v`
that parses, then `post`, and no part of `pre` parses. -/
theorem osNameVersion_of_split (lib : Lib) (name : String) (pre : List String)
    (v : String) (post : List String)
    (hsplit : Strings.Split name " " = pre ++ v :: post)
    (hpre : ∀ p ∈ pre, lib.versionParses p = false) (hv : lib.versionParses v = true) :
    osNameVersion lib name =
      (Strings.ToLower lib.lowerTable (Strings.TrimSpace (Strings.Join pre " ")), v) := by
  unfold osNameVersion
  simp only [hsplit, osNameVersionLoop_first lib v post hv pre "" hpre]
  congr 2
  cases pre with
  | nil => rfl
  | cons a ps =>
    rw [Strings.flatten_eq_join " " a ps]
    exact Strings.trimSpace_append_space _ _ (by decide)

/-- C5, as the code has it: when some part of the OS image (split at single spaces) parses
as a version, the version returned is the first such part, and the name is the parts before
it joined by spaces, with the white space around the whole removed, in lower case; the parts
after it play no role. -/
theorem osNameVersion_first_match (lib : Lib) (name : String) (pre : List String)
    (v : String) (post : List String)
    (hsplit : Strings.Split name " " = pre ++ v :: post)
    (hpre : ∀ p ∈ pre, lib.versionParses p = false) (hv : lib.versionParses v = true) :
    (osNameVersion lib name).2 = v ∧
    (osNameVersion lib name).1 =
      Strings.ToLower lib.lowerTable (Strings.TrimSpace (Strings.Join pre " ")) := by
  rw [osNameVersion_of_split lib name pre v post hsplit hpre hv]
  exact ⟨rfl, rfl⟩

/-- The amended C5 at "Ubuntu 21.04 LTS": the version is "21.04", the name "ubuntu". -/
theorem osNameVersion_first_match_witness :
    (osNameVersion exampleLib "Ubuntu 21.04 LTS").2 = "21.04" ∧
    (osNameVersion exampleLib "Ubuntu 21.04 LTS").1 = "ubuntu" :=
  osNameVersion_first_match exampleLib "Ubuntu 21.04 LTS" ["Ubuntu"] "21.04" ["LTS"]
    (by decide) (by decide) (by decide)

/-- C5 as stated fails: in "Ubuntu  21.04" the parts before the version are "Ubuntu" and
the empty part, which joined by a space and lower-cased are "ubuntu " with a space at the
end; the code returns "ubuntu". -/
theorem osNameVersion_name_is_trimmed :
    Strings.Split "Ubuntu  21.04" " " = ["Ubuntu", "", "21.04"] ∧
    exampleLib.versionParses "Ubuntu" = false ∧ exampleLib.versionParses "" = false ∧
    exampleLib.versionParses "21.04" = true ∧
    Strings.ToLower exampleLib.lowerTable (Strings.Join ["Ubuntu", ""] " ") = "ubuntu " ∧
    osNameVersion exampleLib "Ubuntu  21.04" = ("ubuntu", "21.04") ∧
    osNameVersion exampleLib "Ubuntu  21.04" ≠
      (Strings.ToLower exampleLib.lowerTable (Strings.Join ["Ubuntu", ""] " "), "21.04") := by
  decide

/-- C6, as the code has it: when no part of the OS image (split at single spaces) parses as
a version, the version is empty and the name is the whole text with the white space around
it removed, in lower case. -/
theorem osNameVersion_no_version (lib : Lib) (name : String)
    (h : ∀ p ∈ Strings.Split name " ", lib.versionParses p = false) :
    osNameVersion lib name =
      (Strings.ToLower lib.lowerTable (Strings.TrimSpace name), "") := by
  unfold osNameVersion
  simp only [osNameVersionLoop_none lib _ "" h]
  congr 2
  rw [Strings.split_flatten]
  exact Strings.trimSpace_append_space _ _ (by decide)

/-- The amended C6 at "Container-Optimized OS". -/
theorem osNameVersion_no_version_witness :
    osNameVersion exampleLib "Container-Optimized OS" = ("container-optimized os", "") :=
  osNameVersion_no_version exampleLib "Container-Optimized OS" (by decide)

/-- C6 as stated fails: no part of "Container-Optimized OS " (a space at the end) parses
as a version, the whole text in lower case keeps the space at the end, and the name the
code returns has lost it. -/
theorem osNameVersion_whole_is_trimmed :
    (∀ p ∈ Strings.Split "Container-Optimized OS " " ", exampleLib.versionParses p = false) ∧
    Strings.ToLower exampleLib.lowerTable "Container-Optimized OS " =
      "container-optimized os " ∧
    osNameVersion exampleLib "Container-Optimized OS " = ("container-optimized os", "") ∧
    osNameVersion exampleLib "Container-Optimized OS " ≠
      (Strings.ToLower exampleLib.lowerTable "Container-Optimized OS ", "") := by
  decide

/-- C7: on a text `l ++ "://" ++ r` in which "://" occurs exactly once, `runtimeNameVersion`
returns the looked-up `l` and `r`; on a text in which `strings.Index` finds no "://", it
returns two empty strings. -/
theorem runtimeNameVersion_eq_reference :
    (∀ l r : String, Strings.occurrences (l ++ "://" ++ r) "://" = 1 →
      runtimeNameVersion (l ++ "://" ++ r) = (runtimeNameLookup l, r)) ∧
    (∀ s : String, Strings.Index s "://" = -1 → runtimeNameVersion s = ("", "")) := by
  constructor
  · intro l r h
    unfold runtimeNameVersion
    rw [Strings.split_of_occurrences_one l "://" r (by decide) h]
    rfl
  · intro s h
    unfold runtimeNameVersion
    rw [Strings.split_of_index_neg s "://" h]

/-- C7 at "containerd://1.5.2" and at "unknown". -/
theorem runtimeNameVersion_eq_reference_witness :
    runtimeNameVersion "containerd://1.5.2" = ("github.com/containerd/containerd", "1.5.2") ∧
    runtimeNameVersion "unknown" = ("", "") :=
  ⟨runtimeNameVersion_eq_reference.1 "containerd" "1.5.2" (by decide),
   runtimeNameVersion_eq_reference.2 "unknown" (by decide)⟩

/-- C8: `sanitizedVersion` removes one leading "v" and leaves every other text alone. -/
theorem sanitizedVersion_strips_one_v :
    (∀ s : String, sanitizedVersion ("v" ++ s) = s) ∧
    (∀ s : String, Strings.HasPrefix s "v" = false → sanitizedVersion s = s) :=
  ⟨fun s => Strings.trimPrefix_append "v" s, fun s h => Strings.trimPrefix_of_not s "v" h⟩

/-- C8 at "v1.21.1" and at "1.21.1". -/
theorem sanitizedVersion_strips_one_v_witness :
    sanitizedVersion "v1.21.1" = "1.21.1" ∧ sanitizedVersion "1.21.1" = "1.21.1" :=
  ⟨sanitizedVersion_strips_one_v.1 "1.21.1", sanitizedVersion_strips_one_v.2 "1.21.1" (by decide)⟩

/-- C9: the tree of `nodeComponent`.  The root is a Container named after the node with
the node's properties; its children are the OperatingSystem component of `osNameVersion`
and the Application "node-core-components"; the children of the latter are two Libraries,
the kubelet with the sanitized kubelet version and the runtime of `runtimeNameVersion`;
each Library has a package URL of type "golang" with an empty namespace and the name and
version of the Library itself. -/
theorem nodeComponent_tree (lib : Lib) (nf : NodeInfo) :
    ∃ os app k r : Component, ∃ pk pr : PackageURL,
      (nodeComponent lib nf).Type_ = ComponentType.Container ∧
      (nodeComponent lib nf).Name = nf.NodeName ∧
      (nodeComponent lib nf).Properties = nf.Properties ∧
      (nodeComponent lib nf).Components = [os, app] ∧
      os.Type_ = ComponentType.OS ∧
      (os.Name, os.Version) = osNameVersion lib nf.OsImage ∧
      app.Type_ = ComponentType.Application ∧
      app.Name = "node-core-components" ∧
      app.Components = [k, r] ∧
      k.Type_ = ComponentType.Library ∧ r.Type_ = ComponentType.Library ∧
      k.Name = kubelet ∧ k.Version = sanitizedVersion nf.KubeletVersion ∧
      (r.Name, r.Version) = runtimeNameVersion nf.ContainerRuntimeVersion ∧
      k.PackageURL = some pk ∧ r.PackageURL = some pr ∧
      pk.Type_ = "golang" ∧ pk.Namespace = "" ∧ pk.Name = k.Name ∧ pk.Version = k.Version ∧
      pr.Type_ = "golang" ∧ pr.Namespace = "" ∧ pr.Name = r.Name ∧ pr.Version = r.Version := by
  unfold nodeComponent
  exact ⟨_, _, _, _, _, _, rfl, rfl, rfl, rfl, rfl, rfl, rfl, rfl, rfl, rfl, rfl, rfl, rfl, rfl,
    rfl, rfl, rfl, rfl, rfl, rfl, rfl, rfl, rfl, rfl⟩

/-- C10, as the code has it: for the node "node-1" with OS image "Ubuntu 21.04", runtime
"containerd://1.5.2" and kubelet "v1.21.1", whenever "21.04" parses as a version and
"Ubuntu" does not, the OS child is "ubuntu" 21.04 and the two libraries are
"k8s.io/kubelet" 1.21.1 and "github.com/containerd/containerd" 1.5.2, each with a package
URL of type "golang" that has the same name and version. -/
theorem nodeComponent_scenario (lib : Lib) (props : StringMap)
    (h1 : lib.versionParses "Ubuntu" = false) (h2 : lib.versionParses "21.04" = true) :
    childSummary (nodeComponent lib (scenarioNode props)) =
      [("ubuntu", "21.04"), ("node-core-components", "")] ∧
    grandchildSummary (nodeComponent lib (scenarioNode props)) =
      [("k8s.io/kubelet", "1.21.1", some ("golang", "k8s.io/kubelet", "1.21.1")),
       ("github.com/containerd/containerd", "1.5.2",
         some ("golang", "github.com/containerd/containerd", "1.5.2"))] := by
  have hos : osNameVersion lib "Ubuntu 21.04" = ("ubuntu", "21.04") := by
    rw [osNameVersion_of_split lib "Ubuntu 21.04" ["Ubuntu"] "21.04" [] (by decide)
      (by simpa using h1) h2]
    rfl
  have hrt : runtimeNameVersion "containerd://1.5.2" =
      ("github.com/containerd/containerd", "1.5.2") := by decide
  have hk : sanitizedVersion "v1.21.1" = "1.21.1" := by decide
  simp only [nodeComponent, scenarioNode, hos, hrt, hk]
  constructor <;> rfl

/-- The amended C10 with the example library and no properties. -/
theorem nodeComponent_scenario_witness :
    childSummary (nodeComponent exampleLib (scenarioNode [])) =
      [("ubuntu", "21.04"), ("node-core-components", "")] ∧
    grandchildSummary (nodeComponent exampleLib (scenarioNode [])) =
      [("k8s.io/kubelet", "1.21.1", some ("golang", "k8s.io/kubelet", "1.21.1")),
       ("github.com/containerd/containerd", "1.5.2",
         some ("golang", "github.com/containerd/containerd", "1.5.2"))] :=
  nodeComponent_scenario exampleLib [] (by decide) (by decide)

/-- C10 as stated fails: the two libraries of the scenario are not named "kubelet" and
"containerd". -/
theorem nodeComponent_scenario_names :
    (grandchildSummary (nodeComponent exampleLib (scenarioNode []))).map (fun x => x.1) =
      ["k8s.io/kubelet", "github.com/containerd/containerd"] ∧
    (grandchildSummary (nodeComponent exampleLib (scenarioNode []))).map (fun x => x.1) ≠
      ["kubelet", "containerd"] := by
  decide

end scanner

/-! ## The scan orchestrator: failures -/

namespace scanner

section OrchestratorLemmas

variable {Raw Report σ : Type} [Inhabited Report]

theorem filter_ok (s : Scanner Report σ) (r r1 : Report) (artifact : Artifact Raw) (w w1 : σ)
    (h : s.runner.Filter s.opts r w = ((r1, none), w1)) :
    filter s r artifact w = ((CreateResource artifact r1 none, none), w1) := by
  simp only [filter, h]

theorem filter_error (s : Scanner Report σ) (r r1 : Report) (artifact : Artifact Raw)
    (w w1 : σ) (e : Error) (h : s.runner.Filter s.opts r w = ((r1, some e), w1)) :
    filter s r artifact w = ((Resource.zero, some ("filter error: " ++ e)), w1) := by
  simp only [filter, h]

/-- One round of the loop of `scanVulns`, on an image whose scan fails. -/
theorem scanVulnsLoop_cons_scan_error (artifact : Artifact Raw) (image : String)
    (rest : List String) (resources : List (Resource Report)) (s : Scanner Report σ) (w w1 : σ)
    (r : Report) (e : Error)
    (h : s.runner.ScanImage { s.opts with Target := image } w = ((r, some e), w1)) :
    scanVulnsLoop artifact (image :: rest) resources s w =
      scanVulnsLoop artifact rest (resources ++ [CreateResource artifact r (some e)])
        { s with opts := { s.opts with Target := image } } w1 := by
  simp only [scanVulnsLoop, h]

/-- One round of the loop of `scanVulns`, on an image that is scanned and filtered. -/
theorem scanVulnsLoop_cons_ok (artifact : Artifact Raw) (image : String)
    (rest : List String) (resources : List (Resource Report)) (s : Scanner Report σ)
    (w w1 w2 : σ) (r r1 : Report)
    (h : s.runner.ScanImage { s.opts with Target := image } w = ((r, none), w1))
    (hf : s.runner.Filter { s.opts with Target := image } r w1 = ((r1, none), w2)) :
    scanVulnsLoop artifact (image :: rest) resources s w =
      scanVulnsLoop artifact rest (resources ++ [CreateResource artifact r1 none])
        { s with opts := { s.opts with Target := image } } w2 := by
  have := filter_ok { s with opts := { s.opts with Target := image } } r r1 artifact w1 w2 hf
  simp only [scanVulnsLoop, h, this]

/-- One round of the loop of `scanVulns`, on an image whose report the filter rejects. -/
theorem scanVulnsLoop_cons_filter_error (artifact : Artifact Raw) (image : String)
    (rest : List String) (resources : List (Resource Report)) (s : Scanner Report σ)
    (w w1 w2 : σ) (r r1 : Report) (e : Error)
    (h : s.runner.ScanImage { s.opts with Target := image } w = ((r, none), w1))
    (hf : s.runner.Filter { s.opts with Target := image } r w1 = ((r1, some e), w2)) :
    scanVulnsLoop artifact (image :: rest) resources s w =
      (([], some ("filter error: " ++ ("filter error: " ++ e))),
        { s with opts := { s.opts with Target := image } }, w2) := by
  have := filter_error { s with opts := { s.opts with Target := image } } r r1 artifact w1 w2 e hf
  simp only [scanVulnsLoop, h, this]

/-- The loop of `scanVulns` changes nothing of the scanner but the target of the options. -/
theorem scanVulnsLoop_scanner (artifact : Artifact Raw) :
    ∀ (images : List String) (resources : List (Resource Report)) (s : Scanner Report σ)
      (w : σ),
      (scanVulnsLoop artifact images resources s w).2.1.runner = s.runner ∧
      (scanVulnsLoop artifact images resources s w).2.1.cluster = s.cluster ∧
      ∀ t : String, { (scanVulnsLoop artifact images resources s w).2.1.opts with Target := t } =
        { s.opts with Target := t } := by
  intro images
  induction images with
  | nil => intro resources s w; simp [scanVulnsLoop]
  | cons image rest ih =>
    intro resources s w
    rcases h : s.runner.ScanImage { s.opts with Target := image } w with ⟨⟨r, _ | e⟩, w1⟩
    · rcases hf : s.runner.Filter { s.opts with Target := image } r w1 with ⟨⟨r1, _ | e⟩, w2⟩
      · rw [scanVulnsLoop_cons_ok artifact image rest resources s w w1 w2 r r1 h hf]
        exact ih _ _ _
      · rw [scanVulnsLoop_cons_filter_error artifact image rest resources s w w1 w2 r r1 e h hf]
        exact ⟨rfl, rfl, fun _ => rfl⟩
    · rw [scanVulnsLoop_cons_scan_error artifact image rest resources s w w1 r e h]
      exact ih _ _ _

/-- The loop of `scanVulns` over `xs ++ ys`, when it passes `xs` without an error, goes on
over `ys` from where the loop over `xs` ends. -/
theorem scanVulnsLoop_append (artifact : Artifact Raw) (ys : List String) :
    ∀ (xs : List String) (resources : List (Resource Report)) (s : Scanner Report σ) (w : σ),
      (scanVulnsLoop artifact xs resources s w).1.2 = none →
      scanVulnsLoop artifact (xs ++ ys) resources s w =
        scanVulnsLoop artifact ys (scanVulnsLoop artifact xs resources s w).1.1
          (scanVulnsLoop artifact xs resources s w).2.1
          (scanVulnsLoop artifact xs resources s w).2.2 := by
  intro xs
  induction xs with
  | nil => intro resources s w _; simp [scanVulnsLoop]
  | cons image rest ih =>
    intro resources s w hok
    rcases h : s.runner.ScanImage { s.opts with Target := image } w with ⟨⟨r, _ | e⟩, w1⟩
    · rcases hf : s.runner.Filter { s.opts with Target := image } r w1 with ⟨⟨r1, _ | e⟩, w2⟩
      · rw [scanVulnsLoop_cons_ok artifact image rest resources s w w1 w2 r r1 h hf] at hok ⊢
        rw [List.cons_append,
          scanVulnsLoop_cons_ok artifact image (rest ++ ys) resources s w w1 w2 r r1 h hf]
        exact ih _ _ _ hok
      · rw [scanVulnsLoop_cons_filter_error artifact image rest resources s w w1 w2 r r1 e h hf]
          at hok
        simp at hok
    · rw [scanVulnsLoop_cons_scan_error artifact image rest resources s w w1 r e h] at hok ⊢
      rw [List.cons_append,
        scanVulnsLoop_cons_scan_error artifact image (rest ++ ys) resources s w w1 r e h]
      exact ih _ _ _ hok

/-- While the filter does not fail, the loop of `scanVulns` ends without an error and adds
one Resource for every image to the Resources it starts with. -/
theorem scanVulnsLoop_total (artifact : Artifact Raw) (runner : Runner Report σ)
    (hf : ∀ (o : Options) (r : Report) (w : σ), (runner.Filter o r w).1.2 = none) :
    ∀ (images : List String) (resources : List (Resource Report)) (s : Scanner Report σ)
      (w : σ), s.runner = runner →
      ∃ rs : List (Resource Report),
        (scanVulnsLoop artifact images resources s w).1 = (resources ++ rs, none) ∧
        rs.length = images.length := by
  intro images
  induction images with
  | nil => intro resources s w _; exact ⟨[], by simp [scanVulnsLoop]⟩
  | cons image rest ih =>
    intro resources s w hs
    rcases h : s.runner.ScanImage { s.opts with Target := image } w with ⟨⟨r, _ | e⟩, w1⟩
    · rcases hfl : s.runner.Filter { s.opts with Target := image } r w1 with ⟨⟨r1, _ | e⟩, w2⟩
      · rw [scanVulnsLoop_cons_ok artifact image rest resources s w w1 w2 r r1 h hfl]
        obtain ⟨rs, h1, h2⟩ := ih (resources ++ [CreateResource artifact r1 none])
          { s with opts := { s.opts with Target := image } } w2 hs
        exact ⟨CreateResource artifact r1 none :: rs, by simpa using h1, by simp [h2]⟩
      · have := hf { s.opts with Target := image } r w1
        rw [← hs, hfl] at this
        simp at this
    · rw [scanVulnsLoop_cons_scan_error artifact image rest resources s w w1 r e h]
      obtain ⟨rs, h1, h2⟩ := ih (resources ++ [CreateResource artifact r (some e)])
        { s with opts := { s.opts with Target := image } } w1 hs
      exact ⟨CreateResource artifact r (some e) :: rs, by simpa using h1, by simp [h2]⟩

/-- The Resources of the loop of `scanVulns` extend the Resources it starts with. -/
theorem scanVulnsLoop_extends (artifact : Artifact Raw) :
    ∀ (images : List String) (resources : List (Resource Report)) (s : Scanner Report σ)
      (w : σ), (scanVulnsLoop artifact images resources s w).1.2 = none →
      ∃ rs : List (Resource Report),
        (scanVulnsLoop artifact images resources s w).1.1 = resources ++ rs ∧
        rs.length = images.length := by
  intro images
  induction images with
  | nil => intro resources s w _; exact ⟨[], by simp [scanVulnsLoop]⟩
  | cons image rest ih =>
    intro resources s w hok
    rcases h : s.runner.ScanImage { s.opts with Target := image } w with ⟨⟨r, _ | e⟩, w1⟩
    · rcases hfl : s.runner.Filter { s.opts with Target := image } r w1 with ⟨⟨r1, _ | e⟩, w2⟩
      · rw [scanVulnsLoop_cons_ok artifact image rest resources s w w1 w2 r r1 h hfl] at hok ⊢
        obtain ⟨rs, h1, h2⟩ := ih _ _ _ hok
        exact ⟨CreateResource artifact r1 none :: rs, by simpa using h1, by simp [h2]⟩
      · rw [scanVulnsLoop_cons_filter_error artifact image rest resources s w w1 w2 r r1 e h hfl]
          at hok
        simp at hok
    · rw [scanVulnsLoop_cons_scan_error artifact image rest resources s w w1 r e h] at hok ⊢
      obtain ⟨rs, h1, h2⟩ := ih _ _ _ hok
      exact ⟨CreateResource artifact r (some e) :: rs, by simpa using h1, by simp [h2]⟩

theorem getElem?_append_singleton_append {α : Type} (x : α) (l2 : List α) :
    ∀ l0 : List α, (l0 ++ [x] ++ l2)[l0.length]? = some x := by
  intro l0
  induction l0 with
  | nil => simp
  | cons a l0 ih => simpa using ih

theorem list_eq_take_cons_drop {α : Type} :
    ∀ (l : List α) (i : Nat) (x : α), l[i]? = some x → l = l.take i ++ x :: l.drop (i + 1) := by
  intro l
  induction l with
  | nil => intro i x h; simp at h
  | cons a l ih =>
    intro i x h
    cases i with
    | zero => simp at h; simp [h]
    | succ i =>
      simp only [List.getElem?_cons_succ] at h
      simp only [List.take_succ_cons, List.drop_succ_cons, List.cons_append]
      rw [← ih i x h]

/-- The loop of `scanVulns` at the image at position `i`, when the loop over the first `i`
images ends without an error: it goes on from there with that image. -/
theorem scanVulnsLoop_at (s : Scanner Report σ) (a : Artifact Raw) (w : σ) (i : Nat)
    (image : String) (hi : a.Images[i]? = some image)
    (hpre : (scanVulnsLoop a (a.Images.take i) [] s w).1.2 = none) :
    ∃ (rs0 : List (Resource Report)) (s1 : Scanner Report σ),
      rs0.length = i ∧ s1.runner = s.runner ∧
      { s1.opts with Target := image } = { s.opts with Target := image } ∧
      scanVulns s a w =
        scanVulnsLoop a (image :: a.Images.drop (i + 1)) rs0 s1
          (scanVulnsLoop a (a.Images.take i) [] s w).2.2 := by
  obtain ⟨rs0, h1, h2⟩ := scanVulnsLoop_extends a (a.Images.take i) [] s w hpre
  have hlt : i < a.Images.length := by
    rcases Nat.lt_or_ge i a.Images.length with h | h
    · exact h
    · rw [List.getElem?_eq_none h] at hi
      cases hi
  obtain ⟨hr, _, ho⟩ := scanVulnsLoop_scanner a (a.Images.take i) [] s w
  refine ⟨rs0, _, ?_, hr, ho image, ?_⟩
  · rw [h2, List.length_take]
    omega
  · have happ := scanVulnsLoop_append a (image :: a.Images.drop (i + 1)) (a.Images.take i) [] s w
      hpre
    rw [← list_eq_take_cons_drop a.Images i image hi] at happ
    rw [scanVulns, happ, h1]
    rfl

/-- C1: when the filter of the runner never fails, `scanVulns` returns no error and one
Resource for every image of the artifact, in the order of the images; the Resource at the
position of an image is made from the call of `ScanImage` on that image: it carries the
error of that call and its report when the call fails, and otherwise no error and the report
as the filter returns it.  A failed scan of an image does not stop the loop. -/
theorem scanVulns_isolates_scan_failures (s : Scanner Report σ) (a : Artifact Raw) (w : σ)
    (hf : ∀ (o : Options) (r : Report) (w1 : σ), (s.runner.Filter o r w1).1.2 = none) :
    ∃ rs : List (Resource Report),
      (scanVulns s a w).1 = (rs, none) ∧ rs.length = a.Images.length ∧
      ∀ (i : Nat) (image : String), a.Images[i]? = some image →
        ∃ res : Resource Report, rs[i]? = some res ∧
          res.Error = (imageScan s a w i image).1.2 ∧
          (∀ e : Error, (imageScan s a w i image).1.2 = some e →
            res = CreateResource a (imageScan s a w i image).1.1 (some e)) ∧
          ((imageScan s a w i image).1.2 = none →
            res = CreateResource a
              (s.runner.Filter { s.opts with Target := image } (imageScan s a w i image).1.1
                (imageScan s a w i image).2).1.1 none) := by
  obtain ⟨rs, h1, h2⟩ := scanVulnsLoop_total a s.runner hf a.Images [] s w rfl
  simp only [List.nil_append] at h1
  refine ⟨rs, h1, h2, ?_⟩
  intro i image hi
  obtain ⟨rs0, hl0, _⟩ := scanVulnsLoop_total a s.runner hf (a.Images.take i) [] s w rfl
  have hpre : (scanVulnsLoop a (a.Images.take i) [] s w).1.2 = none := by rw [hl0]
  obtain ⟨rs0, s1, hlen, hr, ho, hrun⟩ := scanVulnsLoop_at s a w i image hi hpre
  have hrs : (scanVulns s a w).1.1 = rs := by
    have : (scanVulns s a w).1 = (rs, none) := h1
    rw [this]
  rw [hrun] at hrs
  unfold imageScan
  rcases h : s.runner.ScanImage { s.opts with Target := image }
      (scanVulnsLoop a (a.Images.take i) [] s w).2.2 with ⟨⟨r, _ | e⟩, w1⟩
  · rcases hfl : s.runner.Filter { s.opts with Target := image } r w1 with ⟨⟨r1, _ | e⟩, w2⟩
    · rw [← hr, ← ho] at h hfl
      rw [scanVulnsLoop_cons_ok a image _ rs0 s1 _ w1 w2 r r1 h hfl] at hrs
      obtain ⟨rs2, h3, _⟩ := scanVulnsLoop_total a s.runner hf (a.Images.drop (i + 1))
        (rs0 ++ [CreateResource a r1 none]) { s1 with opts := { s1.opts with Target := image } }
        w2 hr
      rw [h3] at hrs
      refine ⟨CreateResource a r1 none, ?_, rfl, ?_, ?_⟩
      · rw [← hrs, ← hlen]
        exact getElem?_append_singleton_append _ _ _
      · intro e he
        cases he
      · intro _
        rfl
    · have := hf { s.opts with Target := image } r w1
      rw [hfl] at this
      cases this
  · rw [← hr, ← ho] at h
    rw [scanVulnsLoop_cons_scan_error a image _ rs0 s1 _ w1 r e h] at hrs
    obtain ⟨rs2, h3, _⟩ := scanVulnsLoop_total a s.runner hf (a.Images.drop (i + 1))
      (rs0 ++ [CreateResource a r (some e)]) { s1 with opts := { s1.opts with Target := image } }
      w1 hr
    rw [h3] at hrs
    refine ⟨CreateResource a r (some e), ?_, rfl, ?_, ?_⟩
    · rw [← hrs, ← hlen]
      exact getElem?_append_singleton_append _ _ _
    · intro e1 he
      cases he
      rfl
    · intro he
      cases he

/-- C1 on the example artifact, whose second image cannot be scanned: three Resources, the
second with the error, and the calls made show the third image scanned after the failure. -/
theorem scanVulns_isolates_scan_failures_witness :
    (∀ (o : Options) (r : String) (w1 : List String),
      ((exampleScanner ["broken:0"] false []).runner.Filter o r w1).1.2 = none) ∧
    (∃ rs : List (Resource String),
      (scanVulns (exampleScanner ["broken:0"] false []) exampleArtifact []).1 = (rs, none) ∧
      rs.length = exampleArtifact.Images.length ∧
      rs.map (fun r => r.Error) = [none, some "cannot pull broken:0", none]) ∧
    (scanVulns (exampleScanner ["broken:0"] false []) exampleArtifact []).2.2 =
      ["ScanImage nginx:1.21", "Filter report of nginx:1.21", "ScanImage broken:0",
       "ScanImage redis:7", "Filter report of redis:7"] := by
  have hf : ∀ (o : Options) (r : String) (w1 : List String),
      ((exampleScanner ["broken:0"] false []).runner.Filter o r w1).1.2 = none := by
    intro o r w1
    simp [exampleScanner, exampleRunner]
  obtain ⟨rs, h1, h2, _⟩ :=
    scanVulns_isolates_scan_failures (exampleScanner ["broken:0"] false []) exampleArtifact [] hf
  refine ⟨hf, ⟨rs, h1, h2, ?_⟩, by decide⟩
  have h3 : (scanVulns (exampleScanner ["broken:0"] false []) exampleArtifact []).1.1 = rs := by
    rw [h1]
  rw [← h3]
  decide

/-- The run of `scanMisconfigs` when the file is written and `ScanFilesystem` fails: the
file is removed, and the Resource that carries the error is returned together with the
error. -/
theorem scanMisconfigs_scan_error (files : Files Raw σ) (s : Scanner Report σ)
    (a : Artifact Raw) (w : σ) (f : String) (e : Error)
    (hc : (files.createTempFile a w).1 = (f, none))
    (hs : (configScan files s a w f).1.2 = some e) :
    (scanMisconfigs files s a w).1 =
      (CreateResource a (configScan files s a w f).1.1 (some e), some e) := by
  unfold configScan at hs ⊢
  rcases hct : files.createTempFile a w with ⟨⟨f1, e1⟩, w1⟩
  rw [hct] at hc hs
  cases hc
  rcases hsc : s.runner.ScanFilesystem { s.opts with Target := f } w1 with ⟨⟨r, e2⟩, w2⟩
  rw [hsc] at hs
  cases hs
  simp only [scanMisconfigs, hct, hsc]

/-- The run of `scanMisconfigs` when the file is written, `ScanFilesystem` succeeds and the
filter fails: the zero Resource and the error of the filter. -/
theorem scanMisconfigs_filter_error (files : Files Raw σ) (s : Scanner Report σ)
    (a : Artifact Raw) (w : σ) (f : String) (e : Error)
    (hc : (files.createTempFile a w).1 = (f, none))
    (hs : (configScan files s a w f).1.2 = none)
    (hf : (configFilter files s a w f).1.2 = some e) :
    (scanMisconfigs files s a w).1 = (Resource.zero, some ("filter error: " ++ e)) := by
  unfold configFilter at hf
  unfold configScan at hs hf
  rcases hct : files.createTempFile a w with ⟨⟨f1, e1⟩, w1⟩
  rw [hct] at hc hs hf
  cases hc
  rcases hsc : s.runner.ScanFilesystem { s.opts with Target := f } w1 with ⟨⟨r, e2⟩, w2⟩
  rw [hsc] at hs hf
  cases hs
  rcases hfl : s.runner.Filter { s.opts with Target := f } r (files.removeFile f w2) with
    ⟨⟨r1, e3⟩, w3⟩
  rw [hfl] at hf
  cases hf
  have := filter_error { s with opts := { s.opts with Target := f } } r r1 a _ w3 e hfl
  simp only [scanMisconfigs, hct, hsc, this]

/-- The closure `onItem` is its first half followed by its second half. -/
theorem onItem_eq (files : Files Raw σ) (s : Scanner Report σ) (a : Artifact Raw) (w : σ) :
    onItem files s a w =
      match vulnStage s a w with
      | ((_, some err), s1, w1) =>
        ((ScanResult.zero, some ("scanning vulnerabilities error: " ++ err)), s1, w1)
      | ((vulns, none), s1, w1) =>
        onItemMisconfig files s1 a { (ScanResult.zero) with vulns := vulns } w1 := by
  unfold onItem vulnStage
  split
  · rfl
  · rfl

/-- The first half of `onItem` changes nothing of the scanner but the target. -/
theorem vulnStage_scanner (s : Scanner Report σ) (a : Artifact Raw) (w : σ) :
    (vulnStage s a w).2.1.runner = s.runner ∧
    (vulnStage s a w).2.1.cluster = s.cluster ∧
    ∀ t : String, { (vulnStage s a w).2.1.opts with Target := t } =
      { s.opts with Target := t } := by
  unfold vulnStage
  split
  · exact scanVulnsLoop_scanner a a.Images [] s w
  · exact ⟨rfl, rfl, fun _ => rfl⟩

/-- The scanner options other than the target are those the first half of `onItem` was
started with. -/
theorem vulnStage_scanners (s : Scanner Report σ) (a : Artifact Raw) (w : σ) :
    (vulnStage s a w).2.1.opts.Scanners = s.opts.Scanners := by
  have h := congrArg (fun o : Options => o.Scanners) ((vulnStage_scanner s a w).2.2 "")
  exact h

/-- The closure `onItem` when the first half passes, the misconfiguration scan is enabled,
the file is written and `ScanFilesystem` fails: the error is returned with the zero result.
The Resource that `scanMisconfigs` builds for the error is not in it. -/
theorem onItem_scan_error (files : Files Raw σ) (s : Scanner Report σ) (a : Artifact Raw)
    (w : σ) (f : String) (e : Error)
    (hv : (vulnStage s a w).1.2 = none)
    (hen : ShouldScanMisconfigOrRbac s.opts.Scanners = true)
    (hc : (files.createTempFile a (vulnStage s a w).2.2).1 = (f, none))
    (hs : (configScan files s a (vulnStage s a w).2.2 f).1.2 = some e) :
    (onItem files s a w).1 =
      (ScanResult.zero, some ("scanning misconfigurations error: " ++ e)) := by
  obtain ⟨hr, _, ho⟩ := vulnStage_scanner s a w
  have hsc := vulnStage_scanners s a w
  rw [onItem_eq]
  rcases hrun : vulnStage s a w with ⟨⟨vs, err⟩, s1, w1⟩
  rw [hrun] at hv hc hs hr ho hsc
  simp only at hv hc hs hr ho hsc
  cases hv
  have hs1 : (configScan files s1 a w1 f).1.2 = some e := by
    unfold configScan at hs ⊢
    rw [hr, ho f]
    exact hs
  have hm := scanMisconfigs_scan_error files s1 a w1 f e hc hs1
  simp only [onItemMisconfig, hsc, hen, if_true]
  rcases hmr : scanMisconfigs files s1 a w1 with ⟨⟨m, err⟩, s2, w2⟩
  rw [hmr] at hm
  cases hm
  rfl

/-- C2 on the code: with a `ScanFilesystem` that fails, `scanMisconfigs` returns the Resource
that carries the error together with the error, and `onItem` returns the error and the zero
result, so that the Resource is dropped and the batch sees a failed item. -/
theorem onItem_returns_filesystem_scan_error :
    (scanMisconfigs exampleFiles (exampleScanner [] true []) exampleArtifact []).1 =
      (CreateResource exampleArtifact "" (some "cannot read /tmp/web"),
        some "cannot read /tmp/web") ∧
    (onItem exampleFiles (exampleScanner [] true []) exampleArtifact []).1 =
      (ScanResult.zero, some "scanning misconfigurations error: cannot read /tmp/web") := by
  decide

/-- C3: an error of the filter is fatal.  (1) When the loop of `scanVulns` reaches an image
whose scan succeeds and whose report the filter rejects, `scanVulns` returns the error and no
Resource, also none of those collected for the earlier images, and `onItem` returns the
error and the zero result.  (2) When the file is written, `ScanFilesystem` succeeds and the
filter rejects its report, `scanMisconfigs` returns the error and the zero Resource.
(3) When that happens after the first half of `onItem` has passed, `onItem` returns the
error and the zero result. -/
theorem filter_error_is_fatal :
    (∀ (s : Scanner Report σ) (a : Artifact Raw) (w : σ) (i : Nat) (image : String) (e : Error),
      a.Images[i]? = some image →
      (scanVulnsLoop a (a.Images.take i) [] s w).1.2 = none →
      (imageScan s a w i image).1.2 = none →
      (s.runner.Filter { s.opts with Target := image } (imageScan s a w i image).1.1
        (imageScan s a w i image).2).1.2 = some e →
      (scanVulns s a w).1 = ([], some ("filter error: filter error: " ++ e)) ∧
      ∀ files : Files Raw σ,
        AnyEnabled s.opts.Scanners [ScannerKind.Vulnerability, ScannerKind.Secret] = true →
        (onItem files s a w).1 =
          (ScanResult.zero,
            some ("scanning vulnerabilities error: filter error: filter error: " ++ e))) ∧
    (∀ (files : Files Raw σ) (s : Scanner Report σ) (a : Artifact Raw) (w : σ) (f : String)
      (e : Error),
      (files.createTempFile a w).1 = (f, none) →
      (configScan files s a w f).1.2 = none →
      (configFilter files s a w f).1.2 = some e →
      (scanMisconfigs files s a w).1 = (Resource.zero, some ("filter error: " ++ e))) ∧
    (∀ (files : Files Raw σ) (s : Scanner Report σ) (a : Artifact Raw) (w : σ) (f : String)
      (e : Error),
      (vulnStage s a w).1.2 = none →
      ShouldScanMisconfigOrRbac s.opts.Scanners = true →
      (files.createTempFile a (vulnStage s a w).2.2).1 = (f, none) →
      (configScan files s a (vulnStage s a w).2.2 f).1.2 = none →
      (configFilter files s a (vulnStage s a w).2.2 f).1.2 = some e →
      (onItem files s a w).1 =
        (ScanResult.zero, some ("scanning misconfigurations error: filter error: " ++ e))) := by
  refine ⟨?_, ?_, ?_⟩
  · intro s a w i image e hi hpre hscan hfilter
    have hsv : (scanVulns s a w).1 = ([], some ("filter error: filter error: " ++ e)) := by
      obtain ⟨rs0, s1, _, hr, ho, hrun⟩ := scanVulnsLoop_at s a w i image hi hpre
      unfold imageScan at hscan hfilter
      rcases h : s.runner.ScanImage { s.opts with Target := image }
          (scanVulnsLoop a (a.Images.take i) [] s w).2.2 with ⟨⟨r, e1⟩, w1⟩
      rw [h] at hscan hfilter
      cases hscan
      rcases hfl : s.runner.Filter { s.opts with Target := image } r w1 with ⟨⟨r1, e2⟩, w2⟩
      rw [hfl] at hfilter
      cases hfilter
      rw [← hr, ← ho] at h hfl
      rw [hrun, scanVulnsLoop_cons_filter_error a image _ rs0 s1 _ w1 w2 r r1 e h hfl,
        ← String.append_assoc]
      rfl
    refine ⟨hsv, ?_⟩
    intro files hen
    rw [onItem_eq]
    have hvs : vulnStage s a w = scanVulns s a w := by
      unfold vulnStage
      rw [if_pos hen]
    rw [hvs]
    rcases hrun : scanVulns s a w with ⟨⟨vs, err⟩, s1, w1⟩
    rw [hrun] at hsv
    cases hsv
    simp only
    rw [← String.append_assoc]
    rfl
  · intro files s a w f e hc hs hf
    exact scanMisconfigs_filter_error files s a w f e hc hs hf
  · intro files s a w f e hv hen hc hs hf
    obtain ⟨hr, _, ho⟩ := vulnStage_scanner s a w
    have hsc := vulnStage_scanners s a w
    rw [onItem_eq]
    rcases hrun : vulnStage s a w with ⟨⟨vs, err⟩, s1, w1⟩
    rw [hrun] at hv hc hs hf hr ho hsc
    simp only at hv hc hs hf hr ho hsc
    cases hv
    have hs1 : (configScan files s1 a w1 f).1.2 = none := by
      unfold configScan at hs ⊢
      rw [hr, ho f]
      exact hs
    have hf1 : (configFilter files s1 a w1 f).1.2 = some e := by
      unfold configFilter configScan at hf ⊢
      rw [hr, ho f]
      exact hf
    have hm := scanMisconfigs_filter_error files s1 a w1 f e hc hs1 hf1
    simp only [onItemMisconfig, hsc, hen, if_true]
    rcases hmr : scanMisconfigs files s1 a w1 with ⟨⟨m, err⟩, s2, w2⟩
    rw [hmr] at hm
    cases hm
    simp only
    rw [← String.append_assoc]
    rfl

/-- C3 on the example artifact: a filter that rejects the report of the third image, and a
filter that rejects the report of the configuration file. -/
theorem filter_error_is_fatal_witness :
    ((scanVulns (exampleScanner [] false ["report of redis:7"]) exampleArtifact []).1 =
        ([], some "filter error: filter error: cannot filter report of redis:7") ∧
      (onItem exampleFiles (exampleScanner [] false ["report of redis:7"]) exampleArtifact []).1 =
        (ScanResult.zero, some
          "scanning vulnerabilities error: filter error: filter error: cannot filter report of redis:7")) ∧
    (scanMisconfigs exampleFiles (exampleScanner [] false ["report of /tmp/web"])
        exampleArtifact []).1 =
      (Resource.zero, some "filter error: cannot filter report of /tmp/web") ∧
    (onItem exampleFiles (exampleScanner [] false ["report of /tmp/web"]) exampleArtifact []).1 =
      (ScanResult.zero, some
        "scanning misconfigurations error: filter error: cannot filter report of /tmp/web") := by
  refine ⟨?_, ?_, ?_⟩
  · have h := filter_error_is_fatal.1 (exampleScanner [] false ["report of redis:7"])
      exampleArtifact [] 2 "redis:7" "cannot filter report of redis:7"
      (by decide) (by decide) (by decide) (by decide)
    exact ⟨h.1, h.2 exampleFiles (by decide)⟩
  · exact filter_error_is_fatal.2.1 exampleFiles (exampleScanner [] false ["report of /tmp/web"])
      exampleArtifact [] "/tmp/web" "cannot filter report of /tmp/web"
      (by decide) (by decide) (by decide)
  · exact filter_error_is_fatal.2.2 exampleFiles (exampleScanner [] false ["report of /tmp/web"])
      exampleArtifact [] "/tmp/web" "cannot filter report of /tmp/web"
      (by decide) (by decide) (by decide) (by decide) (by decide)

end OrchestratorLemmas

end scanner

/-! ## The artifact adapter: the tree of the cluster -/

namespace scanner

section AdapterLemmas

variable {Raw : Type}

theorem forall₂_getElem? {α β : Type} {R : α → β → Prop} {l1 : List α} {l2 : List β}
    (h : List.Forall₂ R l1 l2) :
    ∀ (i : Nat) (a : α), l1[i]? = some a → ∃ b : β, l2[i]? = some b ∧ R a b := by
  induction h with
  | nil => intro i a hi; simp at hi
  | cons hab _ ih =>
    intro i a hi
    cases i with
    | zero =>
      simp only [List.getElem?_cons_zero, Option.some.injEq] at hi
      subst hi
      exact ⟨_, by simp, hab⟩
    | succ i =>
      simp only [List.getElem?_cons_succ] at hi ⊢
      exact ih i a hi

/-- The component of a container, when its package URL can be built. -/
theorem imageComponent_ok (dec : Decoders Raw) (c : Container)
    (h : (dec.NewPackageURL TypeOCI
      [c.Registry ++ "/" ++ c.Repository ++ "@" ++ cDigest c.Digest]).2 = none) :
    imageComponent dec c =
      .ok (Component.mk ComponentType.Container (c.Registry ++ "/" ++ c.Repository)
        (cDigest c.Digest)
        (some (dec.NewPackageURL TypeOCI
          [c.Registry ++ "/" ++ c.Repository ++ "@" ++ cDigest c.Digest]).1)
        [(PropertyPkgID, c.Registry ++ "/" ++ c.Repository ++ ":" ++ sanitizedVersion c.Version),
         (PropertyPkgType, oci)] []) := by
  unfold imageComponent
  rcases hp : dec.NewPackageURL TypeOCI
      [c.Registry ++ "/" ++ c.Repository ++ "@" ++ cDigest c.Digest] with ⟨p, e⟩
  rw [hp] at h
  cases h
  simp only [hp]

/-- What a component of a container looks like, whenever there is one. -/
theorem imageComponent_shape (dec : Decoders Raw) (c : Container) (comp : Component)
    (h : imageComponent dec c = .ok comp) :
    comp.Type_ = ComponentType.Container ∧
    comp.Name = c.Registry ++ "/" ++ c.Repository ∧
    comp.Properties =
      [(PropertyPkgID, comp.Name ++ ":" ++ sanitizedVersion c.Version), (PropertyPkgType, oci)] := by
  unfold imageComponent at h
  simp only at h
  split at h
  · cases h
  · cases h
    exact ⟨rfl, rfl, rfl⟩

/-- A run of the loop over the containers that ends without an error has added the
component of every container, in order. -/
theorem imageComponentsLoop_ok (dec : Decoders Raw) :
    ∀ (cs : List Container) (acc out : List Component),
      imageComponentsLoop dec cs acc = .ok out →
      ∃ comps : List Component, out = acc ++ comps ∧
        List.Forall₂ (fun c comp => imageComponent dec c = .ok comp) cs comps := by
  intro cs
  induction cs with
  | nil =>
    intro acc out h
    simp only [imageComponentsLoop, Except.ok.injEq] at h
    exact ⟨[], by simp [h], List.Forall₂.nil⟩
  | cons c rest ih =>
    intro acc out h
    unfold imageComponentsLoop at h
    rcases hc : imageComponent dec c with e | comp
    · rw [hc] at h
      cases h
    · rw [hc] at h
      obtain ⟨comps, h1, h2⟩ := ih _ _ h
      exact ⟨comp :: comps, by simp [h1], List.Forall₂.cons hc h2⟩

/-- The loop over the containers ends without an error when every container has a
component. -/
theorem imageComponentsLoop_total (dec : Decoders Raw) :
    ∀ (cs : List Container) (acc : List Component),
      (∀ c ∈ cs, ∃ comp, imageComponent dec c = .ok comp) →
      ∃ out, imageComponentsLoop dec cs acc = .ok out := by
  intro cs
  induction cs with
  | nil => intro acc _; exact ⟨acc, rfl⟩
  | cons c rest ih =>
    intro acc h
    obtain ⟨comp, hc⟩ := h c (List.mem_cons_self _ _)
    obtain ⟨out, ho⟩ := ih (acc ++ [comp]) (fun x hx => h x (List.mem_cons_of_mem _ hx))
    exact ⟨out, by simp only [imageComponentsLoop, hc, ho]⟩

/-- A run of the loop over the artifacts that ends without an error has added the
component of every artifact, in order. -/
theorem coreComponentsLoop_ok (lib : Lib) (dec : Decoders Raw) :
    ∀ (as : List (Artifact Raw)) (acc out : List Component),
      coreComponentsLoop lib dec as acc = .ok out →
      ∃ comps : List Component, out = acc ++ comps ∧
        List.Forall₂ (fun a comp => artifactComponent lib dec a = .ok comp) as comps := by
  intro as
  induction as with
  | nil =>
    intro acc out h
    simp only [coreComponentsLoop, Except.ok.injEq] at h
    exact ⟨[], by simp [h], List.Forall₂.nil⟩
  | cons a rest ih =>
    intro acc out h
    unfold coreComponentsLoop at h
    rcases hc : artifactComponent lib dec a with e | comp
    · rw [hc] at h
      cases h
    · rw [hc] at h
      obtain ⟨comps, h1, h2⟩ := ih _ _ h
      exact ⟨comp :: comps, by simp [h1], List.Forall₂.cons hc h2⟩

/-- The loop over the artifacts ends with an error as soon as one artifact has no
component. -/
theorem coreComponentsLoop_error (lib : Lib) (dec : Decoders Raw) :
    ∀ (as : List (Artifact Raw)) (acc : List Component) (a : Artifact Raw) (e : Error),
      a ∈ as → artifactComponent lib dec a = .error e →
      ∃ e1 : Error, coreComponentsLoop lib dec as acc = .error e1 := by
  intro as
  induction as with
  | nil => intro acc a e ha; cases ha
  | cons b rest ih =>
    intro acc a e ha he
    unfold coreComponentsLoop
    rcases hb : artifactComponent lib dec b with e2 | comp
    · exact ⟨e2, rfl⟩
    · rcases List.mem_cons.mp ha with rfl | hr
      · rw [he] at hb
        cases hb
      · exact ih _ a e hr he

/-- The function on a list of artifacts, in terms of its loop. -/
theorem clusterInfoToReportResources_ok (lib : Lib) (dec : Decoders Raw)
    (as : List (Artifact Raw)) (cluster : String)
    (h : (clusterInfoToReportResources lib dec as cluster).2 = none) :
    ∃ comps : List Component,
      clusterInfoToReportResources lib dec as cluster =
        (some (Component.mk ComponentType.Container cluster "" none [] comps), none) ∧
      List.Forall₂ (fun a comp => artifactComponent lib dec a = .ok comp) as comps := by
  unfold clusterInfoToReportResources at h ⊢
  rcases hl : coreComponentsLoop lib dec as [] with e | out
  · rw [hl] at h
    cases h
  · obtain ⟨comps, h1, h2⟩ := coreComponentsLoop_ok lib dec as [] out hl
    simp only [List.nil_append] at h1
    subst h1
    exact ⟨out, rfl, h2⟩

/-- C11: a pod artifact that decodes and whose package URLs can be built has a component,
which is the child that `clusterInfoToReportResources` gives the root for it: it is named
after the pod and carries the pod's properties, and it has one child for every container, in
the order of the containers; the child of a container is a Container named
`registry/repository` whose properties are `PkgID`, the name and the sanitized version
joined by a colon, and `PkgType`, "oci". -/
theorem pod_conversion (lib : Lib) (dec : Decoders Raw) (artifact : Artifact Raw)
    (comp : PodInfo) (hk : artifact.Kind = "PodInfo")
    (hd : dec.decodePod artifact.RawResource = (comp, none))
    (hp : ∀ c ∈ comp.Containers, (dec.NewPackageURL "oci"
      [c.Registry ++ "/" ++ c.Repository ++ "@" ++ cDigest c.Digest]).2 = none) :
    ∃ pc : Component, artifactComponent lib dec artifact = .ok pc ∧
      (∀ cluster : String, ∃ root : Component,
        clusterInfoToReportResources lib dec [artifact] cluster = (some root, none) ∧
        root.Components = [pc]) ∧
      pc.Name = comp.Name ∧ pc.Properties = comp.Properties ∧
      pc.Components.length = comp.Containers.length ∧
      ∀ (i : Nat) (c : Container), comp.Containers[i]? = some c →
        ∃ ch : Component, pc.Components[i]? = some ch ∧
          ch.Type_ = ComponentType.Container ∧
          ch.Name = c.Registry ++ "/" ++ c.Repository ∧
          ch.Properties =
            [("PkgID", ch.Name ++ ":" ++ sanitizedVersion c.Version), ("PkgType", "oci")] := by
  have htot : ∀ c ∈ comp.Containers, ∃ x, imageComponent dec c = .ok x :=
    fun c hc => ⟨_, imageComponent_ok dec c (hp c hc)⟩
  obtain ⟨out, ho⟩ := imageComponentsLoop_total dec comp.Containers [] htot
  obtain ⟨comps, h1, h2⟩ := imageComponentsLoop_ok dec comp.Containers [] out ho
  simp only [List.nil_append] at h1
  subst h1
  have hac : artifactComponent lib dec artifact =
      .ok (Component.mk ComponentType.Application comp.Name "" none comp.Properties out) := by
    have hk1 : artifact.Kind = pod := hk
    unfold artifactComponent
    rw [if_pos hk1]
    simp only [hd, ho]
  refine ⟨_, hac, ?_, rfl, rfl, h2.length_eq.symm, ?_⟩
  · intro cluster
    refine ⟨Component.mk ComponentType.Container cluster "" none []
      [Component.mk ComponentType.Application comp.Name "" none comp.Properties out], ?_, rfl⟩
    simp only [clusterInfoToReportResources, coreComponentsLoop, hac, List.nil_append]
  · intro i c hi
    obtain ⟨ch, hch, hok⟩ := forall₂_getElem? h2 i c hi
    exact ⟨ch, hch, imageComponent_shape dec c ch hok⟩

/-- C11 on the pod of the encoder test: the container is named
"k8s.gcr.io/kube-apiserver" and has the package ID "k8s.gcr.io/kube-apiserver:1.21.1". -/
theorem pod_conversion_witness :
    ∃ pc : Component, artifactComponent exampleLib exampleDecoders examplePod = .ok pc ∧
      pc.Name = "kube-apiserver-kind-control-plane" ∧
      pc.Components.map (fun ch => (ch.Name, ch.Properties)) =
        [("k8s.gcr.io/kube-apiserver",
          [("PkgID", "k8s.gcr.io/kube-apiserver:1.21.1"), ("PkgType", "oci")])] := by
  obtain ⟨pc, h1, _, h3, _, _, _⟩ := pod_conversion exampleLib exampleDecoders examplePod
    (exampleDecoders.decodePod ()).1 rfl rfl (by decide)
  refine ⟨pc, h1, h3, ?_⟩
  have h5 : artifactComponent exampleLib exampleDecoders examplePod =
      .ok (Component.mk ComponentType.Application "kube-apiserver-kind-control-plane" "" none
        [("control_plane_components", "kube-apiserver")]
        [Component.mk ComponentType.Container "k8s.gcr.io/kube-apiserver" "sha256:18e61c78"
          (some (exampleDecoders.NewPackageURL "oci"
            ["k8s.gcr.io/kube-apiserver@sha256:18e61c78"]).1)
          [("PkgID", "k8s.gcr.io/kube-apiserver:1.21.1"), ("PkgType", "oci")] []]) := by
    rfl
  rw [h5] at h1
  cases h1
  rfl

/-- C12: whenever `clusterInfoToReportResources` returns no error, it returns a root that is
a Container named after the cluster, without a package URL, with one child for every
artifact, in the order of the artifacts: the child at the position of an artifact is the
component of that artifact.  On the empty list it returns a root without children. -/
theorem cluster_composition (lib : Lib) (dec : Decoders Raw) (cluster : String) :
    (∀ as : List (Artifact Raw), (clusterInfoToReportResources lib dec as cluster).2 = none →
      ∃ root : Component, (clusterInfoToReportResources lib dec as cluster).1 = some root ∧
        root.Type_ = ComponentType.Container ∧ root.Name = cluster ∧
        root.PackageURL = none ∧ root.Components.length = as.length ∧
        ∀ (i : Nat) (a : Artifact Raw), as[i]? = some a →
          ∃ c : Component, root.Components[i]? = some c ∧
            artifactComponent lib dec a = .ok c) ∧
    (∃ root : Component, clusterInfoToReportResources lib dec [] cluster = (some root, none) ∧
      root.Type_ = ComponentType.Container ∧ root.Name = cluster ∧
      root.PackageURL = none ∧ root.Components = []) := by
  constructor
  · intro as h
    obtain ⟨comps, h1, h2⟩ := clusterInfoToReportResources_ok lib dec as cluster h
    refine ⟨Component.mk ComponentType.Container cluster "" none [] comps, by rw [h1], rfl,
      rfl, rfl, h2.length_eq.symm, ?_⟩
    intro i a hi
    exact forall₂_getElem? h2 i a hi
  · exact ⟨_, rfl, rfl, rfl, rfl, rfl⟩

/-- C12 on the pod and the node of the examples, in the cluster "test-cluster". -/
theorem cluster_composition_witness :
    ∃ root : Component,
      (clusterInfoToReportResources exampleLib exampleDecoders [examplePod, exampleNode]
        "test-cluster").1 = some root ∧
      root.Name = "test-cluster" ∧
      root.Components.map Component.Name = ["kube-apiserver-kind-control-plane", "node-1"] := by
  obtain ⟨root, h1, _, h3, _, _, _⟩ :=
    (cluster_composition exampleLib exampleDecoders "test-cluster").1 [examplePod, exampleNode]
      (by rfl)
  refine ⟨root, h1, h3, ?_⟩
  have h5 : (clusterInfoToReportResources exampleLib exampleDecoders [examplePod, exampleNode]
      "test-cluster").1 =
      some (Component.mk ComponentType.Container "test-cluster" "" none []
        [Component.mk ComponentType.Application "kube-apiserver-kind-control-plane" "" none
          [("control_plane_components", "kube-apiserver")]
          [Component.mk ComponentType.Container "k8s.gcr.io/kube-apiserver" "sha256:18e61c78"
            (some (exampleDecoders.NewPackageURL "oci"
              ["k8s.gcr.io/kube-apiserver@sha256:18e61c78"]).1)
            [("PkgID", "k8s.gcr.io/kube-apiserver:1.21.1"), ("PkgType", "oci")] []],
         nodeComponent exampleLib (scenarioNode [])]) := by
    rfl
  rw [h5] at h1
  cases h1
  rfl

/-- C13: when some artifact of the list has a kind that is neither "PodInfo" nor "NodeInfo",
`clusterInfoToReportResources` returns an error and no root, wherever that artifact stands
and whatever the other artifacts are. -/
theorem unsupported_kind_aborts (lib : Lib) (dec : Decoders Raw) (as : List (Artifact Raw))
    (cluster : String)
    (h : ∃ a ∈ as, a.Kind ≠ "PodInfo" ∧ a.Kind ≠ "NodeInfo") :
    (clusterInfoToReportResources lib dec as cluster).1 = none ∧
    ∃ e : Error, (clusterInfoToReportResources lib dec as cluster).2 = some e := by
  obtain ⟨a, ha, h1, h2⟩ := h
  have he : artifactComponent lib dec a =
      .error ("resource kind " ++ a.Kind ++ " is not supported") := by
    have h3 : ¬ a.Kind = pod := h1
    have h4 : ¬ a.Kind = nodeInfo := h2
    unfold artifactComponent
    rw [if_neg h3, if_neg h4]
  obtain ⟨e1, hl⟩ := coreComponentsLoop_error lib dec as [] a _ ha he
  unfold clusterInfoToReportResources
  rw [hl]
  exact ⟨rfl, e1, rfl⟩

/-- C13 on the list of the example pod, an artifact of kind "Deployment" and the example
node: the error names the kind, and there is no root. -/
theorem unsupported_kind_aborts_witness :
    (clusterInfoToReportResources exampleLib exampleDecoders
      [examplePod, exampleDeployment, exampleNode] "test-cluster").1 = none ∧
    (clusterInfoToReportResources exampleLib exampleDecoders
      [examplePod, exampleDeployment, exampleNode] "test-cluster").2 =
        some "resource kind Deployment is not supported" := by
  obtain ⟨h1, _⟩ := unsupported_kind_aborts exampleLib exampleDecoders
    [examplePod, exampleDeployment, exampleNode] "test-cluster"
    ⟨exampleDeployment, by simp, by decide, by decide⟩
  exact ⟨h1, by rfl⟩

end AdapterLemmas

end scanner

/-! ## The scan orchestrator: what the scans leave behind -/

namespace scanner

/-- The length of the aggregate list after `onResult` has taken a list of results. -/
theorem foldl_onResult_length {Report : Type} :
    ∀ (results : List (ScanResult Report)) (resources : List (Resource Report)),
      (results.foldl onResult resources).length =
        resources.length + (results.map (fun r => r.vulns.length)).sum + results.length := by
  intro results
  induction results with
  | nil => intro resources; simp
  | cons r rest ih =>
    intro resources
    rw [List.foldl_cons, ih]
    simp only [onResult, List.length_append, List.length_cons, List.length_nil, List.map_cons,
      List.sum_cons]
    omega

section FrameLemmas

variable {Raw Report σ : Type} [Inhabited Report]

/-- The scanner after `scanMisconfigs`: the scanner before when the file cannot be written,
and otherwise the scanner before with the path of the file as target. -/
theorem scanMisconfigs_scanner (files : Files Raw σ) (s : Scanner Report σ) (a : Artifact Raw)
    (w : σ) :
    (scanMisconfigs files s a w).2.1 =
      match (files.createTempFile a w).1.2 with
      | some _ => s
      | none => { s with opts := { s.opts with Target := (files.createTempFile a w).1.1 } } := by
  rcases hct : files.createTempFile a w with ⟨⟨f, _ | e⟩, w1⟩
  · rcases hsc : s.runner.ScanFilesystem { s.opts with Target := f } w1 with ⟨⟨r, _ | e⟩, w2⟩
    · simp only [scanMisconfigs, hct, hsc]
    · simp only [scanMisconfigs, hct, hsc]
  · simp only [scanMisconfigs, hct]

/-- The target after the loop of `scanVulns` is the target before or one of the images. -/
theorem scanVulnsLoop_target (artifact : Artifact Raw) :
    ∀ (images : List String) (resources : List (Resource Report)) (s : Scanner Report σ)
      (w : σ),
      (scanVulnsLoop artifact images resources s w).2.1.opts.Target = s.opts.Target ∨
      (scanVulnsLoop artifact images resources s w).2.1.opts.Target ∈ images := by
  intro images
  induction images with
  | nil => intro resources s w; left; rfl
  | cons image rest ih =>
    intro resources s w
    right
    rcases h : s.runner.ScanImage { s.opts with Target := image } w with ⟨⟨r, _ | e⟩, w1⟩
    · rcases hf : s.runner.Filter { s.opts with Target := image } r w1 with ⟨⟨r1, _ | e⟩, w2⟩
      · rw [scanVulnsLoop_cons_ok artifact image rest resources s w w1 w2 r r1 h hf]
        rcases ih (resources ++ [CreateResource artifact r1 none])
          { s with opts := { s.opts with Target := image } } w2 with h1 | h1
        · rw [h1]; exact List.mem_cons_self _ _
        · exact List.mem_cons_of_mem _ h1
      · rw [scanVulnsLoop_cons_filter_error artifact image rest resources s w w1 w2 r r1 e h hf]
        exact List.mem_cons_self _ _
    · rw [scanVulnsLoop_cons_scan_error artifact image rest resources s w w1 r e h]
      rcases ih (resources ++ [CreateResource artifact r (some e)])
        { s with opts := { s.opts with Target := image } } w1 with h1 | h1
      · rw [h1]; exact List.mem_cons_self _ _
      · exact List.mem_cons_of_mem _ h1

/-- What the two scans leave of the Scanner: the cluster, the runner and every option other
than the target are as before; `scanVulns` leaves as target the target before or one of the
images of the artifact, and `scanMisconfigs` the target before when the file cannot be
written and the path of the file when it can. -/
theorem scans_keep_scanner_but_target (files : Files Raw σ) (s : Scanner Report σ)
    (a : Artifact Raw) (w : σ) :
    ((scanVulns s a w).2.1.cluster = s.cluster ∧
      (scanVulns s a w).2.1.runner = s.runner ∧
      (scanVulns s a w).2.1.opts.Format = s.opts.Format ∧
      (scanVulns s a w).2.1.opts.Scanners = s.opts.Scanners ∧
      (scanVulns s a w).2.1.opts.Debug = s.opts.Debug ∧
      (scanVulns s a w).2.1.opts.Quiet = s.opts.Quiet ∧
      (scanVulns s a w).2.1.opts.Parallel = s.opts.Parallel ∧
      ((scanVulns s a w).2.1.opts.Target = s.opts.Target ∨
        (scanVulns s a w).2.1.opts.Target ∈ a.Images)) ∧
    ((scanMisconfigs files s a w).2.1.cluster = s.cluster ∧
      (scanMisconfigs files s a w).2.1.runner = s.runner ∧
      (scanMisconfigs files s a w).2.1.opts.Format = s.opts.Format ∧
      (scanMisconfigs files s a w).2.1.opts.Scanners = s.opts.Scanners ∧
      (scanMisconfigs files s a w).2.1.opts.Debug = s.opts.Debug ∧
      (scanMisconfigs files s a w).2.1.opts.Quiet = s.opts.Quiet ∧
      (scanMisconfigs files s a w).2.1.opts.Parallel = s.opts.Parallel ∧
      (scanMisconfigs files s a w).2.1.opts.Target =
        match (files.createTempFile a w).1.2 with
        | some _ => s.opts.Target
        | none => (files.createTempFile a w).1.1) := by
  constructor
  · obtain ⟨h1, h2, h3⟩ := scanVulnsLoop_scanner a a.Images [] s w
    have h4 := h3 ""
    have hFormat := congrArg (fun o : Options => o.Format) h4
    have hScanners := congrArg (fun o : Options => o.Scanners) h4
    have hDebug := congrArg (fun o : Options => o.Debug) h4
    have hQuiet := congrArg (fun o : Options => o.Quiet) h4
    have hParallel := congrArg (fun o : Options => o.Parallel) h4
    exact ⟨h2, h1, hFormat, hScanners, hDebug, hQuiet, hParallel,
      scanVulnsLoop_target a a.Images [] s w⟩
  · rw [scanMisconfigs_scanner]
    rcases (files.createTempFile a w).1.2 with _ | e
    · exact ⟨rfl, rfl, rfl, rfl, rfl, rfl, rfl, rfl⟩
    · exact ⟨rfl, rfl, rfl, rfl, rfl, rfl, rfl, rfl⟩

/-- The target after a loop of `scanVulns` that ends without an error is the last image, and
the target before when there is no image. -/
theorem scanVulnsLoop_target_last (artifact : Artifact Raw) :
    ∀ (images : List String) (resources : List (Resource Report)) (s : Scanner Report σ)
      (w : σ), (scanVulnsLoop artifact images resources s w).1.2 = none →
      (scanVulnsLoop artifact images resources s w).2.1.opts.Target =
        images.getLast?.getD s.opts.Target := by
  intro images
  induction images with
  | nil => intro resources s w _; rfl
  | cons image rest ih =>
    intro resources s w hok
    have hlast : (image :: rest).getLast?.getD s.opts.Target = rest.getLast?.getD image := by
      cases rest with
      | nil => rfl
      | cons b bs =>
        rw [List.getLast?_cons_cons]
        rcases hl : (b :: bs).getLast? with _ | x
        · simp at hl
        · rfl
    rw [hlast]
    rcases h : s.runner.ScanImage { s.opts with Target := image } w with ⟨⟨r, _ | e⟩, w1⟩
    · rcases hf : s.runner.Filter { s.opts with Target := image } r w1 with ⟨⟨r1, _ | e⟩, w2⟩
      · rw [scanVulnsLoop_cons_ok artifact image rest resources s w w1 w2 r r1 h hf] at hok ⊢
        exact ih _ _ _ hok
      · rw [scanVulnsLoop_cons_filter_error artifact image rest resources s w w1 w2 r r1 e h hf]
          at hok
        cases hok
    · rw [scanVulnsLoop_cons_scan_error artifact image rest resources s w w1 r e h] at hok ⊢
      exact ih _ _ _ hok

/-- The target after a loop of `scanVulns` over at least one image is one of the images. -/
theorem scanVulnsLoop_target_mem (artifact : Artifact Raw) (images : List String)
    (resources : List (Resource Report)) (s : Scanner Report σ) (w : σ) (hne : images ≠ []) :
    (scanVulnsLoop artifact images resources s w).2.1.opts.Target ∈ images := by
  cases images with
  | nil => exact absurd rfl hne
  | cons image rest =>
    rcases h : s.runner.ScanImage { s.opts with Target := image } w with ⟨⟨r, _ | e⟩, w1⟩
    · rcases hf : s.runner.Filter { s.opts with Target := image } r w1 with ⟨⟨r1, _ | e⟩, w2⟩
      · rw [scanVulnsLoop_cons_ok artifact image rest resources s w w1 w2 r r1 h hf]
        rcases scanVulnsLoop_target artifact rest (resources ++ [CreateResource artifact r1 none])
          { s with opts := { s.opts with Target := image } } w2 with h1 | h1
        · rw [h1]; exact List.mem_cons_self _ _
        · exact List.mem_cons_of_mem _ h1
      · rw [scanVulnsLoop_cons_filter_error artifact image rest resources s w w1 w2 r r1 e h hf]
        exact List.mem_cons_self _ _
    · rw [scanVulnsLoop_cons_scan_error artifact image rest resources s w w1 r e h]
      rcases scanVulnsLoop_target artifact rest
        (resources ++ [CreateResource artifact r (some e)])
        { s with opts := { s.opts with Target := image } } w1 with h1 | h1
      · rw [h1]; exact List.mem_cons_self _ _
      · exact List.mem_cons_of_mem _ h1

/-- C14 on the code: the scans do not leave the Scanner as it is.  `scanVulns` writes every
image that it reaches into the target of the Scanner it is invoked on: over at least one
image, the target after is one of the images, the last one when no error is returned, and
the Scanner is another one when the target before was none of the images.  `scanMisconfigs`
writes the path of the file, and the Scanner is another one when the target before was not
that path.  The call of `ScanImage` for an image is `scanImageCall` after `setTarget`: it
reads the target back from the Scanner, so that on a Scanner in which the write of another
image has come in between it scans that other image. -/
theorem scans_write_target (files : Files Raw σ) (s : Scanner Report σ) (a : Artifact Raw)
    (w : σ) :
    (a.Images ≠ [] →
      (scanVulns s a w).2.1.opts.Target ∈ a.Images ∧
      ((scanVulns s a w).1.2 = none →
        (scanVulns s a w).2.1.opts.Target = a.Images.getLast?.getD s.opts.Target) ∧
      (s.opts.Target ∉ a.Images → (scanVulns s a w).2.1 ≠ s)) ∧
    (∀ f : String, (files.createTempFile a w).1 = (f, none) →
      (scanMisconfigs files s a w).2.1.opts.Target = f ∧
      (s.opts.Target ≠ f → (scanMisconfigs files s a w).2.1 ≠ s)) ∧
    (∀ (image : String) (rest : List String), a.Images = image :: rest →
      imageScan s a w 0 image = scanImageCall (setTarget s image) w) ∧
    (∀ mine other : String,
      scanImageCall (setTarget (setTarget s mine) other) w =
        s.runner.ScanImage { s.opts with Target := other } w) := by
  refine ⟨?_, ?_, ?_, ?_⟩
  · intro hne
    have hmem := scanVulnsLoop_target_mem a a.Images [] s w hne
    refine ⟨hmem, fun hok => scanVulnsLoop_target_last a a.Images [] s w hok, ?_⟩
    intro hnot heq
    have hmem1 : (scanVulns s a w).2.1.opts.Target ∈ a.Images := hmem
    rw [heq] at hmem1
    exact hnot hmem1
  · intro f hc
    have h1 : (scanMisconfigs files s a w).2.1.opts.Target = f := by
      rw [scanMisconfigs_scanner]
      rcases hct : files.createTempFile a w with ⟨⟨f1, e1⟩, w1⟩
      rw [hct] at hc
      cases hc
      rfl
    refine ⟨h1, ?_⟩
    intro hne heq
    rw [heq] at h1
    exact hne h1
  · intro image rest _
    rfl
  · intro mine other
    rfl

/-- C14 on the example scanner, whose target is empty before: after `scanVulns` on the
example artifact the target of the Scanner is the last image, after `scanMisconfigs` the
path of the file, and the call of `ScanImage` that follows the writes of "nginx:1.21" and
then of "redis:7" returns the report of "redis:7". -/
theorem scans_overwrite_target :
    (exampleScanner [] false []).opts.Target = "" ∧
    (scanVulns (exampleScanner [] false []) exampleArtifact []).2.1.opts.Target = "redis:7" ∧
    (scanVulns (exampleScanner [] false []) exampleArtifact []).2.1 ≠ exampleScanner [] false [] ∧
    (scanMisconfigs exampleFiles (exampleScanner [] false []) exampleArtifact []).2.1.opts.Target
      = "/tmp/web" ∧
    (scanMisconfigs exampleFiles (exampleScanner [] false []) exampleArtifact []).2.1 ≠
      exampleScanner [] false [] ∧
    (scanImageCall (setTarget (setTarget (exampleScanner [] false []) "nginx:1.21") "redis:7")
      []).1 = ("report of redis:7", none) := by
  have h := scans_write_target exampleFiles (exampleScanner [] false []) exampleArtifact []
  have hv := h.1 (by decide)
  have hm := h.2.1 "/tmp/web" (by decide)
  refine ⟨rfl, (hv.2.1 (by decide)).trans (by decide), hv.2.2 (by decide), hm.1,
    hm.2 (by decide), ?_⟩
  rw [h.2.2.2 "nginx:1.21" "redis:7"]
  decide

/-- The traced run of `scanMisconfigs` returns what the run itself returns and leaves the
world in which the run itself ends: writing the calls down changes nothing. -/
theorem scanMisconfigs_traced (files : Files Raw σ) (s : Scanner Report σ) (a : Artifact Raw)
    (w : σ) (l : List Call) :
    (scanMisconfigs (tracedFiles files) (tracedScanner s) a (w, l)).1 =
      (scanMisconfigs files s a w).1 ∧
    (scanMisconfigs (tracedFiles files) (tracedScanner s) a (w, l)).2.2.1 =
      (scanMisconfigs files s a w).2.2 := by
  rcases hct : files.createTempFile a w with ⟨⟨f, _ | e⟩, w1⟩
  · rcases hsc : s.runner.ScanFilesystem { s.opts with Target := f } w1 with ⟨⟨r, _ | e⟩, w2⟩
    · rcases hfl : s.runner.Filter { s.opts with Target := f } r (files.removeFile f w2) with
        ⟨⟨r1, _ | e⟩, w3⟩
      · simp [scanMisconfigs, filter, tracedFiles, tracedRunner, tracedScanner, hct, hsc, hfl]
      · simp [scanMisconfigs, filter, tracedFiles, tracedRunner, tracedScanner, hct, hsc, hfl]
    · simp [scanMisconfigs, tracedFiles, tracedRunner, tracedScanner, hct, hsc]
  · simp [scanMisconfigs, tracedFiles, tracedRunner, tracedScanner, hct]

/-- C15: the calls that `scanMisconfigs` makes.  When the file is written, they are
`createTempFile`, `ScanFilesystem` on the path, `removeFile` on the path, and then `Filter` if
the scan did not fail: the file is removed once, after the scan, whatever the scan and the
filter return.  When the file cannot be written, `createTempFile` is the only call. -/
theorem removeFile_once_after_scan (files : Files Raw σ) (s : Scanner Report σ)
    (a : Artifact Raw) (w : σ) :
    (∀ f : String, (files.createTempFile a w).1 = (f, none) →
      (scanMisconfigs (tracedFiles files) (tracedScanner s) a (w, [])).2.2.2 =
        [Call.createTempFile, Call.ScanFilesystem f, Call.removeFile f] ++
          (match (configScan files s a w f).1.2 with
            | none => [Call.Filter]
            | some _ => [])) ∧
    (∀ e : Error, (files.createTempFile a w).1.2 = some e →
      (scanMisconfigs (tracedFiles files) (tracedScanner s) a (w, [])).2.2.2 =
        [Call.createTempFile]) := by
  constructor
  · intro f hc
    unfold configScan
    rcases hct : files.createTempFile a w with ⟨⟨f1, e1⟩, w1⟩
    rw [hct] at hc
    cases hc
    rcases hsc : s.runner.ScanFilesystem { s.opts with Target := f } w1 with ⟨⟨r, _ | e⟩, w2⟩
    · rcases hfl : s.runner.Filter { s.opts with Target := f } r (files.removeFile f w2) with
        ⟨⟨r1, _ | e⟩, w3⟩
      · simp [scanMisconfigs, filter, tracedFiles, tracedRunner, tracedScanner, hct, hsc, hfl]
      · simp [scanMisconfigs, filter, tracedFiles, tracedRunner, tracedScanner, hct, hsc, hfl]
    · simp [scanMisconfigs, tracedFiles, tracedRunner, tracedScanner, hct, hsc]
  · intro e hc
    rcases hct : files.createTempFile a w with ⟨⟨f1, e1⟩, w1⟩
    rw [hct] at hc
    cases hc
    simp [scanMisconfigs, tracedFiles, tracedRunner, tracedScanner, hct]

/-- C15 on the example artifact: with a scan that succeeds, with a scan that fails, and with
a file that cannot be written. -/
theorem removeFile_once_after_scan_witness :
    (scanMisconfigs (tracedFiles exampleFiles) (tracedScanner (exampleScanner [] false []))
        exampleArtifact ([], [])).2.2.2 =
      [Call.createTempFile, Call.ScanFilesystem "/tmp/web", Call.removeFile "/tmp/web",
        Call.Filter] ∧
    (scanMisconfigs (tracedFiles exampleFiles) (tracedScanner (exampleScanner [] true []))
        exampleArtifact ([], [])).2.2.2 =
      [Call.createTempFile, Call.ScanFilesystem "/tmp/web", Call.removeFile "/tmp/web"] ∧
    (scanMisconfigs (tracedFiles brokenFiles) (tracedScanner (exampleScanner [] false []))
        exampleArtifact ([], [])).2.2.2 = [Call.createTempFile] :=
  ⟨(removeFile_once_after_scan exampleFiles (exampleScanner [] false []) exampleArtifact []).1
      "/tmp/web" (by decide),
   (removeFile_once_after_scan exampleFiles (exampleScanner [] true []) exampleArtifact []).1
      "/tmp/web" (by decide),
   (removeFile_once_after_scan brokenFiles (exampleScanner [] false []) exampleArtifact []).2
      "disk full" (by decide)⟩

/-- A run of `runSequential` that ends without an error has taken the result of `onItem` for
every artifact. -/
theorem runSequential_ok (files : Files Raw σ) :
    ∀ (as : List (Artifact Raw)) (resources : List (Resource Report)) (s : Scanner Report σ)
      (w : σ),
      (runSequential files as resources s w).1.2 = none →
      (itemResults files as s w).length = as.length ∧
      (runSequential files as resources s w).1.1 =
        (itemResults files as s w).foldl onResult resources := by
  intro as
  induction as with
  | nil => intro resources s w _; simp [runSequential, itemResults]
  | cons a rest ih =>
    intro resources s w h
    rcases hi : onItem files s a w with ⟨⟨result, _ | e⟩, s1, w1⟩
    · simp only [runSequential, itemResults, hi] at h ⊢
      obtain ⟨h1, h2⟩ := ih (onResult resources result) s1 w1 h
      simp [h1, h2]
    · simp [runSequential, hi] at h

/-- A run of `scanMisconfigs` that ends without an error: the file was written, the scan of
the file and the filter passed, and the Resource is built from the filtered report. -/
theorem scanMisconfigs_ok (files : Files Raw σ) (s : Scanner Report σ) (a : Artifact Raw)
    (w : σ) (m : Resource Report) (h : (scanMisconfigs files s a w).1 = (m, none)) :
    (files.createTempFile a w).1.2 = none ∧
    (configScan files s a w (files.createTempFile a w).1.1).1.2 = none ∧
    (configFilter files s a w (files.createTempFile a w).1.1).1.2 = none ∧
    m = CreateResource a (configFilter files s a w (files.createTempFile a w).1.1).1.1 none := by
  unfold configFilter configScan
  rcases hct : files.createTempFile a w with ⟨⟨f, _ | e⟩, w1⟩
  · rcases hsc : s.runner.ScanFilesystem { s.opts with Target := f } w1 with ⟨⟨r, _ | e⟩, w2⟩
    · rcases hfl : s.runner.Filter { s.opts with Target := f } r (files.removeFile f w2) with
        ⟨⟨r1, _ | e⟩, w3⟩
      · simp only [scanMisconfigs, filter, hct, hsc, hfl] at h
        cases h
        simp [hsc, hfl]
      · simp only [scanMisconfigs, filter, hct, hsc, hfl] at h
        cases h
    · simp only [scanMisconfigs, hct, hsc] at h
      cases h
  · simp only [scanMisconfigs, hct] at h
    cases h

/-- C20: `onResult` puts the vulnerability Resources of the result and then its one
misconfiguration Resource at the end of the aggregate list, which so grows by their number
plus one.  In a result that `onItem` returns without an error, the vulnerability Resources
are those that `scanVulns` returns, in their order, when the vulnerability scan is enabled,
and none otherwise; the misconfiguration Resource is the zero Resource when the
misconfiguration scan is not enabled, and when it is enabled it is the Resource that
`scanMisconfigs` returns after the vulnerability scan: the file was written, the scan of the
file and the filter passed, and the Resource is built for the artifact from the filtered
report.  A run over the artifacts one after the other that ends without an error yields as
many Resources as the results have vulnerability Resources, plus one for every artifact. -/
theorem onResult_contribution :
    (∀ (resources : List (Resource Report)) (result : ScanResult Report),
      onResult resources result = resources ++ result.vulns ++ [result.misconfig] ∧
      (onResult resources result).length = resources.length + (result.vulns.length + 1)) ∧
    (∀ (files : Files Raw σ) (s : Scanner Report σ) (a : Artifact Raw) (w : σ)
      (result : ScanResult Report), (onItem files s a w).1 = (result, none) →
      result.vulns = (vulnStage s a w).1.1 ∧
      (AnyEnabled s.opts.Scanners [ScannerKind.Vulnerability, ScannerKind.Secret] = true →
        (result.vulns, (none : Option Error)) = (scanVulns s a w).1) ∧
      (AnyEnabled s.opts.Scanners [ScannerKind.Vulnerability, ScannerKind.Secret] = false →
        result.vulns = []) ∧
      (ShouldScanMisconfigOrRbac s.opts.Scanners = false → result.misconfig = Resource.zero) ∧
      (ShouldScanMisconfigOrRbac s.opts.Scanners = true →
        (scanMisconfigs files (vulnStage s a w).2.1 a (vulnStage s a w).2.2).1 =
          (result.misconfig, none) ∧
        (files.createTempFile a (vulnStage s a w).2.2).1.2 = none ∧
        (configScan files s a (vulnStage s a w).2.2
          (files.createTempFile a (vulnStage s a w).2.2).1.1).1.2 = none ∧
        (configFilter files s a (vulnStage s a w).2.2
          (files.createTempFile a (vulnStage s a w).2.2).1.1).1.2 = none ∧
        result.misconfig =
          CreateResource a
            (configFilter files s a (vulnStage s a w).2.2
              (files.createTempFile a (vulnStage s a w).2.2).1.1).1.1 none)) ∧
    (∀ (files : Files Raw σ) (as : List (Artifact Raw)) (s : Scanner Report σ) (w : σ)
      (rs : List (Resource Report)), (runSequential files as [] s w).1 = (rs, none) →
      (itemResults files as s w).length = as.length ∧
      rs = (itemResults files as s w).foldl onResult [] ∧
      rs.length =
        ((itemResults files as s w).map (fun r => r.vulns.length)).sum + as.length) := by
  refine ⟨?_, ?_, ?_⟩
  · intro resources result
    constructor
    · rfl
    · simp only [onResult, List.length_append, List.length_cons, List.length_nil]
      omega
  · intro files s a w result h
    obtain ⟨hr, _, ho⟩ := vulnStage_scanner s a w
    have hsc := vulnStage_scanners s a w
    have hvs1 : AnyEnabled s.opts.Scanners [ScannerKind.Vulnerability, ScannerKind.Secret] = true →
        vulnStage s a w = scanVulns s a w := by
      intro hen
      unfold vulnStage
      rw [if_pos hen]
    have hvs2 : AnyEnabled s.opts.Scanners [ScannerKind.Vulnerability, ScannerKind.Secret] = false →
        (vulnStage s a w).1.1 = [] := by
      intro hen
      unfold vulnStage
      rw [hen]
      rfl
    rw [onItem_eq] at h
    rcases hrun : vulnStage s a w with ⟨⟨vs, _ | err⟩, s1, w1⟩
    · rw [hrun] at h hsc hr ho hvs1 hvs2
      simp only at h hsc hr ho hvs2
      unfold onItemMisconfig at h
      rw [hsc] at h
      by_cases hen : ShouldScanMisconfigOrRbac s.opts.Scanners = true
      · rw [if_pos hen] at h
        rcases hm : scanMisconfigs files s1 a w1 with ⟨⟨m, _ | e⟩, s2, w2⟩
        · rw [hm] at h
          simp only at h
          cases h
          have hm1 : (scanMisconfigs files s1 a w1).1 = (m, none) := by rw [hm]
          obtain ⟨k1, k2, k3, k4⟩ := scanMisconfigs_ok files s1 a w1 m hm1
          have e1 : ∀ f : String, configScan files s1 a w1 f = configScan files s a w1 f := by
            intro f
            unfold configScan
            rw [hr, ho f]
          have e2 : ∀ f : String, configFilter files s1 a w1 f = configFilter files s a w1 f := by
            intro f
            unfold configFilter
            rw [e1 f, hr, ho f]
          rw [e1] at k2
          rw [e2] at k3 k4
          refine ⟨rfl, fun hv => ?_, fun hv => hvs2 hv,
            fun hd => absurd hen (by simp [hd]), fun _ => ⟨rfl, k1, k2, k3, k4⟩⟩
          rw [← hvs1 hv]
        · rw [hm] at h
          cases h
      · rw [if_neg hen] at h
        cases h
        refine ⟨rfl, fun hv => ?_, fun hv => hvs2 hv, fun _ => rfl, fun hd => absurd hd hen⟩
        rw [← hvs1 hv]
    · rw [hrun] at h
      cases h
  · intro files as s w rs h
    have hok : (runSequential files as [] s w).1.2 = none := by rw [h]
    obtain ⟨h1, h2⟩ := runSequential_ok files as [] s w hok
    have h3 : rs = (itemResults files as s w).foldl onResult [] := by
      rw [← h2, h]
    refine ⟨h1, h3, ?_⟩
    rw [h3, foldl_onResult_length, h1]
    simp

/-- C20 on the example pod and the example artifact.  Over the two artifacts, of which one
image cannot be pulled, the run yields 1 + 1 and 3 + 1 Resources.  With the
misconfiguration scan on, the result of the example artifact has its three vulnerability
Resources in the order of the images and the Resource of the filtered report of the file;
with the scan off, the last Resource is the zero Resource. -/
theorem onResult_contribution_witness :
    (runSequential exampleFiles [examplePod, exampleArtifact] []
        (exampleScanner ["broken:0"] false []) []).1.1.length = (1 + 3) + 2 ∧
    ((onItem exampleFiles (exampleScanner ["broken:0"] false []) exampleArtifact []).1.1.vulns =
        [CreateResource exampleArtifact "report of nginx:1.21, filtered" none,
         CreateResource exampleArtifact "" (some "cannot pull broken:0"),
         CreateResource exampleArtifact "report of redis:7, filtered" none] ∧
      (onItem exampleFiles (exampleScanner ["broken:0"] false []) exampleArtifact []).1.1.misconfig =
        CreateResource exampleArtifact "report of /tmp/web, filtered" none) ∧
    ((onItem exampleFiles
        { (exampleScanner [] false []) with
          opts := { exampleOptions with Scanners := [ScannerKind.Vulnerability] } }
        exampleArtifact []).1.1.vulns.length = 3 ∧
      (onItem exampleFiles
        { (exampleScanner [] false []) with
          opts := { exampleOptions with Scanners := [ScannerKind.Vulnerability] } }
        exampleArtifact []).1.1.misconfig = Resource.zero) := by
  refine ⟨?_, ?_, ?_⟩
  · have h := onResult_contribution.2.2 exampleFiles [examplePod, exampleArtifact]
      (exampleScanner ["broken:0"] false []) []
      (runSequential exampleFiles [examplePod, exampleArtifact] []
        (exampleScanner ["broken:0"] false []) []).1.1 (by decide)
    exact h.2.2.trans (by decide)
  · have h := onResult_contribution.2.1 exampleFiles (exampleScanner ["broken:0"] false [])
      exampleArtifact []
      (onItem exampleFiles (exampleScanner ["broken:0"] false []) exampleArtifact []).1.1
      (by decide)
    exact ⟨h.1.trans (by decide), (h.2.2.2.2 (by decide)).2.2.2.2.trans (by decide)⟩
  · have h := onResult_contribution.2.1 exampleFiles
      { (exampleScanner [] false []) with
        opts := { exampleOptions with Scanners := [ScannerKind.Vulnerability] } }
      exampleArtifact []
      (onItem exampleFiles
        { (exampleScanner [] false []) with
          opts := { exampleOptions with Scanners := [ScannerKind.Vulnerability] } }
        exampleArtifact []).1.1 (by decide)
    exact ⟨by decide, h.2.2.2.1 (by decide)⟩

end FrameLemmas

end scanner

/-! ## The encoder: order -/

namespace Strings

theorem lessEqChars_total : ∀ a b : List Char, lessEqChars a b = true ∨ lessEqChars b a = true := by
  intro a
  induction a with
  | nil => intro b; left; rfl
  | cons x xs ih =>
    intro b
    cases b with
    | nil => right; rfl
    | cons y ys =>
      simp only [lessEqChars]
      by_cases h1 : x.toNat < y.toNat
      · left; simp [h1]
      · by_cases h2 : y.toNat < x.toNat
        · right; simp [h2]
        · simpa [h1, h2] using ih ys

theorem lessEqChars_trans :
    ∀ a b d : List Char, lessEqChars a b = true → lessEqChars b d = true →
      lessEqChars a d = true := by
  intro a
  induction a with
  | nil => intro b d _ _; rfl
  | cons x xs ih =>
    intro b d hab hbd
    cases b with
    | nil => simp [lessEqChars] at hab
    | cons y ys =>
      cases d with
      | nil => simp [lessEqChars] at hbd
      | cons z zs =>
        simp only [lessEqChars] at hab hbd ⊢
        by_cases h1 : x.toNat < y.toNat
        · by_cases h2 : y.toNat < z.toNat
          · have : x.toNat < z.toNat := by omega
            simp [this]
          · by_cases h3 : z.toNat < y.toNat
            · simp [h2, h3] at hbd
            · have : x.toNat < z.toNat := by omega
              simp [this]
        · by_cases h4 : y.toNat < x.toNat
          · simp [h1, h4] at hab
          · simp only [h1, h4, if_false] at hab
            by_cases h2 : y.toNat < z.toNat
            · have : x.toNat < z.toNat := by omega
              simp [this]
            · by_cases h3 : z.toNat < y.toNat
              · simp [h2, h3] at hbd
              · simp only [h2, h3, if_false] at hbd
                have h5 : ¬ x.toNat < z.toNat := by omega
                have h6 : ¬ z.toNat < x.toNat := by omega
                simp only [h5, h6, if_false]
                exact ih ys zs hab hbd

/-- An insertion sort by a string key puts the list in the order of the keys. -/
theorem sorted_insertionSort_key {α : Type} (f : α → String) (l : List α) :
    List.Sorted (fun a b => lessEq (f a) (f b) = true)
      (l.insertionSort (fun a b => lessEq (f a) (f b) = true)) :=
  @List.sorted_insertionSort α (fun a b => lessEq (f a) (f b) = true) _
    ⟨fun a b => lessEqChars_total (f a).data (f b).data⟩
    ⟨fun a b d => lessEqChars_trans (f a).data (f b).data (f d).data⟩ l

theorem sorted_sortStrings (l : List String) :
    List.Sorted (fun a b => lessEq a b = true) (SortStrings l) :=
  sorted_insertionSort_key (fun a => a) l

theorem mem_sortStrings (l : List String) (x : String) : x ∈ SortStrings l ↔ x ∈ l :=
  List.mem_insertionSort _

theorem lessEqChars_antisymm :
    ∀ a b : List Char, lessEqChars a b = true → lessEqChars b a = true → a = b := by
  intro a
  induction a with
  | nil =>
    intro b _ h2
    cases b with
    | nil => rfl
    | cons y ys => simp [lessEqChars] at h2
  | cons x xs ih =>
    intro b h1 h2
    cases b with
    | nil => simp [lessEqChars] at h1
    | cons y ys =>
      simp only [lessEqChars] at h1 h2
      by_cases hxy : x.toNat < y.toNat
      · have hyx : ¬ y.toNat < x.toNat := by omega
        simp [hxy, hyx] at h2
      · by_cases hyx : y.toNat < x.toNat
        · simp [hxy, hyx] at h1
        · simp only [hxy, hyx, if_false] at h1 h2
          have hn : x.toNat = y.toNat := by omega
          have hc : x = y := by
            apply Char.ext
            cases x with
            | mk xv xh =>
              cases y with
              | mk yv yh =>
                simp only [Char.toNat] at hn
                exact UInt32.toNat.inj hn
          rw [hc, ih ys h1 h2]

theorem lessEq_antisymm (a b : String) (h1 : lessEq a b = true) (h2 : lessEq b a = true) :
    a = b :=
  String.ext (lessEqChars_antisymm a.data b.data h1 h2)

/-- Two lists of strings in order that hold the same strings are the same list. -/
theorem eq_of_sorted_strings (l1 l2 : List String) (hp : l1.Perm l2)
    (h1 : List.Sorted (fun a b => lessEq a b = true) l1)
    (h2 : List.Sorted (fun a b => lessEq a b = true) l2) : l1 = l2 :=
  @List.eq_of_perm_of_sorted String (fun a b => lessEq a b = true)
    ⟨fun a b => lessEq_antisymm a b⟩ l1 l2 hp h1 h2

/-- The order in which `SortStrings` is given its strings does not matter. -/
theorem sortStrings_perm (l1 l2 : List String) (hp : l1.Perm l2) :
    SortStrings l1 = SortStrings l2 :=
  eq_of_sorted_strings _ _
    (((List.perm_insertionSort _ l1).trans hp).trans (List.perm_insertionSort _ l2).symm)
    (sorted_sortStrings l1) (sorted_sortStrings l2)

/-- Lists with the same keys, position by position, are the same list when entries with the
same key are the same entry. -/
theorem eq_of_map_eq {α : Type} (f : α → String) :
    ∀ l1 l2 : List α, l1.map f = l2.map f →
      (∀ a ∈ l1, ∀ b ∈ l2, f a = f b → a = b) → l1 = l2 := by
  intro l1
  induction l1 with
  | nil =>
    intro l2 h _
    cases l2 with
    | nil => rfl
    | cons b bs => simp at h
  | cons a as ih =>
    intro l2 h hinj
    cases l2 with
    | nil => simp at h
    | cons b bs =>
      simp only [List.map_cons, List.cons.injEq] at h
      have hab : a = b := hinj a (List.mem_cons_self _ _) b (List.mem_cons_self _ _) h.1
      rw [hab, ih bs h.2 (fun x hx y hy => hinj x (List.mem_cons_of_mem _ hx) y
        (List.mem_cons_of_mem _ hy))]

/-- Two lists in the order of a string key that hold the same entries, no two with the same
key, are the same list. -/
theorem eq_of_sorted_key {α : Type} (f : α → String) (l1 l2 : List α) (hp : l1.Perm l2)
    (hn : (l1.map f).Nodup)
    (h1 : List.Sorted (fun a b => lessEq (f a) (f b) = true) l1)
    (h2 : List.Sorted (fun a b => lessEq (f a) (f b) = true) l2) : l1 = l2 := by
  have hk : l1.map f = l2.map f := by
    apply eq_of_sorted_strings _ _ (hp.map f)
    · exact List.pairwise_map.mpr h1
    · exact List.pairwise_map.mpr h2
  apply eq_of_map_eq f l1 l2 hk
  intro a ha b hb hab
  exact List.inj_on_of_nodup_map hn ha (hp.mem_iff.mpr hb) hab

/-- The order in which an insertion sort by a string key is given its entries does not
matter when no two entries have the same key. -/
theorem insertionSort_key_perm {α : Type} (f : α → String) (l1 l2 : List α) (hp : l1.Perm l2)
    (hn : (l1.map f).Nodup) :
    l1.insertionSort (fun a b => lessEq (f a) (f b) = true) =
      l2.insertionSort (fun a b => lessEq (f a) (f b) = true) := by
  apply eq_of_sorted_key f
  · exact ((List.perm_insertionSort _ l1).trans hp).trans (List.perm_insertionSort _ l2).symm
  · exact (((List.perm_insertionSort _ l1).map f).nodup_iff).mpr hn
  · exact sorted_insertionSort_key f l1
  · exact sorted_insertionSort_key f l2

end Strings

namespace core

theorem emitted_iff (st : MarshalState) (ref : String) :
    emitted st ref = true ↔ ref ∈ st.components.map (fun e => e.BOMRef) := by
  simp only [emitted, List.any_eq_true, beq_iff_eq, List.mem_map]

theorem emitted_false_iff (st : MarshalState) (ref : String) :
    emitted st ref = false ↔ ref ∉ st.components.map (fun e => e.BOMRef) := by
  rw [← emitted_iff]
  simp

/-- The dependency entries after a reference without an entry gets one. -/
theorem setDependencies_of_not_mem (deps : List cdx.Dependency) (ref : String)
    (refs : List String) (h : ref ∉ deps.map (fun d => d.Ref)) :
    setDependencies deps ref refs = deps ++ [{ Ref := ref, Dependencies := refs }] := by
  unfold setDependencies
  rw [if_neg]
  simp only [List.any_eq_true, beq_iff_eq, not_exists, not_and]
  intro d hd hr
  exact h (List.mem_map.mpr ⟨d, hd, hr⟩)

/-- The references of the dependency entries after `setDependencies`: the same references
when the reference had an entry, and the reference added otherwise. -/
theorem setDependencies_keys (deps : List cdx.Dependency) (ref : String)
    (refs : List String) :
    (setDependencies deps ref refs).map (fun d => d.Ref) =
      if ref ∈ deps.map (fun d => d.Ref) then deps.map (fun d => d.Ref)
      else deps.map (fun d => d.Ref) ++ [ref] := by
  by_cases h : ref ∈ deps.map (fun d => d.Ref)
  · rw [if_pos h]
    unfold setDependencies
    rw [if_pos]
    · rw [List.map_map]
      apply List.map_congr_left
      intro d _
      simp only [Function.comp]
      split
      · rename_i hd
        have hd1 : d.Ref = ref := by simpa using hd
        exact hd1.symm
      · rfl
    · obtain ⟨d, hd, hr⟩ := List.mem_map.mp h
      simp only [List.any_eq_true, beq_iff_eq]
      exact ⟨d, hd, hr⟩
  · rw [if_neg h, setDependencies_of_not_mem deps ref refs h]
    simp

/-- The entry that `setDependencies` records is among the entries. -/
theorem mem_setDependencies_self (deps : List cdx.Dependency) (ref : String)
    (refs : List String) :
    ({ Ref := ref, Dependencies := refs } : cdx.Dependency) ∈ setDependencies deps ref refs := by
  unfold setDependencies
  split
  · rename_i h
    simp only [List.any_eq_true, beq_iff_eq] at h
    obtain ⟨d, hd, hr⟩ := h
    exact List.mem_map.mpr ⟨d, hd, by simp [hr]⟩
  · simp

/-- An entry after `setDependencies` is an entry from before or the entry recorded. -/
theorem mem_setDependencies (deps : List cdx.Dependency) (ref : String)
    (refs : List String) (d : cdx.Dependency) (h : d ∈ setDependencies deps ref refs) :
    d ∈ deps ∨ d = { Ref := ref, Dependencies := refs } := by
  unfold setDependencies at h
  split at h
  · obtain ⟨d0, hd0, hd⟩ := List.mem_map.mp h
    split at hd
    · right; exact hd.symm
    · left; rw [← hd]; exact hd0
  · rcases List.mem_append.mp h with h1 | h1
    · left; exact h1
    · right; simpa using h1

/-- The visit of a component whose reference has an emitted component. -/
theorem MarshalComponent_reused (c : CycloneDX) (comp : Component) (st : MarshalState)
    (h : emitted st (BOMRef c comp st.next).1 = true) :
    MarshalComponent c comp st =
      ((BOMRef c comp st.next).1, { st with next := (BOMRef c comp st.next).2 }) := by
  cases comp
  simp only [MarshalComponent, h, if_true]

/-- The visit of a component whose reference has no emitted component. -/
theorem MarshalComponent_new (c : CycloneDX) (comp : Component) (st : MarshalState)
    (h : emitted st (BOMRef c comp st.next).1 = false) :
    MarshalComponent c comp st =
      ((BOMRef c comp st.next).1,
        { (MarshalComponents c comp.Components
            (enter c comp st (BOMRef c comp st.next))).2 with
          dependencies := setDependencies
            (MarshalComponents c comp.Components
              (enter c comp st (BOMRef c comp st.next))).2.dependencies
            (BOMRef c comp st.next).1
            (Strings.SortStrings
              (MarshalComponents c comp.Components
                (enter c comp st (BOMRef c comp st.next))).1) }) := by
  cases comp
  simp only [MarshalComponent, h, Component.Components]
  rfl

theorem visitsOf_reused (c : CycloneDX) (parent : String) (comp : Component)
    (st : MarshalState) (h : emitted st (BOMRef c comp st.next).1 = true) :
    visitsOf c parent comp st =
      [{ parent := parent, component := comp, ref := (BOMRef c comp st.next).1,
         emitted := false }] := by
  cases comp
  simp only [visitsOf, h, if_true]

theorem visitsOf_new (c : CycloneDX) (parent : String) (comp : Component)
    (st : MarshalState) (h : emitted st (BOMRef c comp st.next).1 = false) :
    visitsOf c parent comp st =
      { parent := parent, component := comp, ref := (BOMRef c comp st.next).1,
        emitted := true } ::
        visitsOfList c (BOMRef c comp st.next).1 comp.Components
          (enter c comp st (BOMRef c comp st.next)) := by
  cases comp
  simp only [visitsOf, h, Component.Components]
  rfl

mutual

/-- The components after the visit of a component: those from before, and then the rendered
form of every step of the visit that emits, in order. -/
theorem components_MarshalComponent (c : CycloneDX) :
    ∀ (comp : Component) (parent : String) (st : MarshalState),
      (MarshalComponent c comp st).2.components =
        st.components ++ ((visitsOf c parent comp st).filter (fun v => v.emitted)).map
          (fun v => render c v.component v.ref)
  | .mk t n v p ps children, parent, st => by
    by_cases h : emitted st (BOMRef c (.mk t n v p ps children) st.next).1 = true
    · rw [MarshalComponent_reused c _ st h, visitsOf_reused c parent _ st h]
      simp
    · have h1 := Bool.eq_false_iff.mpr h
      rw [MarshalComponent_new c _ st h1, visitsOf_new c parent _ st h1]
      have ih := components_MarshalComponents c children
        (BOMRef c (.mk t n v p ps children) st.next).1
        (enter c (.mk t n v p ps children) st (BOMRef c (.mk t n v p ps children) st.next))
      simp only [Component.Components, List.filter_cons, if_true, List.map_cons]
      rw [ih]
      simp [enter]

/-- The components after the visit of a list of children. -/
theorem components_MarshalComponents (c : CycloneDX) :
    ∀ (l : List Component) (parent : String) (st : MarshalState),
      (MarshalComponents c l st).2.components =
        st.components ++ ((visitsOfList c parent l st).filter (fun v => v.emitted)).map
          (fun v => render c v.component v.ref)
  | [], parent, st => by simp [MarshalComponents, visitsOfList]
  | child :: rest, parent, st => by
    have h1 := components_MarshalComponent c child parent st
    have h2 := components_MarshalComponents c rest parent (MarshalComponent c child st).2
    simp only [MarshalComponents, visitsOfList, List.filter_append, List.map_append]
    rw [h2, h1, List.append_assoc]

end

mutual

/-- The generator in the visit of a component: the steps on components without an identity
take its values one after the other, from the number of the next call on, and the other
steps take none. -/
theorem next_MarshalComponent (c : CycloneDX) :
    ∀ (comp : Component) (parent : String) (st : MarshalState),
      ((visitsOf c parent comp st).filter (fun v => v.component.PackageURL.isNone)).map
          (fun v => v.ref) =
        (List.range' st.next ((MarshalComponent c comp st).2.next - st.next)).map c.newUUID ∧
      st.next ≤ (MarshalComponent c comp st).2.next
  | .mk t n v p ps children, parent, st => by
    have ih := next_MarshalComponents c children
      (BOMRef c (.mk t n v p ps children) st.next).1
      (enter c (.mk t n v p ps children) st (BOMRef c (.mk t n v p ps children) st.next))
    by_cases h : emitted st (BOMRef c (.mk t n v p ps children) st.next).1 = true
    · rw [MarshalComponent_reused c _ st h, visitsOf_reused c parent _ st h]
      cases p with
      | none => simp [BOMRef, Component.PackageURL, List.range']
      | some q => simp [BOMRef, Component.PackageURL]
    · have h1 := Bool.eq_false_iff.mpr h
      rw [MarshalComponent_new c _ st h1, visitsOf_new c parent _ st h1]
      simp only [Component.Components] at ih ⊢
      obtain ⟨ih1, ih2⟩ := ih
      cases p with
      | none =>
        simp only [BOMRef, Component.PackageURL, enter] at ih1 ih2 ⊢
        simp only [List.filter_cons, Option.isNone_none, if_true, List.map_cons]
        rw [ih1]
        refine ⟨?_, by omega⟩
        have h3 : (MarshalComponents c children
            { next := st.next + 1,
              components := st.components ++
                [render c (Component.mk t n v none ps children) (c.newUUID st.next)],
              dependencies := st.dependencies }).2.next - st.next =
            ((MarshalComponents c children
            { next := st.next + 1,
              components := st.components ++
                [render c (Component.mk t n v none ps children) (c.newUUID st.next)],
              dependencies := st.dependencies }).2.next - (st.next + 1)) + 1 := by omega
        rw [h3, List.range'_succ]
        simp
      | some q =>
        simp only [BOMRef, Component.PackageURL, enter] at ih1 ih2 ⊢
        simp only [List.filter_cons, Option.isNone_some, Bool.false_eq_true, if_false]
        exact ⟨ih1, ih2⟩

/-- The generator in the visit of a list of children. -/
theorem next_MarshalComponents (c : CycloneDX) :
    ∀ (l : List Component) (parent : String) (st : MarshalState),
      ((visitsOfList c parent l st).filter (fun v => v.component.PackageURL.isNone)).map
          (fun v => v.ref) =
        (List.range' st.next ((MarshalComponents c l st).2.next - st.next)).map c.newUUID ∧
      st.next ≤ (MarshalComponents c l st).2.next
  | [], parent, st => by simp [MarshalComponents, visitsOfList]
  | child :: rest, parent, st => by
    obtain ⟨h1, h2⟩ := next_MarshalComponent c child parent st
    obtain ⟨h3, h4⟩ := next_MarshalComponents c rest parent (MarshalComponent c child st).2
    simp only [MarshalComponents, visitsOfList, List.filter_append, List.map_append]
    refine ⟨?_, by omega⟩
    rw [h1, h3, ← List.map_append]
    congr 1
    have h5 : (MarshalComponents c rest (MarshalComponent c child st).2).2.next - st.next =
        ((MarshalComponents c rest (MarshalComponent c child st).2).2.next -
            (MarshalComponent c child st).2.next) +
          ((MarshalComponent c child st).2.next - st.next) := by omega
    have h6 : st.next + ((MarshalComponent c child st).2.next - st.next) =
        (MarshalComponent c child st).2.next := by omega
    rw [h5, ← List.range'_append_1, h6]

end

theorem Extends.refl (st : MarshalState) : Extends st st :=
  ⟨[], [], by simp, by simp, by simp⟩

theorem Extends.trans {st st1 st2 : MarshalState} (h1 : Extends st st1) (h2 : Extends st1 st2) :
    Extends st st2 := by
  obtain ⟨c1, d1, hc1, hd1, hk1⟩ := h1
  obtain ⟨c2, d2, hc2, hd2, hk2⟩ := h2
  refine ⟨c1 ++ c2, d1 ++ d2, by rw [hc2, hc1, List.append_assoc],
    by rw [hd2, hd1, List.append_assoc], ?_⟩
  intro r
  simp only [List.map_append, List.mem_append, hk1 r, hk2 r]

theorem Extends.mem_dependencies {st st1 : MarshalState} (h : Extends st st1)
    (d : cdx.Dependency) (hd : d ∈ st.dependencies) : d ∈ st1.dependencies := by
  obtain ⟨_, newD, _, h2, _⟩ := h
  rw [h2]
  exact List.mem_append_left _ hd

/-- The visit of a component that is emitted, on a state in order: the state after the
visit of the children is in order, the reference has no dependency entry yet, and the
visit adds the entry at the end. -/
theorem Inv_enter (c : CycloneDX) (comp : Component) (st : MarshalState) (hinv : Inv st)
    (h : emitted st (BOMRef c comp st.next).1 = false) :
    Inv (enter c comp st (BOMRef c comp st.next)) := by
  obtain ⟨h1, h2, h3⟩ := hinv
  have hn := (emitted_false_iff st _).mp h
  refine ⟨?_, h2, ?_⟩
  · simp only [enter, List.map_append, List.map_cons, List.map_nil, render]
    rw [List.nodup_append]
    refine ⟨h1, by simp, ?_⟩
    intro a ha hb
    simp only [List.mem_singleton] at hb
    subst hb
    exact hn ha
  · intro d hd
    simp only [enter, List.map_append, List.mem_append]
    left
    exact h3 d hd

mutual

/-- The visit of a component keeps the state in order and continues it, and the reference
that it returns is the reference of an emitted component. -/
theorem Inv_MarshalComponent (c : CycloneDX) :
    ∀ (comp : Component) (st : MarshalState), Inv st →
      Inv (MarshalComponent c comp st).2 ∧ Extends st (MarshalComponent c comp st).2 ∧
      (MarshalComponent c comp st).1 ∈
        (MarshalComponent c comp st).2.components.map (fun e => e.BOMRef)
  | .mk t n v p ps children, st, hinv => by
    by_cases h : emitted st (BOMRef c (.mk t n v p ps children) st.next).1 = true
    · rw [MarshalComponent_reused c _ st h]
      exact ⟨hinv, Extends.refl st, (emitted_iff st _).mp h⟩
    · have h1 := Bool.eq_false_iff.mpr h
      have hn := (emitted_false_iff st _).mp h1
      have hinv1 := Inv_enter c _ st hinv h1
      obtain ⟨⟨i1, i2, i3⟩, ⟨newC, newD, e1, e2, e3⟩, _⟩ := Inv_MarshalComponents c children
        (enter c (.mk t n v p ps children) st (BOMRef c (.mk t n v p ps children) st.next)) hinv1
      rw [MarshalComponent_new c _ st h1]
      simp only [Component.Components]
      have hrefs : (MarshalComponents c children (enter c (.mk t n v p ps children) st
          (BOMRef c (.mk t n v p ps children) st.next))).2.components.map (fun e => e.BOMRef) =
          st.components.map (fun e => e.BOMRef) ++
            ((BOMRef c (.mk t n v p ps children) st.next).1 ::
              newC.map (fun e => e.BOMRef)) := by
        rw [e1]
        simp [enter, render]
      have hkey : (BOMRef c (.mk t n v p ps children) st.next).1 ∉
          (MarshalComponents c children (enter c (.mk t n v p ps children) st
            (BOMRef c (.mk t n v p ps children) st.next))).2.dependencies.map
              (fun d => d.Ref) := by
        rw [e2]
        simp only [enter, List.map_append, List.mem_append, not_or]
        constructor
        · intro hk
          obtain ⟨d, hd, hr⟩ := List.mem_map.mp hk
          exact hn (hr ▸ hinv.2.2 d hd)
        · intro hk
          have hk2 := (e3 _).mp hk
          rw [hrefs] at i1
          have := (List.nodup_append.mp i1).2.1
          exact (List.nodup_cons.mp this).1 hk2
      rw [setDependencies_of_not_mem _ _ _ hkey]
      refine ⟨⟨i1, ?_, ?_⟩,
        ⟨render c (.mk t n v p ps children) (BOMRef c (.mk t n v p ps children) st.next).1 ::
            newC,
          newD ++ [{ Ref := (BOMRef c (.mk t n v p ps children) st.next).1,
                     Dependencies := Strings.SortStrings
                       (MarshalComponents c children (enter c (.mk t n v p ps children) st
                         (BOMRef c (.mk t n v p ps children) st.next))).1 }],
          ?_, ?_, ?_⟩, ?_⟩
      · simp only [List.map_append, List.map_cons, List.map_nil]
        rw [List.nodup_append]
        refine ⟨i2, by simp, ?_⟩
        intro a ha hb
        simp only [List.mem_singleton] at hb
        subst hb
        exact hkey ha
      · intro d hd
        rcases List.mem_append.mp hd with hd1 | hd1
        · exact i3 d hd1
        · simp only [List.mem_singleton] at hd1
          subst hd1
          simp only
          rw [hrefs]
          simp
      · simp only
        rw [e1]
        simp [enter]
      · simp only
        rw [e2]
        simp [enter]
      · intro r
        simp only [List.map_append, List.map_cons, List.map_nil, List.mem_append,
          List.mem_singleton, List.mem_cons, e3 r, render]
        tauto
      · rw [hrefs]
        simp

/-- The visit of a list of children keeps the state in order and continues it, and the
references that it returns are references of emitted components. -/
theorem Inv_MarshalComponents (c : CycloneDX) :
    ∀ (l : List Component) (st : MarshalState), Inv st →
      Inv (MarshalComponents c l st).2 ∧ Extends st (MarshalComponents c l st).2 ∧
      ∀ r ∈ (MarshalComponents c l st).1,
        r ∈ (MarshalComponents c l st).2.components.map (fun e => e.BOMRef)
  | [], st, hinv => by
    simp only [MarshalComponents]
    exact ⟨hinv, Extends.refl st, by simp⟩
  | child :: rest, st, hinv => by
    obtain ⟨h1, h2, h3⟩ := Inv_MarshalComponent c child st hinv
    obtain ⟨h4, h5, h6⟩ := Inv_MarshalComponents c rest (MarshalComponent c child st).2 h1
    simp only [MarshalComponents]
    refine ⟨h4, h2.trans h5, ?_⟩
    intro r hr
    rcases List.mem_cons.mp hr with rfl | hr1
    · obtain ⟨newC, _, e1, _, _⟩ := h5
      rw [e1, List.map_append]
      exact List.mem_append_left _ h3
    · exact h6 r hr1

end

/-- The dependency entries after the visit of a component that is emitted, on a state in
order: the entries after the visit of the children, and then the entry of the component. -/
theorem dependencies_MarshalComponent_new (c : CycloneDX) (comp : Component)
    (st : MarshalState) (hinv : Inv st) (h : emitted st (BOMRef c comp st.next).1 = false) :
    (MarshalComponent c comp st).2.dependencies =
      (MarshalComponents c comp.Components
        (enter c comp st (BOMRef c comp st.next))).2.dependencies ++
        [{ Ref := (BOMRef c comp st.next).1,
           Dependencies := Strings.SortStrings
             (MarshalComponents c comp.Components
               (enter c comp st (BOMRef c comp st.next))).1 }] := by
  have hn := (emitted_false_iff st _).mp h
  have hinv1 := Inv_enter c comp st hinv h
  obtain ⟨⟨i1, _, _⟩, ⟨newC, newD, e1, e2, e3⟩, _⟩ := Inv_MarshalComponents c comp.Components
    (enter c comp st (BOMRef c comp st.next)) hinv1
  rw [MarshalComponent_new c comp st h]
  simp only
  apply setDependencies_of_not_mem
  rw [e2]
  simp only [enter, List.map_append, List.mem_append, not_or]
  constructor
  · intro hk
    obtain ⟨d, hd, hr⟩ := List.mem_map.mp hk
    exact hn (hr ▸ hinv.2.2 d hd)
  · intro hk
    have hk2 := (e3 _).mp hk
    rw [e1] at i1
    simp only [enter, render, List.map_append, List.map_cons, List.map_nil,
      List.append_assoc, List.singleton_append] at i1
    have := (List.nodup_append.mp i1).2.1
    exact (List.nodup_cons.mp this).1 hk2

mutual

/-- The edges of the visit of a component, on a state in order.  A step of the visit is the
visit of the component itself, or its reference is in the dependency entry of its parent;
and a step that emits has a dependency entry, which is empty when the component has no
children. -/
theorem edges_MarshalComponent (c : CycloneDX) :
    ∀ (comp : Component) (parent : String) (st : MarshalState), Inv st →
      ∀ v ∈ visitsOf c parent comp st,
        ((v.parent = parent ∧ v.ref = (MarshalComponent c comp st).1) ∨
          ∃ d ∈ (MarshalComponent c comp st).2.dependencies,
            d.Ref = v.parent ∧ v.ref ∈ d.Dependencies) ∧
        (v.emitted = true → ∃ d ∈ (MarshalComponent c comp st).2.dependencies,
          d.Ref = v.ref ∧ (v.component.Components = [] → d.Dependencies = []))
  | .mk t n w p ps children, parent, st, hinv => by
    intro v hv
    by_cases h : emitted st (BOMRef c (.mk t n w p ps children) st.next).1 = true
    · rw [visitsOf_reused c parent _ st h] at hv
      rw [MarshalComponent_reused c _ st h]
      simp only [List.mem_singleton] at hv
      subst hv
      exact ⟨Or.inl ⟨rfl, rfl⟩, fun he => by cases he⟩
    · have h1 := Bool.eq_false_iff.mpr h
      have hinv1 := Inv_enter c _ st hinv h1
      have ih := edges_MarshalComponents c children
        (BOMRef c (.mk t n w p ps children) st.next).1
        (enter c (.mk t n w p ps children) st (BOMRef c (.mk t n w p ps children) st.next))
        hinv1
      have hd := dependencies_MarshalComponent_new c _ st hinv h1
      have hfst : (MarshalComponent c (.mk t n w p ps children) st).1 =
          (BOMRef c (.mk t n w p ps children) st.next).1 := by
        rw [MarshalComponent_new c _ st h1]
      rw [visitsOf_new c parent _ st h1] at hv
      rw [hd, hfst]
      simp only [Component.Components] at hv ⊢
      rcases List.mem_cons.mp hv with rfl | hv1
      · refine ⟨Or.inl ⟨rfl, rfl⟩, fun _ => ⟨_, List.mem_append_right _ (List.mem_singleton_self _),
          rfl, ?_⟩⟩
        intro hc
        simp only [Component.Components] at hc
        subst hc
        rfl
      · obtain ⟨ih1, ih2⟩ := ih v hv1
        constructor
        · right
          rcases ih1 with ⟨hp, hr⟩ | ⟨d, hd1, hd2, hd3⟩
          · exact ⟨_, List.mem_append_right _ (List.mem_singleton_self _), hp.symm,
              (Strings.mem_sortStrings _ _).mpr hr⟩
          · exact ⟨d, List.mem_append_left _ hd1, hd2, hd3⟩
        · intro he
          obtain ⟨d, hd1, hd2⟩ := ih2 he
          exact ⟨d, List.mem_append_left _ hd1, hd2⟩

/-- The edges of the visit of a list of children, on a state in order. -/
theorem edges_MarshalComponents (c : CycloneDX) :
    ∀ (l : List Component) (parent : String) (st : MarshalState), Inv st →
      ∀ v ∈ visitsOfList c parent l st,
        ((v.parent = parent ∧ v.ref ∈ (MarshalComponents c l st).1) ∨
          ∃ d ∈ (MarshalComponents c l st).2.dependencies,
            d.Ref = v.parent ∧ v.ref ∈ d.Dependencies) ∧
        (v.emitted = true → ∃ d ∈ (MarshalComponents c l st).2.dependencies,
          d.Ref = v.ref ∧ (v.component.Components = [] → d.Dependencies = []))
  | [], parent, st, _ => by
    intro v hv
    simp [visitsOfList] at hv
  | child :: rest, parent, st, hinv => by
    intro v hv
    obtain ⟨i1, _, _⟩ := Inv_MarshalComponent c child st hinv
    obtain ⟨_, i5, _⟩ := Inv_MarshalComponents c rest (MarshalComponent c child st).2 i1
    simp only [visitsOfList, List.mem_append] at hv
    simp only [MarshalComponents]
    rcases hv with hv1 | hv1
    · obtain ⟨ih1, ih2⟩ := edges_MarshalComponent c child parent st hinv v hv1
      constructor
      · rcases ih1 with ⟨hp, hr⟩ | ⟨d, hd1, hd2, hd3⟩
        · left
          exact ⟨hp, by rw [hr]; exact List.mem_cons_self _ _⟩
        · right
          exact ⟨d, i5.mem_dependencies d hd1, hd2, hd3⟩
      · intro he
        obtain ⟨d, hd1, hd2⟩ := ih2 he
        exact ⟨d, i5.mem_dependencies d hd1, hd2⟩
    · obtain ⟨ih1, ih2⟩ := edges_MarshalComponents c rest parent (MarshalComponent c child st).2
        i1 v hv1
      constructor
      · rcases ih1 with ⟨hp, hr⟩ | h2
        · left
          exact ⟨hp, List.mem_cons_of_mem _ hr⟩
        · right
          exact h2
      · exact ih2

end

mutual

/-- The dependency lists stay sorted in the visit of a component. -/
theorem sorted_MarshalComponent (c : CycloneDX) :
    ∀ (comp : Component) (st : MarshalState),
      (∀ d ∈ st.dependencies,
        List.Sorted (fun a b => Strings.lessEq a b = true) d.Dependencies) →
      ∀ d ∈ (MarshalComponent c comp st).2.dependencies,
        List.Sorted (fun a b => Strings.lessEq a b = true) d.Dependencies
  | .mk t n w p ps children, st, hs => by
    by_cases h : emitted st (BOMRef c (.mk t n w p ps children) st.next).1 = true
    · rw [MarshalComponent_reused c _ st h]
      exact hs
    · have h1 := Bool.eq_false_iff.mpr h
      have ih := sorted_MarshalComponents c children
        (enter c (.mk t n w p ps children) st (BOMRef c (.mk t n w p ps children) st.next)) hs
      rw [MarshalComponent_new c _ st h1]
      intro d hd
      simp only [Component.Components] at hd
      rcases mem_setDependencies _ _ _ d hd with hd1 | hd1
      · exact ih d hd1
      · rw [hd1]
        exact Strings.sorted_sortStrings _

/-- The dependency lists stay sorted in the visit of a list of children. -/
theorem sorted_MarshalComponents (c : CycloneDX) :
    ∀ (l : List Component) (st : MarshalState),
      (∀ d ∈ st.dependencies,
        List.Sorted (fun a b => Strings.lessEq a b = true) d.Dependencies) →
      ∀ d ∈ (MarshalComponents c l st).2.dependencies,
        List.Sorted (fun a b => Strings.lessEq a b = true) d.Dependencies
  | [], st, hs => by simpa [MarshalComponents] using hs
  | child :: rest, st, hs => by
    have h1 := sorted_MarshalComponent c child st hs
    have h2 := sorted_MarshalComponents c rest (MarshalComponent c child st).2 h1
    simpa [MarshalComponents] using h2

end

mutual

/-- Where the references of the visit of a component come from: a step takes an identity
string of the component or of a component below it, or the value of a call of the generator
that the visit makes. -/
theorem refs_MarshalComponent (c : CycloneDX) :
    ∀ (comp : Component) (parent : String) (st : MarshalState),
      ∀ v ∈ visitsOf c parent comp st,
        v.ref ∈ identities c comp ∨
        ∃ k : Nat, st.next ≤ k ∧ k < (MarshalComponent c comp st).2.next ∧ v.ref = c.newUUID k
  | .mk t n w p ps children, parent, st => by
    intro v hv
    have ih := refs_MarshalComponents c children
      (BOMRef c (.mk t n w p ps children) st.next).1
      (enter c (.mk t n w p ps children) st (BOMRef c (.mk t n w p ps children) st.next))
    have hmono := (next_MarshalComponents c children
      (BOMRef c (.mk t n w p ps children) st.next).1
      (enter c (.mk t n w p ps children) st (BOMRef c (.mk t n w p ps children) st.next))).2
    simp only [enter] at hmono
    by_cases h : emitted st (BOMRef c (.mk t n w p ps children) st.next).1 = true
    · rw [visitsOf_reused c parent _ st h] at hv
      rw [MarshalComponent_reused c _ st h]
      simp only [List.mem_singleton] at hv
      subst hv
      cases p with
      | none => right; exact ⟨st.next, Nat.le_refl _, by simp [BOMRef, Component.PackageURL], rfl⟩
      | some q => left; simp [BOMRef, identities, Component.PackageURL]
    · have h1 := Bool.eq_false_iff.mpr h
      rw [visitsOf_new c parent _ st h1] at hv
      rw [MarshalComponent_new c _ st h1]
      simp only [Component.Components] at hv ⊢
      rcases List.mem_cons.mp hv with rfl | hv1
      · cases p with
        | none =>
          right
          simp only [BOMRef, Component.PackageURL] at hmono ⊢
          exact ⟨st.next, Nat.le_refl _, by simp only [enter]; omega, rfl⟩
        | some q => left; simp [BOMRef, identities, Component.PackageURL]
      · rcases ih v hv1 with hi | ⟨k, hk1, hk2, hk3⟩
        · left
          simp only [identities, List.mem_append]
          right
          exact hi
        · right
          simp only [enter] at hk1 hk2
          refine ⟨k, ?_, by simp only [enter]; exact hk2, hk3⟩
          cases p with
          | none => simp only [BOMRef, Component.PackageURL] at hk1; omega
          | some q => simp only [BOMRef, Component.PackageURL] at hk1; omega

/-- Where the references of the visit of a list of children come from. -/
theorem refs_MarshalComponents (c : CycloneDX) :
    ∀ (l : List Component) (parent : String) (st : MarshalState),
      ∀ v ∈ visitsOfList c parent l st,
        v.ref ∈ identitiesOfList c l ∨
        ∃ k : Nat, st.next ≤ k ∧ k < (MarshalComponents c l st).2.next ∧ v.ref = c.newUUID k
  | [], parent, st => by
    intro v hv
    simp [visitsOfList] at hv
  | child :: rest, parent, st => by
    intro v hv
    simp only [visitsOfList, List.mem_append] at hv
    simp only [identitiesOfList, List.mem_append, MarshalComponents]
    have hm1 := (next_MarshalComponent c child parent st).2
    have hm2 := (next_MarshalComponents c rest parent (MarshalComponent c child st).2).2
    rcases hv with hv1 | hv1
    · rcases refs_MarshalComponent c child parent st v hv1 with hi | ⟨k, hk1, hk2, hk3⟩
      · left; left; exact hi
      · right; exact ⟨k, hk1, by omega, hk3⟩
    · rcases refs_MarshalComponents c rest parent (MarshalComponent c child st).2 v hv1 with
        hi | ⟨k, hk1, hk2, hk3⟩
      · left; right; exact hi
      · right
        exact ⟨k, by omega, hk2, hk3⟩

end

mutual

/-- The reference of a step of the visit of a component that reaches a component with an
identity is the identity string, and the reference of every step is the reference of a
component emitted by the end of the visit. -/
theorem ref_MarshalComponent (c : CycloneDX) :
    ∀ (comp : Component) (parent : String) (st : MarshalState),
      ∀ v ∈ visitsOf c parent comp st,
        (∀ q : PackageURL, v.component.PackageURL = some q → v.ref = c.purl q) ∧
        v.ref ∈ (MarshalComponent c comp st).2.components.map (fun e => e.BOMRef)
  | .mk t n w p ps children, parent, st => by
    intro v hv
    have hc := components_MarshalComponent c (.mk t n w p ps children) parent st
    by_cases h : emitted st (BOMRef c (.mk t n w p ps children) st.next).1 = true
    · rw [visitsOf_reused c parent _ st h] at hv
      simp only [List.mem_singleton] at hv
      subst hv
      constructor
      · intro q hq
        simp only at hq
        simp [BOMRef, hq]
      · rw [hc, List.map_append]
        exact List.mem_append_left _ ((emitted_iff st _).mp h)
    · have h1 := Bool.eq_false_iff.mpr h
      have ih := ref_MarshalComponents c children
        (BOMRef c (.mk t n w p ps children) st.next).1
        (enter c (.mk t n w p ps children) st (BOMRef c (.mk t n w p ps children) st.next))
      have hvis := visitsOf_new c parent (.mk t n w p ps children) st h1
      rw [hvis] at hv
      simp only [Component.Components] at hv
      rcases List.mem_cons.mp hv with rfl | hv1
      · constructor
        · intro q hq
          simp only at hq
          simp [BOMRef, hq]
        · rw [hc, hvis, List.map_append]
          apply List.mem_append_right
          simp [render]
      · obtain ⟨ih1, ih2⟩ := ih v hv1
        refine ⟨ih1, ?_⟩
        rw [MarshalComponent_new c _ st h1]
        simpa only [Component.Components] using ih2

/-- The same for the visit of a list of children. -/
theorem ref_MarshalComponents (c : CycloneDX) :
    ∀ (l : List Component) (parent : String) (st : MarshalState),
      ∀ v ∈ visitsOfList c parent l st,
        (∀ q : PackageURL, v.component.PackageURL = some q → v.ref = c.purl q) ∧
        v.ref ∈ (MarshalComponents c l st).2.components.map (fun e => e.BOMRef)
  | [], parent, st => by
    intro v hv
    simp [visitsOfList] at hv
  | child :: rest, parent, st => by
    intro v hv
    simp only [visitsOfList, List.mem_append] at hv
    simp only [MarshalComponents]
    rcases hv with hv1 | hv1
    · obtain ⟨h1, h2⟩ := ref_MarshalComponent c child parent st v hv1
      refine ⟨h1, ?_⟩
      rw [components_MarshalComponents c rest parent (MarshalComponent c child st).2,
        List.map_append]
      exact List.mem_append_left _ h2
    · exact ref_MarshalComponents c rest parent (MarshalComponent c child st).2 v hv1

end

theorem Inv_init (n : Nat) : Inv { next := n, components := [], dependencies := [] } :=
  ⟨List.nodup_nil, List.nodup_nil, fun _ h => by cases h⟩

/-- The flat list of `Marshal` holds the rendered forms of the steps that emit. -/
theorem mem_Marshal_components (c : CycloneDX) (root : Component) (e : cdx.Component) :
    e ∈ (Marshal c root).Components ↔
      ∃ v ∈ visits c root, v.emitted = true ∧ e = render c v.component v.ref := by
  have h := components_MarshalComponents c root.Components ((BOMRef c root 1).1)
    { next := (BOMRef c root 1).2, components := [], dependencies := [] }
  simp only [List.nil_append] at h
  simp only [Marshal, List.mem_insertionSort, h, visits, List.mem_map, List.mem_filter]
  constructor
  · rintro ⟨v, ⟨hv, he⟩, rfl⟩
    exact ⟨v, hv, he, rfl⟩
  · rintro ⟨v, hv, he, rfl⟩
    exact ⟨v, ⟨hv, he⟩, rfl⟩

/-- Before the root is recorded, the dependency entries are the entries of the emitted
components. -/
theorem keys_MarshalComponents_init (c : CycloneDX) (l : List Component) (n : Nat)
    (r : String) :
    r ∈ (MarshalComponents c l { next := n, components := [], dependencies := [] }).2.dependencies.map
        (fun d => d.Ref) ↔
      r ∈ (MarshalComponents c l { next := n, components := [], dependencies := [] }).2.components.map
        (fun e => e.BOMRef) := by
  obtain ⟨_, ⟨newC, newD, e1, e2, e3⟩, _⟩ := Inv_MarshalComponents c l _ (Inv_init n)
  simp only [List.nil_append] at e1 e2
  rw [e1, e2]
  exact e3 r

/-- Under the contract of the generator the reference of the root has no dependency entry
before the root is recorded. -/
theorem root_not_key (c : CycloneDX) (root : Component) (h : RootUnique c root) :
    (BOMRef c root 1).1 ∉ (MarshalComponents c root.Components
      { next := (BOMRef c root 1).2, components := [], dependencies := [] }).2.dependencies.map (fun d => d.Ref) := by
  intro hk
  rw [keys_MarshalComponents_init] at hk
  have hc := components_MarshalComponents c root.Components ((BOMRef c root 1).1)
    { next := (BOMRef c root 1).2, components := [], dependencies := [] }
  simp only [List.nil_append] at hc
  rw [hc] at hk
  simp only [List.map_map, List.mem_map, List.mem_filter, Function.comp, render] at hk
  obtain ⟨v, ⟨hv, _⟩, hr⟩ := hk
  rcases refs_MarshalComponents c root.Components ((BOMRef c root 1).1) _ v hv with hi | ⟨k, hk1, hk2, hk3⟩
  · rw [hr] at hi
    exact h.1 hi
  · rw [hr] at hk3
    exact h.2 k hk2 hk1 hk3.symm

/-- The dependency entries of `Marshal`. -/
theorem mem_Marshal_dependencies (c : CycloneDX) (root : Component) (d : cdx.Dependency) :
    d ∈ (Marshal c root).Dependencies ↔
      d ∈ setDependencies
        (MarshalComponents c root.Components
          { next := (BOMRef c root 1).2, components := [], dependencies := [] }).2.dependencies
        ((BOMRef c root 1).1)
        (Strings.SortStrings (MarshalComponents c root.Components
          { next := (BOMRef c root 1).2, components := [], dependencies := [] }).1) := by
  simp only [Marshal, List.mem_insertionSort]

/-- Every step of the traversal has its edge in the document: the dependency entry of the
parent holds the reference of the step. -/
theorem edge_of_visit (c : CycloneDX) (root : Component) (h : RootUnique c root)
    (v : Visit) (hv : v ∈ visits c root) :
    ∃ d ∈ (Marshal c root).Dependencies, d.Ref = v.parent ∧ v.ref ∈ d.Dependencies := by
  have hroot := root_not_key c root h
  rcases (edges_MarshalComponents c root.Components ((BOMRef c root 1).1) _ (Inv_init _) v hv).1 with
    ⟨hp, hr⟩ | ⟨d, hd1, hd2, hd3⟩
  · refine ⟨_, (mem_Marshal_dependencies c root _).mpr (mem_setDependencies_self _ _ _),
      hp.symm, (Strings.mem_sortStrings _ _).mpr hr⟩
  · refine ⟨d, (mem_Marshal_dependencies c root d).mpr ?_, hd2, hd3⟩
    rw [setDependencies_of_not_mem _ _ _ hroot]
    exact List.mem_append_left _ hd1

/-- A reference that a step of the traversal takes has exactly one entry in the flat
list. -/
theorem count_ref_of_visit (c : CycloneDX) (root : Component) (v : Visit)
    (hv : v ∈ visits c root) :
    ((Marshal c root).Components.map (fun e => e.BOMRef)).count v.ref = 1 := by
  obtain ⟨⟨i1, _, _⟩, _, _⟩ := Inv_MarshalComponents c root.Components _ (Inv_init _)
  have hmem := (ref_MarshalComponents c root.Components ((BOMRef c root 1).1) _ v hv).2
  have hperm : ((Marshal c root).Components.map (fun e => e.BOMRef)).Perm
      ((MarshalComponents c root.Components
        { next := (BOMRef c root 1).2, components := [], dependencies := [] }).2.components.map
          (fun e => e.BOMRef)) :=
    (List.perm_insertionSort _ _).map _
  rw [hperm.count_eq]
  exact List.count_eq_one_of_mem i1 hmem

/-- The reference of the root and the number of the call of the generator that follows: the
identity string and 1 when the root carries an identity, the second value of the generator
and 2 otherwise. -/
theorem BOMRef_root (c : CycloneDX) (root : Component) :
    (BOMRef c root 1).1 =
      (match root.PackageURL with
        | some p => c.purl p
        | none => c.newUUID 1) ∧
    (BOMRef c root 1).2 = (if root.PackageURL.isNone then 2 else 1) := by
  unfold BOMRef
  cases root.PackageURL <;> simp

/-- An ID generator that never returns a value twice and never returns an identity string of
the tree keeps the contract as far as the root needs it, when the identity of the root, if
it carries one, is not the identity of a component below it. -/
theorem RootUnique_of_injective (c : CycloneDX) (root : Component)
    (h1 : Function.Injective c.newUUID)
    (h2 : ∀ n : Nat, c.newUUID n ∉ identities c root)
    (h3 : ∀ p : PackageURL, root.PackageURL = some p →
      c.purl p ∉ identitiesOfList c root.Components) : RootUnique c root := by
  cases root with
  | mk t name version purl props children =>
    cases purl with
    | none =>
      refine ⟨?_, ?_⟩
      · have := h2 1
        simpa [identities, BOMRef, Component.PackageURL, Component.Components] using this
      · intro k _ hk he
        have hk2 : 2 ≤ k := hk
        have : k = 1 := h1 he
        omega
    | some p =>
      refine ⟨h3 p rfl, ?_⟩
      intro k _ _ he
      have := h2 k
      apply this
      simp only [identities, List.mem_append, List.mem_singleton]
      left
      exact he

/-- The encoder on the tree of the encoder test gives the document that the test expects. -/
theorem Marshal_testRoot : Marshal testEncoder testRoot = testWant := by
  decide

/-- C16, as the encoder has it: with an ID generator that keeps its contract, when the
traversal reaches two components at different positions that carry the same identity
string, the flat list has exactly one entry for that identity, and the dependency entries of
the parents of both hold the shared reference.  (A component below a component whose
identity had been emitted before is not reached.) -/
theorem shared_identity_of_reached (c : CycloneDX) (root : Component) (h : RootUnique c root)
    (i j : Nat) (hi : i < (visits c root).length) (hj : j < (visits c root).length)
    (_ : i ≠ j) (p1 p2 : PackageURL)
    (h1 : ((visits c root).get ⟨i, hi⟩).component.PackageURL = some p1)
    (h2 : ((visits c root).get ⟨j, hj⟩).component.PackageURL = some p2)
    (hid : c.purl p1 = c.purl p2) :
    ((Marshal c root).Components.map (fun e => e.BOMRef)).count (c.purl p1) = 1 ∧
    (∃ d ∈ (Marshal c root).Dependencies,
      d.Ref = ((visits c root).get ⟨i, hi⟩).parent ∧ c.purl p1 ∈ d.Dependencies) ∧
    (∃ d ∈ (Marshal c root).Dependencies,
      d.Ref = ((visits c root).get ⟨j, hj⟩).parent ∧ c.purl p1 ∈ d.Dependencies) := by
  have hv1 := List.get_mem (visits c root) i hi
  have hv2 := List.get_mem (visits c root) j hj
  have hr1 := (ref_MarshalComponents c root.Components ((BOMRef c root 1).1) _ _ hv1).1 p1 h1
  have hr2 := (ref_MarshalComponents c root.Components ((BOMRef c root 1).1) _ _ hv2).1 p2 h2
  refine ⟨?_, ?_, ?_⟩
  · rw [← hr1]
    exact count_ref_of_visit c root _ hv1
  · rw [← hr1]
    exact edge_of_visit c root h _ hv1
  · rw [hid, ← hr2]
    exact edge_of_visit c root h _ hv2

/-- The amended C16 on a tree in which two applications have the same library: one entry
for the library, and an edge from each application. -/
theorem shared_identity_of_reached_witness :
    RootUnique testEncoder sharedTree ∧
    ((Marshal testEncoder sharedTree).Components.map (fun e => e.BOMRef)).count
      "pkg:golang/containerd@1.5.2" = 1 ∧
    (∃ d ∈ (Marshal testEncoder sharedTree).Dependencies,
      d.Ref = "3ff14136-e09f-4df9-80ea-000000000003" ∧
      "pkg:golang/containerd@1.5.2" ∈ d.Dependencies) ∧
    (∃ d ∈ (Marshal testEncoder sharedTree).Dependencies,
      d.Ref = "3ff14136-e09f-4df9-80ea-000000000004" ∧
      "pkg:golang/containerd@1.5.2" ∈ d.Dependencies) := by
  have hu : RootUnique testEncoder sharedTree := by
    unfold RootUnique
    decide
  exact ⟨hu, shared_identity_of_reached testEncoder sharedTree hu 1 3 (by decide) (by decide)
    (by decide)
    { Type_ := "golang", Namespace := "", Name := "containerd", Version := "1.5.2",
      Qualifiers := [], Subpath := "" }
    { Type_ := "golang", Namespace := "", Name := "containerd", Version := "1.5.2",
      Qualifiers := [], Subpath := "" } (by decide) (by decide) rfl⟩

/-- C16 as stated fails: in `dupTree` the components `x` and `y` carry the same identity at
different positions, and `z`, the parent of `y`, is below the second component with the
identity of `kubelet`: the traversal does not reach it, and the only dependency entry that
holds the shared reference is the entry of the parent of `x`. -/
theorem shared_identity_unreached :
    (Marshal testEncoder dupTree).Components.map (fun e => e.Name) = ["x", "a"] ∧
    (Marshal testEncoder dupTree).Dependencies =
      [{ Ref := "3ff14136-e09f-4df9-80ea-000000000002",
         Dependencies := ["pkg:golang/kubelet@1.21.1", "pkg:golang/kubelet@1.21.1"] },
       { Ref := "pkg:golang/containerd@1.5.2", Dependencies := [] },
       { Ref := "pkg:golang/kubelet@1.21.1", Dependencies := ["pkg:golang/containerd@1.5.2"] }] ∧
    ((Marshal testEncoder dupTree).Dependencies.filter
      (fun d => decide ("pkg:golang/containerd@1.5.2" ∈ d.Dependencies))).map (fun d => d.Ref) =
      ["pkg:golang/kubelet@1.21.1"] := by
  decide

/-- The references of the dependency entries of `Marshal`, up to order: those of the
emitted components, and the reference of the root when it is not among them. -/
theorem keys_Marshal (c : CycloneDX) (root : Component) :
    ((Marshal c root).Dependencies.map (fun d => d.Ref)).Nodup ∧
    (BOMRef c root 1).1 ∈ (Marshal c root).Dependencies.map (fun d => d.Ref) ∧
    ∀ e ∈ (Marshal c root).Components,
      e.BOMRef ∈ (Marshal c root).Dependencies.map (fun d => d.Ref) := by
  obtain ⟨⟨_, i2, _⟩, _, _⟩ := Inv_MarshalComponents c root.Components _ (Inv_init _)
  have hperm : ((Marshal c root).Dependencies.map (fun d => d.Ref)).Perm
      ((setDependencies
        (MarshalComponents c root.Components
          { next := (BOMRef c root 1).2, components := [], dependencies := [] }).2.dependencies
        ((BOMRef c root 1).1)
        (Strings.SortStrings (MarshalComponents c root.Components
          { next := (BOMRef c root 1).2, components := [], dependencies := [] }).1)).map (fun d => d.Ref)) :=
    (List.perm_insertionSort _ _).map _
  have hkeys := setDependencies_keys
    (MarshalComponents c root.Components
      { next := (BOMRef c root 1).2, components := [], dependencies := [] }).2.dependencies
    ((BOMRef c root 1).1)
    (Strings.SortStrings (MarshalComponents c root.Components
      { next := (BOMRef c root 1).2, components := [], dependencies := [] }).1)
  refine ⟨hperm.nodup_iff.mpr ?_, hperm.mem_iff.mpr ?_, ?_⟩
  · rw [hkeys]
    split
    · exact i2
    · rename_i hn
      rw [List.nodup_append]
      refine ⟨i2, by simp, ?_⟩
      intro a ha hb
      simp only [List.mem_singleton] at hb
      subst hb
      exact hn ha
  · rw [hkeys]
    split
    · rename_i hm
      exact hm
    · simp
  · intro e he
    apply hperm.mem_iff.mpr
    have he1 : e ∈ (MarshalComponents c root.Components
        { next := (BOMRef c root 1).2, components := [], dependencies := [] }).2.components := by
      simpa only [Marshal, List.mem_insertionSort] using he
    have hk := (keys_MarshalComponents_init c root.Components _ e.BOMRef).mpr
      (List.mem_map.mpr ⟨e, he1, rfl⟩)
    rw [hkeys]
    split
    · exact hk
    · exact List.mem_append_left _ hk

/-- C17: every component of the flat list, and the root, is the reference of exactly one
dependency entry; the components of the flat list are the components that the traversal
emits; and, with an ID generator that keeps its contract, an emitted component without
children has the entry with the empty list, as has a root without children. -/
theorem every_component_has_one_entry (c : CycloneDX) (root : Component) :
    (∀ e ∈ (Marshal c root).Components,
      ((Marshal c root).Dependencies.map (fun d => d.Ref)).count e.BOMRef = 1) ∧
    ((Marshal c root).Dependencies.map (fun d => d.Ref)).count
      (Marshal c root).Metadata.Component.BOMRef = 1 ∧
    (∀ e : cdx.Component, e ∈ (Marshal c root).Components ↔
      ∃ v ∈ visits c root, v.emitted = true ∧ e = render c v.component v.ref) ∧
    (RootUnique c root → ∀ v ∈ visits c root, v.emitted = true → v.component.Components = [] →
      ({ Ref := v.ref, Dependencies := [] } : cdx.Dependency) ∈ (Marshal c root).Dependencies) ∧
    (root.Components = [] →
      ({ Ref := (Marshal c root).Metadata.Component.BOMRef, Dependencies := [] } :
        cdx.Dependency) ∈ (Marshal c root).Dependencies) := by
  obtain ⟨k1, k2, k3⟩ := keys_Marshal c root
  refine ⟨fun e he => List.count_eq_one_of_mem k1 (k3 e he), List.count_eq_one_of_mem k1 k2,
    mem_Marshal_components c root, ?_, ?_⟩
  · intro h v hv he hc
    obtain ⟨d, hd1, hd2, hd3⟩ :=
      (edges_MarshalComponents c root.Components ((BOMRef c root 1).1) _ (Inv_init _) v hv).2 he
    have hd4 := hd3 hc
    have hd5 : d = { Ref := v.ref, Dependencies := [] } := by
      cases d
      simp only at hd2 hd4
      rw [hd2, hd4]
    rw [← hd5]
    apply (mem_Marshal_dependencies c root d).mpr
    rw [setDependencies_of_not_mem _ _ _ (root_not_key c root h)]
    exact List.mem_append_left _ hd1
  · intro hc
    apply (mem_Marshal_dependencies c root _).mpr
    have := mem_setDependencies_self
      (MarshalComponents c root.Components
        { next := (BOMRef c root 1).2, components := [], dependencies := [] }).2.dependencies
      ((BOMRef c root 1).1)
      (Strings.SortStrings (MarshalComponents c root.Components
        { next := (BOMRef c root 1).2, components := [], dependencies := [] }).1)
    rw [hc] at this ⊢
    exact this

/-- C17 on the tree of the encoder test: the leaves `ubuntu`, `kubelet` and `containerd` and
the container have entries with the empty list. -/
theorem every_component_has_one_entry_witness :
    RootUnique testEncoder testRoot ∧
    ((Marshal testEncoder testRoot).Dependencies.filter
      (fun d => d.Dependencies.isEmpty)).map (fun d => d.Ref) =
      ["3ff14136-e09f-4df9-80ea-000000000005", "pkg:golang/containerd@1.5.2",
       "pkg:golang/kubelet@1.21.1",
       "pkg:oci/kube-apiserver@" ++ testDigest ++
         "?repository_url=k8s.gcr.io%2Fkube-apiserver&arch="] ∧
    ({ Ref := "3ff14136-e09f-4df9-80ea-000000000005", Dependencies := [] } : cdx.Dependency) ∈
      (Marshal testEncoder testRoot).Dependencies := by
  have hu : RootUnique testEncoder testRoot := by
    unfold RootUnique
    decide
  refine ⟨hu, by decide, ?_⟩
  exact (every_component_has_one_entry testEncoder testRoot).2.2.2.1 hu
    ((visits testEncoder testRoot).get ⟨3, by decide⟩) (List.get_mem _ _ _) (by decide)
    rfl

/-- C18, for the root and the components that the traversal reaches: the serial number takes
the first value of the generator.  The root takes its identity string as reference, and has
it as rendered package URL, when it carries an identity; otherwise it takes the second
value of the generator, and its package URL is empty.  A component that the traversal
reaches takes its identity string as reference when it carries an identity, and the
components without an identity that the traversal reaches take the following values of the
generator, one after the other in the order of the traversal; no other call of the
generator is made, so that a component with an identity draws none.  The flat list holds
the rendered forms of the emitted components, and a rendered form has the reference as
package URL when the component carries an identity and an empty package URL otherwise. -/
theorem references_of_reached (c : CycloneDX) (root : Component) :
    (Marshal c root).SerialNumber = "urn:uuid:" ++ c.newUUID 0 ∧
    (∀ p : PackageURL, root.PackageURL = some p →
      (Marshal c root).Metadata.Component.BOMRef = c.purl p ∧
      (Marshal c root).Metadata.Component.PackageURL = c.purl p) ∧
    (root.PackageURL = none →
      (Marshal c root).Metadata.Component.BOMRef = c.newUUID 1 ∧
      (Marshal c root).Metadata.Component.PackageURL = "") ∧
    (∀ v ∈ visits c root, ∀ p : PackageURL, v.component.PackageURL = some p →
      v.ref = c.purl p) ∧
    ((visits c root).filter (fun v => v.component.PackageURL.isNone)).map (fun v => v.ref) =
      (List.range' (if root.PackageURL.isNone then 2 else 1)
        ((visits c root).filter (fun v => v.component.PackageURL.isNone)).length).map
          c.newUUID ∧
    drawn c root = (if root.PackageURL.isNone then 2 else 1) +
      ((visits c root).filter (fun v => v.component.PackageURL.isNone)).length ∧
    (∀ e : cdx.Component, e ∈ (Marshal c root).Components ↔
      ∃ v ∈ visits c root, v.emitted = true ∧ e = render c v.component v.ref) ∧
    (∀ v ∈ visits c root,
      (∀ p : PackageURL, v.component.PackageURL = some p →
        (render c v.component v.ref).PackageURL = (render c v.component v.ref).BOMRef) ∧
      (v.component.PackageURL = none → (render c v.component v.ref).PackageURL = "")) := by
  obtain ⟨hb1, hb2⟩ := BOMRef_root c root
  obtain ⟨h, hmono⟩ := next_MarshalComponents c root.Components (BOMRef c root 1).1
    { next := (BOMRef c root 1).2, components := [], dependencies := [] }
  have hl := congrArg List.length h
  simp only [List.length_map, List.length_range'] at hl
  refine ⟨rfl, ?_, ?_, ?_, ?_, ?_, mem_Marshal_components c root, ?_⟩
  · intro p hp
    simp only [Marshal, render, hb1, hp, and_self]
  · intro hp
    simp only [Marshal, render, hb1, hp, and_self]
  · intro v hv
    exact (ref_MarshalComponents c root.Components (BOMRef c root 1).1 _ v hv).1
  · unfold visits
    rw [hl, ← hb2]
    exact h
  · unfold visits drawn
    rw [hl, ← hb2]
    simp only at hmono
    omega
  · intro v hv
    have hr := (ref_MarshalComponents c root.Components (BOMRef c root 1).1 _ v hv).1
    constructor
    · intro p hp
      simp only [render, hp]
      exact (hr p hp).symm
    · intro hp
      simp only [render, hp]

/-- C18 on a root that carries an identity and on the tree of the encoder test: the root of
`identityRoot` takes its identity string, and the component below it the second value of
the generator; the root of the test takes the second value, and the four components
without an identity below it the third to the sixth. -/
theorem references_of_reached_witness :
    (Marshal testEncoder identityRoot).Metadata.Component.BOMRef = "pkg:oci/image@sha256:0" ∧
    (Marshal testEncoder identityRoot).Metadata.Component.PackageURL =
      "pkg:oci/image@sha256:0" ∧
    ((visits testEncoder identityRoot).filter
      (fun v => v.component.PackageURL.isNone)).map (fun v => v.ref) =
      ["3ff14136-e09f-4df9-80ea-000000000002"] ∧
    (Marshal testEncoder testRoot).Metadata.Component.BOMRef =
      "3ff14136-e09f-4df9-80ea-000000000002" ∧
    ((visits testEncoder testRoot).filter
      (fun v => v.component.PackageURL.isNone)).map (fun v => v.ref) =
      ["3ff14136-e09f-4df9-80ea-000000000003", "3ff14136-e09f-4df9-80ea-000000000004",
       "3ff14136-e09f-4df9-80ea-000000000005", "3ff14136-e09f-4df9-80ea-000000000006"] ∧
    drawn testEncoder testRoot = 6 := by
  have h1 := (references_of_reached testEncoder identityRoot).2.1
    { Type_ := "oci", Namespace := "", Name := "image", Version := "sha256:0",
      Qualifiers := [], Subpath := "" } rfl
  have h2 := references_of_reached testEncoder testRoot
  exact ⟨h1.1.trans (by decide), h1.2.trans (by decide),
    (references_of_reached testEncoder identityRoot).2.2.2.2.1.trans (by decide),
    (h2.2.2.1 rfl).1.trans (by decide), h2.2.2.2.2.1.trans (by decide),
    h2.2.2.2.2.2.1.trans (by decide)⟩

/-- C18 as stated fails for a component that the traversal does not reach.  In `dupTree` the
component `z` carries no identity and is below the second component with the identity of
`kubelet`: the traversal reaches `a`, `x` and `b` and not `z`, the calls of the generator
for the serial number and for the root are the only ones, and `z` is not in the flat list:
it has no reference, and no value of the generator is taken for it. -/
theorem references_unreached :
    (visits testEncoder dupTree).map (fun v => v.component.Name) = ["a", "x", "b"] ∧
    drawn testEncoder dupTree = 2 ∧
    (Marshal testEncoder dupTree).Components.map (fun e => e.Name) = ["x", "a"] ∧
    (Marshal testEncoder dupTree).Components.map (fun e => e.BOMRef) =
      ["pkg:golang/containerd@1.5.2", "pkg:golang/kubelet@1.21.1"] := by
  decide

/-- The lookup by reference does not look at the order of the flat list. -/
theorem emitted_perm (st st1 : MarshalState) (h : st.components.Perm st1.components)
    (ref : String) : emitted st ref = emitted st1 ref := by
  rw [Bool.eq_iff_iff, emitted_iff, emitted_iff]
  exact (h.map _).mem_iff

/-- Recording an entry in dependency entries that differ in their order only. -/
theorem setDependencies_perm (deps deps1 : List cdx.Dependency) (h : deps.Perm deps1)
    (ref : String) (refs : List String) :
    (setDependencies deps ref refs).Perm (setDependencies deps1 ref refs) := by
  have hany : deps.any (fun d => d.Ref == ref) = deps1.any (fun d => d.Ref == ref) := by
    rw [Bool.eq_iff_iff, List.any_eq_true, List.any_eq_true]
    constructor
    · rintro ⟨d, hd, hr⟩
      exact ⟨d, h.mem_iff.mp hd, hr⟩
    · rintro ⟨d, hd, hr⟩
      exact ⟨d, h.mem_iff.mpr hd, hr⟩
  unfold setDependencies
  rw [hany]
  split
  · exact h.map _
  · exact h.append_right _

theorem sameUpToOrder_rfl (st : MarshalState) : SameUpToOrder st st :=
  ⟨rfl, List.Perm.refl _, List.Perm.refl _⟩

mutual

/-- The visit of a component from two states that differ in the order of their lists only
returns the same reference and leaves states that differ in the order of their lists
only. -/
theorem MarshalComponent_perm (c : CycloneDX) :
    ∀ (comp : Component) (st st1 : MarshalState), SameUpToOrder st st1 →
      (MarshalComponent c comp st).1 = (MarshalComponent c comp st1).1 ∧
      SameUpToOrder (MarshalComponent c comp st).2 (MarshalComponent c comp st1).2
  | .mk t n v p ps children, st, st1, hs => by
    obtain ⟨hn, hc, hd⟩ := hs
    have hr : BOMRef c (.mk t n v p ps children) st1.next =
        BOMRef c (.mk t n v p ps children) st.next := by rw [hn]
    have he := emitted_perm st st1 hc (BOMRef c (.mk t n v p ps children) st.next).1
    by_cases h : emitted st (BOMRef c (.mk t n v p ps children) st.next).1 = true
    · have h1 : emitted st1 (BOMRef c (.mk t n v p ps children) st1.next).1 = true := by
        rw [hr, ← he]
        exact h
      rw [MarshalComponent_reused c _ st h, MarshalComponent_reused c _ st1 h1, hr]
      exact ⟨rfl, rfl, hc, hd⟩
    · have h0 := Bool.eq_false_iff.mpr h
      have h1 : emitted st1 (BOMRef c (.mk t n v p ps children) st1.next).1 = false := by
        rw [hr, ← he]
        exact h0
      have ih := MarshalComponents_perm c children
        (enter c (.mk t n v p ps children) st (BOMRef c (.mk t n v p ps children) st.next))
        (enter c (.mk t n v p ps children) st1 (BOMRef c (.mk t n v p ps children) st.next))
        ⟨rfl, hc.append_right _, hd⟩
      rw [MarshalComponent_new c _ st h0, MarshalComponent_new c _ st1 h1, hr]
      simp only [Component.Components]
      obtain ⟨ih1, ih2, ih3, ih4⟩ := ih
      refine ⟨trivial, ih2, ih3, ?_⟩
      simp only
      rw [← ih1]
      exact setDependencies_perm _ _ ih4 _ _

/-- The visit of a list of children from two states that differ in the order of their lists
only. -/
theorem MarshalComponents_perm (c : CycloneDX) :
    ∀ (l : List Component) (st st1 : MarshalState), SameUpToOrder st st1 →
      (MarshalComponents c l st).1 = (MarshalComponents c l st1).1 ∧
      SameUpToOrder (MarshalComponents c l st).2 (MarshalComponents c l st1).2
  | [], st, st1, hs => by
    constructor
    · simp [MarshalComponents]
    · simpa [MarshalComponents] using hs
  | child :: rest, st, st1, hs => by
    obtain ⟨h1, h2⟩ := MarshalComponent_perm c child st st1 hs
    obtain ⟨h3, h4⟩ := MarshalComponents_perm c rest (MarshalComponent c child st).2
      (MarshalComponent c child st1).2 h2
    simp only [MarshalComponents]
    exact ⟨by rw [h1, h3], h4⟩

end

/-- The visit of a list of children, part by part. -/
theorem MarshalComponents_append (c : CycloneDX) :
    ∀ (pre l : List Component) (st : MarshalState),
      MarshalComponents c (pre ++ l) st =
        ((MarshalComponents c pre st).1 ++
            (MarshalComponents c l (MarshalComponents c pre st).2).1,
          (MarshalComponents c l (MarshalComponents c pre st).2).2) := by
  intro pre
  induction pre with
  | nil => intro l st; simp [MarshalComponents]
  | cons a as ih =>
    intro l st
    have h := ih l (MarshalComponent c a st).2
    simp only [List.cons_append, MarshalComponents]
    rw [show as.append l = as ++ l from rfl, h]

/-- The visit of a component without children that carries an identity: the reference is
the identity string; when it has an emitted component the state stays, and otherwise the
rendered form and the empty dependency entry are added. -/
theorem MarshalComponent_leaf (c : CycloneDX) (x : Component) (px : PackageURL)
    (hx : x.Components = []) (hp : x.PackageURL = some px) (st : MarshalState) :
    MarshalComponent c x st =
      (c.purl px,
        if emitted st (c.purl px) = true then st
        else { st with
          components := st.components ++ [render c x (c.purl px)],
          dependencies := setDependencies st.dependencies (c.purl px) [] }) := by
  have hr : BOMRef c x st.next = (c.purl px, st.next) := by
    unfold BOMRef
    rw [hp]
  by_cases h : emitted st (c.purl px) = true
  · rw [MarshalComponent_reused c x st (by rw [hr]; exact h), hr, if_pos h]
  · rw [MarshalComponent_new c x st (by rw [hr]; exact Bool.eq_false_iff.mpr h), hr, hx,
      if_neg h]
    simp [MarshalComponents, enter, Strings.SortStrings]

/-- Two components without children and with different identity strings can be visited in
either order: the states differ in the order of their lists only. -/
theorem swap_leaves (c : CycloneDX) (x y : Component) (px py : PackageURL)
    (hx : x.Components = []) (hy : y.Components = [])
    (hpx : x.PackageURL = some px) (hpy : y.PackageURL = some py)
    (hne : c.purl px ≠ c.purl py) (st : MarshalState) (hinv : Inv st) :
    (MarshalComponent c x st).1 = c.purl px ∧
    (MarshalComponent c y (MarshalComponent c x st).2).1 = c.purl py ∧
    (MarshalComponent c y st).1 = c.purl py ∧
    (MarshalComponent c x (MarshalComponent c y st).2).1 = c.purl px ∧
    SameUpToOrder (MarshalComponent c y (MarshalComponent c x st).2).2
      (MarshalComponent c x (MarshalComponent c y st).2).2 := by
  have hadd : ∀ (z : Component) (r q : String), r ≠ q →
      emitted { st with
        components := st.components ++ [render c z r],
        dependencies := setDependencies st.dependencies r [] } q = emitted st q := by
    intro z r q hrq
    simp only [emitted, List.any_append, List.any_cons, List.any_nil, render, Bool.or_false]
    have : (r == q) = false := by simpa using hrq
    rw [this, Bool.or_false]
  simp only [MarshalComponent_leaf c x px hx hpx, MarshalComponent_leaf c y py hy hpy]
  refine ⟨trivial, trivial, trivial, trivial, ?_⟩
  by_cases h1 : emitted st (c.purl px) = true
  · by_cases h2 : emitted st (c.purl py) = true
    · simp only [if_pos h1, if_pos h2]
      exact sameUpToOrder_rfl st
    · simp only [if_pos h1, if_neg h2, hadd y _ _ (Ne.symm hne)]
      exact sameUpToOrder_rfl _
  · by_cases h2 : emitted st (c.purl py) = true
    · simp only [if_neg h1, if_pos h2, hadd x _ _ hne]
      exact sameUpToOrder_rfl _
    · simp only [if_neg h1, if_neg h2, hadd x _ _ hne, hadd y _ _ (Ne.symm hne)]
      obtain ⟨_, _, i3⟩ := hinv
      have k1 : c.purl px ∉ st.dependencies.map (fun d => d.Ref) := by
        intro hk
        obtain ⟨d, hd, hr⟩ := List.mem_map.mp hk
        have := i3 d hd
        rw [hr] at this
        exact h1 ((emitted_iff st _).mpr this)
      have k2 : c.purl py ∉ st.dependencies.map (fun d => d.Ref) := by
        intro hk
        obtain ⟨d, hd, hr⟩ := List.mem_map.mp hk
        have := i3 d hd
        rw [hr] at this
        exact h2 ((emitted_iff st _).mpr this)
      have k3 : c.purl py ∉
          (st.dependencies ++ [({ Ref := c.purl px, Dependencies := [] } : cdx.Dependency)]).map
            (fun d => d.Ref) := by
        simp only [List.map_append, List.map_cons, List.map_nil, List.mem_append,
          List.mem_singleton, not_or]
        exact ⟨k2, Ne.symm hne⟩
      have k4 : c.purl px ∉
          (st.dependencies ++ [({ Ref := c.purl py, Dependencies := [] } : cdx.Dependency)]).map
            (fun d => d.Ref) := by
        simp only [List.map_append, List.map_cons, List.map_nil, List.mem_append,
          List.mem_singleton, not_or]
        exact ⟨k1, hne⟩
      rw [setDependencies_of_not_mem _ _ _ k1, setDependencies_of_not_mem _ _ _ k2,
        setDependencies_of_not_mem _ _ _ k3, setDependencies_of_not_mem _ _ _ k4]
      refine ⟨rfl, ?_, ?_⟩
      · simp only [List.append_assoc]
        exact List.Perm.append_left _ (List.Perm.swap _ _ _)
      · simp only [List.append_assoc]
        exact List.Perm.append_left _ (List.Perm.swap _ _ _)

/-- Two components that differ in their children only, when the visits of the two lists of
children return the same references up to order and leave states that differ in the order
of their lists only: so do the visits of the two components, with the same reference. -/
theorem MarshalComponent_congr (c : CycloneDX) (a b : Component)
    (ht : a.Type_ = b.Type_) (hn : a.Name = b.Name) (hv : a.Version = b.Version)
    (hp : a.PackageURL = b.PackageURL) (hps : a.Properties = b.Properties)
    (hch : ∀ st : MarshalState, Inv st →
      ((MarshalComponents c a.Components st).1).Perm (MarshalComponents c b.Components st).1 ∧
      SameUpToOrder (MarshalComponents c a.Components st).2
        (MarshalComponents c b.Components st).2)
    (st : MarshalState) (hinv : Inv st) :
    (MarshalComponent c a st).1 = (MarshalComponent c b st).1 ∧
    SameUpToOrder (MarshalComponent c a st).2 (MarshalComponent c b st).2 := by
  have hr : BOMRef c b st.next = BOMRef c a st.next := by
    unfold BOMRef
    rw [hp]
  have henter : enter c b st (BOMRef c a st.next) = enter c a st (BOMRef c a st.next) := by
    unfold enter render
    rw [ht, hn, hv, hp, hps]
  by_cases h : emitted st (BOMRef c a st.next).1 = true
  · rw [MarshalComponent_reused c a st h, MarshalComponent_reused c b st (by rw [hr]; exact h),
      hr]
    exact ⟨rfl, sameUpToOrder_rfl _⟩
  · have h0 := Bool.eq_false_iff.mpr h
    obtain ⟨k1, k2, k3, k4⟩ := hch (enter c a st (BOMRef c a st.next)) (Inv_enter c a st hinv h0)
    rw [MarshalComponent_new c a st h0, MarshalComponent_new c b st (by rw [hr]; exact h0), hr,
      henter]
    refine ⟨rfl, k2, k3, ?_⟩
    simp only
    rw [Strings.sortStrings_perm _ _ k1]
    exact setDependencies_perm _ _ k4 _ _

/-- Two lists of children that differ in one child, when the visits of the two children
return the same reference and leave states that differ in the order of their lists only. -/
theorem MarshalComponents_congr (c : CycloneDX) (a b : Component)
    (hab : ∀ st : MarshalState, Inv st →
      (MarshalComponent c a st).1 = (MarshalComponent c b st).1 ∧
      SameUpToOrder (MarshalComponent c a st).2 (MarshalComponent c b st).2)
    (pre post : List Component) (st : MarshalState) (hinv : Inv st) :
    ((MarshalComponents c (pre ++ a :: post) st).1).Perm
      (MarshalComponents c (pre ++ b :: post) st).1 ∧
    SameUpToOrder (MarshalComponents c (pre ++ a :: post) st).2
      (MarshalComponents c (pre ++ b :: post) st).2 := by
  obtain ⟨i1, _, _⟩ := Inv_MarshalComponents c pre st hinv
  obtain ⟨h1, h2⟩ := hab (MarshalComponents c pre st).2 i1
  obtain ⟨h3, h4⟩ := MarshalComponents_perm c post _ _ h2
  rw [MarshalComponents_append, MarshalComponents_append]
  simp only [MarshalComponents]
  rw [h1, h3]
  exact ⟨List.Perm.refl _, h4⟩

/-- Two lists of children that differ in the order of two neighbours, both without children
and with different identity strings. -/
theorem MarshalComponents_swap (c : CycloneDX) (x y : Component) (px py : PackageURL)
    (hx : x.Components = []) (hy : y.Components = [])
    (hpx : x.PackageURL = some px) (hpy : y.PackageURL = some py)
    (hne : c.purl px ≠ c.purl py) (pre post : List Component) (st : MarshalState)
    (hinv : Inv st) :
    ((MarshalComponents c (pre ++ x :: y :: post) st).1).Perm
      (MarshalComponents c (pre ++ y :: x :: post) st).1 ∧
    SameUpToOrder (MarshalComponents c (pre ++ x :: y :: post) st).2
      (MarshalComponents c (pre ++ y :: x :: post) st).2 := by
  obtain ⟨i1, _, _⟩ := Inv_MarshalComponents c pre st hinv
  obtain ⟨h1, h2, h3, h4, h5⟩ :=
    swap_leaves c x y px py hx hy hpx hpy hne (MarshalComponents c pre st).2 i1
  obtain ⟨h6, h7⟩ := MarshalComponents_perm c post _ _ h5
  rw [MarshalComponents_append, MarshalComponents_append]
  simp only [MarshalComponents]
  rw [h1, h2, h3, h4, h6]
  exact ⟨List.Perm.append_left _ (List.Perm.swap _ _ _), h7⟩

/-- Two trees that differ by an exchange of two neighbouring children without children and
with different identity strings: the roots differ in their children only, and the visits of
the two lists of children return the same references up to order and leave states that
differ in the order of their lists only. -/
theorem SwapLeaves_agree (c : CycloneDX) (a b : Component) (h : SwapLeaves c a b) :
    a.Type_ = b.Type_ ∧ a.Name = b.Name ∧ a.Version = b.Version ∧
    a.PackageURL = b.PackageURL ∧ a.Properties = b.Properties ∧
    ∀ st : MarshalState, Inv st →
      ((MarshalComponents c a.Components st).1).Perm (MarshalComponents c b.Components st).1 ∧
      SameUpToOrder (MarshalComponents c a.Components st).2
        (MarshalComponents c b.Components st).2 := by
  induction h with
  | swap t name version purl props pre post x y px py hx hy hpx hpy hne =>
    refine ⟨rfl, rfl, rfl, rfl, rfl, ?_⟩
    intro st hinv
    exact MarshalComponents_swap c x y px py hx hy hpx hpy hne pre post st hinv
  | inChild t name version purl props pre post a b _ ih =>
    refine ⟨rfl, rfl, rfl, rfl, rfl, ?_⟩
    intro st hinv
    obtain ⟨k1, k2, k3, k4, k5, k6⟩ := ih
    exact MarshalComponents_congr c a b
      (fun s hs => MarshalComponent_congr c a b k1 k2 k3 k4 k5 k6 s hs) pre post st hinv

/-- No two components of the flat list of `Marshal` have the same reference. -/
theorem nodup_Marshal_components (c : CycloneDX) (root : Component) :
    ((Marshal c root).Components.map (fun e => e.BOMRef)).Nodup := by
  obtain ⟨⟨i1, _, _⟩, _, _⟩ := Inv_MarshalComponents c root.Components _
    (Inv_init (BOMRef c root 1).2)
  have hperm : ((Marshal c root).Components.map (fun e => e.BOMRef)).Perm
      ((MarshalComponents c root.Components
        { next := (BOMRef c root 1).2, components := [], dependencies := [] }).2.components.map
          (fun e => e.BOMRef)) :=
    (List.perm_insertionSort _ _).map _
  exact hperm.nodup_iff.mpr i1

/-- Two documents with the same fields are the same document. -/
theorem BOM_eq (b1 b2 : cdx.BOM) (h1 : b1.BOMFormat = b2.BOMFormat)
    (h2 : b1.SpecVersion = b2.SpecVersion) (h3 : b1.Version = b2.Version)
    (h4 : b1.SerialNumber = b2.SerialNumber) (h5 : b1.Metadata = b2.Metadata)
    (h6 : b1.Components = b2.Components) (h7 : b1.Dependencies = b2.Dependencies) :
    b1 = b2 := by
  cases b1
  cases b2
  simp only at h1 h2 h3 h4 h5 h6 h7
  rw [h1, h2, h3, h4, h5, h6, h7]

/-- The exchange of two neighbouring children without children and with different identity
strings leaves the document as it is. -/
theorem Marshal_swapLeaves (c : CycloneDX) (root root1 : Component)
    (h : SwapLeaves c root root1) : Marshal c root1 = Marshal c root := by
  obtain ⟨k1, k2, k3, k4, k5, k6⟩ := SwapLeaves_agree c root root1 h
  have hr : BOMRef c root1 1 = BOMRef c root 1 := by
    unfold BOMRef
    rw [k4]
  have hrender : render c root1 (BOMRef c root 1).1 = render c root (BOMRef c root 1).1 := by
    unfold render
    rw [k1, k2, k3, k4, k5]
  obtain ⟨p1, _, p3, p4⟩ := k6 { next := (BOMRef c root 1).2, components := [], dependencies := [] }
    (Inv_init _)
  apply BOM_eq
  · rfl
  · rfl
  · rfl
  · rfl
  · simp only [Marshal, hr, hrender]
  · apply Strings.eq_of_sorted_key (fun e : cdx.Component => e.BOMRef)
    · simp only [Marshal, hr]
      exact ((List.perm_insertionSort _ _).trans p3.symm).trans (List.perm_insertionSort _ _).symm
    · exact nodup_Marshal_components c root1
    · exact Strings.sorted_insertionSort_key (fun e : cdx.Component => e.BOMRef) _
    · exact Strings.sorted_insertionSort_key (fun e : cdx.Component => e.BOMRef) _
  · apply Strings.eq_of_sorted_key (fun d : cdx.Dependency => d.Ref)
    · simp only [Marshal, hr]
      rw [Strings.sortStrings_perm _ _ p1]
      exact ((List.perm_insertionSort _ _).trans
        (setDependencies_perm _ _ p4.symm _ _)).trans (List.perm_insertionSort _ _).symm
    · exact (keys_Marshal c root1).1
    · exact Strings.sorted_insertionSort_key (fun d : cdx.Dependency => d.Ref) _
    · exact Strings.sorted_insertionSort_key (fun d : cdx.Dependency => d.Ref) _

/-- C19, as the encoder has it: the flat list is in the order of the references, the
dependency entries are in the order of their references, the list of every dependency entry
is in order, and the properties of every rendered component are in the order of their keys,
every key with the namespace "aquasecurity:trivy:" in front.  The order of the flat list and
of the dependency entries is fixed by the entries and not by the order in which the
traversal comes to them: a document of the encoder with the same components, or the same
dependency entries, has them in the same order.  The exchange of two neighbouring children
that have no children and carry identities with different strings leaves the whole document
as it is: in the encoder test the libraries `kubelet` and `containerd` come out as
`containerd`, `kubelet`, and the document is the same when the tree has them in the other
order. -/
theorem output_is_sorted (c : CycloneDX) (root : Component) :
    List.Sorted (fun a b => Strings.lessEq a.BOMRef b.BOMRef = true) (Marshal c root).Components ∧
    List.Sorted (fun a b => Strings.lessEq a.Ref b.Ref = true) (Marshal c root).Dependencies ∧
    (∀ d ∈ (Marshal c root).Dependencies,
      List.Sorted (fun a b => Strings.lessEq a b = true) d.Dependencies) ∧
    (∀ e : cdx.Component,
      e ∈ (Marshal c root).Components ∨ e = (Marshal c root).Metadata.Component →
      List.Sorted (fun a b => Strings.lessEq a.Name b.Name = true) e.Properties ∧
      ∀ q ∈ e.Properties, Strings.HasPrefix q.Name "aquasecurity:trivy:" = true) ∧
    (∀ root1 : Component,
      ((Marshal c root1).Components.Perm (Marshal c root).Components →
        (Marshal c root1).Components = (Marshal c root).Components) ∧
      ((Marshal c root1).Dependencies.Perm (Marshal c root).Dependencies →
        (Marshal c root1).Dependencies = (Marshal c root).Dependencies)) ∧
    (∀ root1 : Component, SwapLeaves c root root1 → Marshal c root1 = Marshal c root) ∧
    (Marshal testEncoder testRoot).Components.map (fun e => e.Name) =
      ["kube-apiserver-kind-control-plane", "kind-control-plane", "ubuntu",
       "node-core-components", "containerd", "kubelet", "k8s.gcr.io/kube-apiserver"] ∧
    Marshal testEncoder testRootSwapped = Marshal testEncoder testRoot := by
  have hprops : ∀ (comp : Component) (ref : String),
      List.Sorted (fun a b => Strings.lessEq a.Name b.Name = true)
        (render c comp ref).Properties ∧
      ∀ q ∈ (render c comp ref).Properties,
        Strings.HasPrefix q.Name "aquasecurity:trivy:" = true := by
    intro comp ref
    constructor
    · exact Strings.sorted_insertionSort_key (fun q : cdx.Property => q.Name) _
    · intro q hq
      simp only [render, Properties, List.mem_insertionSort, List.mem_map] at hq
      obtain ⟨kv, _, rfl⟩ := hq
      exact Strings.hasPrefix_append _ _
  have hsc : ∀ r : Component, List.Sorted
      (fun a b => Strings.lessEq a.BOMRef b.BOMRef = true) (Marshal c r).Components :=
    fun r => Strings.sorted_insertionSort_key (fun e : cdx.Component => e.BOMRef) _
  have hsd : ∀ r : Component, List.Sorted
      (fun a b => Strings.lessEq a.Ref b.Ref = true) (Marshal c r).Dependencies :=
    fun r => Strings.sorted_insertionSort_key (fun d : cdx.Dependency => d.Ref) _
  refine ⟨hsc root, hsd root, ?_, ?_, ?_, fun root1 h => Marshal_swapLeaves c root root1 h,
    by decide, by decide⟩
  · intro d hd
    rcases mem_setDependencies _ _ _ d ((mem_Marshal_dependencies c root d).mp hd) with h1 | h1
    · exact sorted_MarshalComponents c root.Components _ (fun _ h => by cases h) d h1
    · rw [h1]
      exact Strings.sorted_sortStrings _
  · intro e he
    rcases he with he | he
    · obtain ⟨v, _, _, rfl⟩ := (mem_Marshal_components c root e).mp he
      exact hprops _ _
    · rw [he]
      exact hprops root (BOMRef c root 1).1
  · intro root1
    constructor
    · intro hp
      exact Strings.eq_of_sorted_key (fun e : cdx.Component => e.BOMRef) _ _ hp
        (nodup_Marshal_components c root1) (hsc root1) (hsc root)
    · intro hp
      exact Strings.eq_of_sorted_key (fun d : cdx.Dependency => d.Ref) _ _ hp
        (keys_Marshal c root1).1 (hsd root1) (hsd root)

/-- The amended C19 on the tree of the encoder test: the tree with `kubelet` and
`containerd` in the other order differs from it by an exchange of two neighbouring children
without children and with different identity strings, and gives the same document. -/
theorem output_is_sorted_witness :
    SwapLeaves testEncoder testRoot testRootSwapped ∧
    Marshal testEncoder testRootSwapped = Marshal testEncoder testRoot := by
  have hs : SwapLeaves testEncoder testRoot testRootSwapped := by
    unfold testRoot testRootSwapped
    refine SwapLeaves.inChild _ _ _ _ _ [_] [] _ _ ?_
    refine SwapLeaves.inChild _ _ _ _ _ [_] [] _ _ ?_
    exact SwapLeaves.swap _ _ _ _ _ [] [] _ _
      { Type_ := "golang", Namespace := "", Name := "kubelet", Version := "1.21.1",
        Qualifiers := [], Subpath := "" }
      { Type_ := "golang", Namespace := "", Name := "containerd", Version := "1.5.2",
        Qualifiers := [], Subpath := "" } rfl rfl rfl rfl (by decide)
  exact ⟨hs, (output_is_sorted testEncoder testRoot).2.2.2.2.2.1 testRootSwapped hs⟩

/-- C19 as stated fails: the document depends on the source order of children.  Components
without an identity take their references in the order of the traversal, so that the tree
of the encoder test with its two top-level children in the other order gives another
document, in which the node and not the pod has the third value of the generator; and of
two children without identity the one that comes first has the third value. -/
theorem output_depends_on_child_order :
    Marshal testEncoder (swapTop testRoot) ≠ Marshal testEncoder testRoot ∧
    (Marshal testEncoder testRoot).Components.map (fun e => e.Name) =
      ["kube-apiserver-kind-control-plane", "kind-control-plane", "ubuntu",
       "node-core-components", "containerd", "kubelet", "k8s.gcr.io/kube-apiserver"] ∧
    (Marshal testEncoder (swapTop testRoot)).Components.map (fun e => e.Name) =
      ["kind-control-plane", "ubuntu", "node-core-components",
       "kube-apiserver-kind-control-plane", "containerd", "kubelet",
       "k8s.gcr.io/kube-apiserver"] ∧
    (Marshal testEncoder plainPair).Components.map (fun e => (e.BOMRef, e.Name)) =
      [("3ff14136-e09f-4df9-80ea-000000000003", "one"),
       ("3ff14136-e09f-4df9-80ea-000000000004", "two")] ∧
    (Marshal testEncoder (swapTop plainPair)).Components.map (fun e => (e.BOMRef, e.Name)) =
      [("3ff14136-e09f-4df9-80ea-000000000003", "two"),
       ("3ff14136-e09f-4df9-80ea-000000000004", "one")] ∧
    Marshal testEncoder (swapTop plainPair) ≠ Marshal testEncoder plainPair := by
  decide

end core

/-! ## The runtime string with a repeated separator -/

namespace Strings

/-- The search finds a text that is there, at the place where it is shown or before. -/
theorem indexOf_of_infix (sub r : List Char) :
    ∀ l : List Char, ∃ m : Nat, indexOf sub (l ++ sub ++ r) = some m ∧ m ≤ l.length := by
  intro l
  induction l with
  | nil =>
    refine ⟨0, ?_, Nat.le_refl _⟩
    rw [List.nil_append]
    exact indexOf_of_isPrefixOf _ _ (List.isPrefixOf_iff_prefix.mpr (List.prefix_append _ _))
  | cons c l ih =>
    obtain ⟨m, hm, hle⟩ := ih
    simp only [List.cons_append]
    by_cases hp : sub.isPrefixOf (c :: (l ++ sub ++ r)) = true
    · exact ⟨0, indexOf_of_isPrefixOf _ _ hp, Nat.zero_le _⟩
    · refine ⟨m + 1, ?_, ?_⟩
      · rw [indexOf_cons_of_not _ _ _ (Bool.eq_false_iff.mpr hp), hm]
        rfl
      · simp only [List.length_cons]
        omega

/-- The loop of `Split` returns at least one part. -/
theorem genSplit_length_pos (sep : List Char) (n : Nat) (s : List Char) :
    1 ≤ (genSplit sep n s).length := by
  cases n with
  | zero => simp [genSplit]
  | succ n =>
    rw [genSplit]
    cases indexOf sep s <;> simp

/-- With two rounds or more, the loop of `Split` cuts a text that shows the separator twice,
one occurrence after the other, into three parts at least. -/
theorem genSplit_length_of_two (sep a b c : List Char) (n : Nat) :
    3 ≤ (genSplit sep (n + 2) (a ++ sep ++ b ++ sep ++ c)).length := by
  obtain ⟨m, hm, hle⟩ := indexOf_of_infix sep (b ++ sep ++ c) a
  have hm1 : indexOf sep (a ++ sep ++ b ++ sep ++ c) = some m := by
    simpa [List.append_assoc] using hm
  have hrest : List.drop (m + sep.length) (a ++ sep ++ b ++ sep ++ c) =
      List.drop (m + sep.length) (a ++ sep) ++ b ++ sep ++ c := by
    have hlen : m + sep.length ≤ (a ++ sep).length := by
      simp only [List.length_append]
      omega
    rw [List.append_assoc (a ++ sep), List.append_assoc (a ++ sep),
      List.drop_append_of_le_length hlen]
    simp [List.append_assoc]
  obtain ⟨k, hk, _⟩ := indexOf_of_infix sep c (List.drop (m + sep.length) (a ++ sep) ++ b)
  have hk1 : indexOf sep (List.drop (m + sep.length) (a ++ sep) ++ b ++ sep ++ c) = some k := by
    simpa [List.append_assoc] using hk
  rw [genSplit, hm1]
  simp only
  rw [hrest, genSplit, hk1]
  simp only [List.length_cons]
  have := genSplit_length_pos sep n
    (List.drop (k + sep.length) (List.drop (m + sep.length) (a ++ sep) ++ b ++ sep ++ c))
  omega

end Strings

namespace Strings

/-- The function `Split` cuts a text that shows a non-empty separator twice, one occurrence
after the other, into three parts at least. -/
theorem split_length_of_two (a b c sep : String) (hsep : sep.data ≠ []) :
    3 ≤ (Split (a ++ sep ++ b ++ sep ++ c) sep).length := by
  unfold Split
  simp only [String.data_append, List.length_map]
  have hpos : 0 < sep.data.length := List.length_pos.mpr hsep
  obtain ⟨n, hn⟩ : ∃ n, (a.data ++ sep.data ++ b.data ++ sep.data ++ c.data).length = n + 2 :=
    ⟨(a.data ++ sep.data ++ b.data ++ sep.data ++ c.data).length - 2, by
      simp only [List.length_append]; omega⟩
  rw [hn]
  exact genSplit_length_of_two _ _ _ _ n

/-- A text in which `sub` occurs can be written around an occurrence. -/
theorem exists_of_occ_pos (sub : List Char) :
    ∀ s : List Char, 1 ≤ occ sub s → ∃ l r : List Char, s = l ++ sub ++ r := by
  intro s
  induction s with
  | nil =>
    intro h
    by_cases hp : sub.isPrefixOf [] = true
    · have : sub = [] := by simpa using hp
      exact ⟨[], [], by simp [this]⟩
    · simp [occ, hp] at h
  | cons ch t ih =>
    intro h
    rw [occ_cons] at h
    by_cases hp : sub.isPrefixOf (ch :: t) = true
    · obtain ⟨r, hr⟩ := List.isPrefixOf_iff_prefix.mp hp
      exact ⟨[], r, by simp [hr]⟩
    · rw [if_neg hp] at h
      obtain ⟨l, r, hlr⟩ := ih (by omega)
      exact ⟨ch :: l, r, by simp [hlr]⟩

/-- No occurrence of "://" starts at the second or at the third character of another one:
in a text with two occurrences or more, two of them stand one after the other. -/
theorem exists_of_occ_two :
    ∀ s : List Char, 2 ≤ occ [':', '/', '/'] s →
      ∃ a b c : List Char, s = a ++ [':', '/', '/'] ++ b ++ [':', '/', '/'] ++ c := by
  intro s
  induction s with
  | nil =>
    intro h
    simp [occ] at h
  | cons ch t ih =>
    intro h
    rw [occ_cons] at h
    by_cases hp : [':', '/', '/'].isPrefixOf (ch :: t) = true
    · rw [if_pos hp] at h
      obtain ⟨r, hr⟩ := List.isPrefixOf_iff_prefix.mp hp
      have hch : ch = ':' := by
        have := congrArg List.head? hr
        simpa using this.symm
      have ht : t = '/' :: '/' :: r := by
        have := congrArg List.tail hr
        simpa using this.symm
      have h1 : occ [':', '/', '/'] t = occ [':', '/', '/'] r := by
        rw [ht, occ_cons, occ_cons]
        simp
      obtain ⟨b, c, hbc⟩ := exists_of_occ_pos [':', '/', '/'] r (by omega)
      exact ⟨[], b, c, by simp [hch, ht, hbc]⟩
    · rw [if_neg hp] at h
      obtain ⟨a, b, c, habc⟩ := ih (by omega)
      exact ⟨ch :: a, b, c, by simp [habc]⟩

/-- A text that shows a non-empty `sub` twice, one occurrence after the other, has two
occurrences or more. -/
theorem occ_two_of_exists (sub a b c : List Char) (h : sub ≠ []) :
    2 ≤ occ sub (a ++ sub ++ b ++ sub ++ c) := by
  have h1 := occ_le_append sub (sub ++ (b ++ (sub ++ c))) a
  have h2 := occ_prefix_append sub (b ++ (sub ++ c)) h
  have h3 := occ_le_append sub (sub ++ c) b
  have h4 := occ_prefix_append sub c h
  have e1 : a ++ sub ++ b ++ sub ++ c = a ++ (sub ++ (b ++ (sub ++ c))) := by
    simp [List.append_assoc]
  rw [e1]
  omega

end Strings

namespace scanner

/-- When `Split` returns three parts or more, `runtimeNameVersion` returns two empty
strings. -/
theorem runtimeNameVersion_of_three (name : String)
    (h : 3 ≤ (Strings.Split name "://").length) : runtimeNameVersion name = ("", "") := by
  unfold runtimeNameVersion
  match hs : Strings.Split name "://" with
  | [] => rfl
  | [_] => rfl
  | [_, _] => simp [hs] at h
  | _ :: _ :: _ :: _ => rfl

/-- C21: on a text that shows "://" twice, one occurrence after the other (a text
`a ++ "://" ++ b ++ "://" ++ c`), and so on every text in which "://" occurs at two
positions or more, `runtimeNameVersion` returns two empty strings.  That is its result on a
text without "://"; it is not the looked-up name before the first shown occurrence with the
rest of the text as the version. -/
theorem runtimeNameVersion_repeated_separator :
    (∀ a b c : String, runtimeNameVersion (a ++ "://" ++ b ++ "://" ++ c) = ("", "")) ∧
    (∀ s : String, 2 ≤ Strings.occurrences s "://" → runtimeNameVersion s = ("", "")) ∧
    (∀ a b c t : String, Strings.Index t "://" = -1 →
      runtimeNameVersion (a ++ "://" ++ b ++ "://" ++ c) = runtimeNameVersion t) ∧
    (∀ a b c : String,
      runtimeNameVersion (a ++ "://" ++ b ++ "://" ++ c) ≠
        (runtimeNameLookup a, b ++ "://" ++ c)) := by
  have h1 : ∀ a b c : String, runtimeNameVersion (a ++ "://" ++ b ++ "://" ++ c) = ("", "") :=
    fun a b c => runtimeNameVersion_of_three _ (Strings.split_length_of_two a b c "://" (by decide))
  refine ⟨h1, ?_, ?_, ?_⟩
  · intro s h
    obtain ⟨a, b, c, habc⟩ := Strings.exists_of_occ_two s.data h
    have hs : s = String.mk a ++ "://" ++ String.mk b ++ "://" ++ String.mk c := by
      apply String.ext
      simp only [String.data_append]
      exact habc
    rw [hs]
    exact h1 _ _ _
  · intro a b c t ht
    rw [h1]
    unfold runtimeNameVersion
    rw [Strings.split_of_index_neg t "://" ht]
  · intro a b c h
    rw [h1] at h
    have h2 : (b ++ "://" ++ c).data = [] :=
      congrArg String.data (congrArg Prod.snd h).symm
    simp [String.data_append] at h2

/-- C21 at "containerd://1.5.2://x" and at "a://b://c". -/
theorem runtimeNameVersion_repeated_separator_witness :
    runtimeNameVersion "containerd://1.5.2://x" = ("", "") ∧
    2 ≤ Strings.occurrences "a://b://c" "://" ∧
    runtimeNameVersion "a://b://c" = ("", "") ∧
    Strings.Index "unknown" "://" = -1 ∧
    runtimeNameVersion "containerd://1.5.2://x" = runtimeNameVersion "unknown" ∧
    runtimeNameVersion "containerd://1.5.2://x" ≠
      ("github.com/containerd/containerd", "1.5.2://x") :=
  ⟨runtimeNameVersion_repeated_separator.1 "containerd" "1.5.2" "x",
   by decide,
   runtimeNameVersion_repeated_separator.2.1 "a://b://c" (by decide),
   by decide,
   runtimeNameVersion_repeated_separator.2.2.1 "containerd" "1.5.2" "x" "unknown" (by decide),
   runtimeNameVersion_repeated_separator.2.2.2 "containerd" "1.5.2" "x"⟩

end scanner
